import Mathlib

/-!
# Mini-cursor: command engine and agent loop

A shallow embedding of `src/index.js`:

* A JavaScript string is the list of its UTF-16 code units (`Str`), so that a surrogate
  without partner, which `JSON.parse` can produce, is a value of the type.
* The regular expressions are transcribed atom by atom (`Atom`) and run by a backtracking
  matcher (`matchAtoms`) that tries the repetition counts in the order the ECMAScript
  semantics prescribes (longest first for greedy quantifiers, shortest first for lazy ones).
* `node:fs`, `node:path` and `process.chdir/cwd` are modelled by a POSIX directory tree of
  regular files, directories and devices, without symbolic links and without permissions
  (`World`).  Paths and contents reach the tree in UTF-8, so a surrogate without partner
  arrives as U+FFFD (`toWellFormed`).
* The subprocess started by the raw-shell branch, the chat backend, `JSON.parse` and the
  members of `Object.prototype` are parameters (`Env`, `Agent`).
-/

namespace MiniCursor

/-- A JavaScript string: its UTF-16 code units. -/
abbrev Str := List Nat

/-! ## Characters and string helpers -/

/-- The UTF-16 code units of a list of characters. -/
def utf16 : List Char → Str
  | [] => []
  | c :: t =>
    if c.toNat < 0x10000 then c.toNat :: utf16 t
    else (0xD800 + (c.toNat - 0x10000) / 0x400) :: (0xDC00 + (c.toNat - 0x10000) % 0x400) ::
      utf16 t

/-- The JavaScript string a literal denotes. -/
def js (s : String) : Str := utf16 s.toList

/-- The code unit of `"`. -/
abbrev dq : Nat := 34
/-- The code unit of `'`. -/
abbrev sq : Nat := 39
/-- The code unit of `>`. -/
abbrev gt : Nat := 62
/-- The code unit of `/`. -/
abbrev slash : Nat := 47
/-- The code unit of `.`. -/
abbrev dot : Nat := 46
/-- The code unit of the space. -/
abbrev space : Nat := 32
/-- The code unit of the backslash. -/
abbrev backslash : Nat := 92
/-- The code unit of `|`. -/
abbrev pipe : Nat := 124
/-- The code unit of `&`. -/
abbrev amp : Nat := 38
/-- The code unit of `<`. -/
abbrev lt : Nat := 60

/-- The class `\s` of ECMAScript (WhiteSpace and LineTerminator code points); also the set
of characters removed by `String.prototype.trim`. -/
def isJsSpace (n : Nat) : Bool :=
  n == 0x9 || n == 0xA || n == 0xB || n == 0xC || n == 0xD || n == 0x20 || n == 0xA0 ||
  n == 0x1680 || (0x2000 ≤ n && n ≤ 0x200A) || n == 0x2028 || n == 0x2029 ||
  n == 0x202F || n == 0x205F || n == 0x3000 || n == 0xFEFF

/-- The lower-case form of an ASCII capital; every other code unit is left alone. -/
def lower (n : Nat) : Nat := if 65 ≤ n ∧ n ≤ 90 then n + 32 else n

/-- Character comparison under the `i` flag (no `u` flag): for the ASCII letters used by the
patterns, exactly the two cases of the same letter are identified. -/
def ciEq (a b : Nat) : Bool := lower a == lower b

/-- The word `w` is a prefix of `s`, letters compared by `ciEq`. -/
def ciStarts : Str → Str → Bool
  | [], _ => true
  | _ :: _, [] => false
  | a :: w, c :: s => ciEq a c && ciStarts w s

/-- The method `String.prototype.trim`. -/
def trim (s : Str) : Str :=
  ((s.dropWhile isJsSpace).reverse.dropWhile isJsSpace).reverse

/-- The global replacement `.replace(/\\x/g, r)` of a backslash escape: every
non-overlapping occurrence of the two characters `a b`, scanned left to right, becomes `r`. -/
def replaceAll2 (a b r : Nat) : Str → Str
  | [] => []
  | [x] => [x]
  | x :: y :: t =>
    if x = a ∧ y = b then r :: replaceAll2 a b r t else x :: replaceAll2 a b r (y :: t)

/-- The chain `.replace(/\\n/g, '\n').replace(/\\"/g, '"').replace(/\\'/g, "'")
.replace(/\\t/g, '\t')` of `executeCommand`; 110 is `n`, 116 is `t`, 10 the line feed and 9
the tabulation. -/
def decodeEscapes (s : Str) : Str :=
  replaceAll2 backslash 116 9 (replaceAll2 backslash sq sq (replaceAll2 backslash dq dq
    (replaceAll2 backslash 110 10 s)))

/-- The class `["']`. -/
def isQuote (c : Nat) : Bool := c == dq || c == sq

/-- The alternative `["']$` of the outer-quote replacement: a final quote is dropped. -/
def dropTrailingQuote (s : Str) : Str :=
  match s.getLast? with
  | some q => if isQuote q then s.dropLast else s
  | none => []

/-- The replacement `.replace(/^["']|["']$/g, '')`: a quote in first position is removed,
and a quote in last position is removed when it is not that same character. -/
def stripOuterQuotes : Str → Str
  | [] => []
  | c :: t => if isQuote c then dropTrailingQuote t else c :: dropTrailingQuote t

/-- The method `String.prototype.includes` for a one-character needle. -/
def includes (s : Str) (c : Nat) : Bool := s.any (fun x => x == c)

/-- A code unit of the surrogate range. -/
def isSurrogate (n : Nat) : Bool := 0xD800 ≤ n && n ≤ 0xDFFF
/-- A high (leading) surrogate. -/
def isHigh (n : Nat) : Bool := 0xD800 ≤ n && n ≤ 0xDBFF
/-- A low (trailing) surrogate. -/
def isLow (n : Nat) : Bool := 0xDC00 ≤ n && n ≤ 0xDFFF

/-- What a string becomes on its way through UTF-8 (the encoding `'utf8'` of
`fs.writeFileSync`, and the encoding of every path): a high surrogate followed by a low one
is a character and is kept, any other surrogate is replaced by U+FFFD. -/
def toWellFormed : Str → Str
  | [] => []
  | [x] => if isSurrogate x then [0xFFFD] else [x]
  | x :: y :: t =>
    if isHigh x && isLow y then x :: y :: toWellFormed t
    else if isSurrogate x then 0xFFFD :: toWellFormed (y :: t)
    else x :: toWellFormed (y :: t)

/-! ## Regular expressions -/

/-- The pieces the patterns of `executeCommand` are made of.  Every pattern is anchored by
`^` and `$` and carries the `i` flag. -/
inductive Atom where
  /-- One character of a class, as `"` or `>`. -/
  | one (p : Nat → Bool)
  /-- An optional character `c?` (greedy). -/
  | opt (p : Nat → Bool)
  /-- A repetition of a class, at least `min` times: `c*`, `c+` (greedy) or `c*?`, `c+?`
  (lazy); `cap` tells whether the repetition is a capture group. -/
  | rep (p : Nat → Bool) (min : Nat) (greedy : Bool) (cap : Bool)
  /-- A non-capturing alternation of literal words, as `(?:echo|cat)`; one word is a
  plain literal. -/
  | alts (ws : List Str)

/-- The capture groups of a successful match, in order. -/
abbrev Caps := List Str

/-- The repetition counts a quantifier tries, in order, when at most `n` characters are
available. -/
def counts (min n : Nat) (greedy : Bool) : List Nat :=
  if greedy then (List.range' min (n + 1 - min)).reverse else List.range' min (n + 1 - min)

/-- Backtracking over the repetition counts `js`: the first count for which the rest of the
pattern (`k`) matches wins. -/
def tryEach (k : Str → Option Caps) (s : Str) (cap : Bool) : List Nat → Option Caps
  | [] => none
  | j :: js =>
    match k (s.drop j) with
    | some cs => some (if cap then s.take j :: cs else cs)
    | none => tryEach k s cap js

/-- Backtracking over the words of an alternation, left to right. -/
def tryWords (k : Str → Option Caps) (s : Str) : List Str → Option Caps
  | [] => none
  | w :: ws =>
    if ciStarts w s then
      match k (s.drop w.length) with
      | some cs => some cs
      | none => tryWords k s ws
    else tryWords k s ws

/-- One character of class `p`, then the rest of the pattern. -/
def stepOne (p : Nat → Bool) (k : Str → Option Caps) : Str → Option Caps
  | [] => none
  | c :: t => if p c then k t else none

/-- Anchored backtracking match of a pattern against the whole of `s`. -/
def matchAtoms : List Atom → Str → Option Caps
  | [], s => if s.isEmpty then some [] else none
  | Atom.one p :: rest, s => stepOne p (matchAtoms rest) s
  | Atom.opt p :: rest, s =>
    match stepOne p (matchAtoms rest) s with
    | some cs => some cs
    | none => matchAtoms rest s
  | Atom.rep p min greedy cap :: rest, s =>
    tryEach (matchAtoms rest) s cap (counts min (s.takeWhile p).length greedy)
  | Atom.alts ws :: rest, s => tryWords (matchAtoms rest) s ws

/-- The method `String.prototype.match` for a pattern without the `g` flag: `null`, or the
array holding the whole match followed by the capture groups. -/
def jsMatch (re : List Atom) (s : Str) : Option (List Str) :=
  (matchAtoms re s).map (fun cs => s :: cs)

/-- The loop `for (const pattern of patterns) { m = command.match(pattern); if (m) break; }`. -/
def firstMatch : List (List Atom) → Str → Option (List Str)
  | [], _ => none
  | re :: res, s =>
    match jsMatch re s with
    | some m => some m
    | none => firstMatch res s

/-- Element `i` of a match array. -/
def grp (m : List Str) (i : Nat) : Str := m.getD i []

/-- The class `[^"]`. -/
def notDq (c : Nat) : Bool := c != dq
/-- The class `[^']`. -/
def notSq (c : Nat) : Bool := c != sq
/-- The class `[^\s]`. -/
def notSpace (c : Nat) : Bool := !isJsSpace c
/-- The class `[^>]`. -/
def notGt (c : Nat) : Bool := c != gt
/-- The class `[\s\S]`. -/
def anyChar (_ : Nat) : Bool := true
/-- The literal `"`. -/
def isDq (c : Nat) : Bool := c == dq
/-- The literal `'`. -/
def isSq (c : Nat) : Bool := c == sq
/-- The literal `>`. -/
def isGt (c : Nat) : Bool := c == gt

/-- The pattern `/^createFile\s+"([^"]+)"\s+"([\s\S]*)"$/i`. -/
def createFileRe : List Atom :=
  [Atom.alts [js "createFile"], Atom.rep isJsSpace 1 true false, Atom.one isDq,
   Atom.rep notDq 1 true true, Atom.one isDq, Atom.rep isJsSpace 1 true false, Atom.one isDq,
   Atom.rep anyChar 0 true true, Atom.one isDq]

/-- The prefix `^(?:echo|cat)\s+` shared by the six write patterns. -/
def echoHead : List Atom :=
  [Atom.alts [js "echo", js "cat"], Atom.rep isJsSpace 1 true false]

/-- The part `\s*>\s*` of the six write patterns. -/
def redirect : List Atom :=
  [Atom.rep isJsSpace 0 true false, Atom.one isGt, Atom.rep isJsSpace 0 true false]

/-- The pattern `/^(?:echo|cat)\s+"([^"]*?)"\s*>\s*"([^"]+)"$/i`. -/
def writeDqDq : List Atom :=
  echoHead ++ [Atom.one isDq, Atom.rep notDq 0 false true, Atom.one isDq] ++ redirect ++
    [Atom.one isDq, Atom.rep notDq 1 true true, Atom.one isDq]

/-- The pattern `/^(?:echo|cat)\s+'([^']*?)'\s*>\s*'([^']+)'$/i`. -/
def writeSqSq : List Atom :=
  echoHead ++ [Atom.one isSq, Atom.rep notSq 0 false true, Atom.one isSq] ++ redirect ++
    [Atom.one isSq, Atom.rep notSq 1 true true, Atom.one isSq]

/-- The pattern `/^(?:echo|cat)\s+"([^"]*?)"\s*>\s*([^\s]+)$/i`. -/
def writeDqBare : List Atom :=
  echoHead ++ [Atom.one isDq, Atom.rep notDq 0 false true, Atom.one isDq] ++ redirect ++
    [Atom.rep notSpace 1 true true]

/-- The pattern `/^(?:echo|cat)\s+'([^']*?)'\s*>\s*([^\s]+)$/i`. -/
def writeSqBare : List Atom :=
  echoHead ++ [Atom.one isSq, Atom.rep notSq 0 false true, Atom.one isSq] ++ redirect ++
    [Atom.rep notSpace 1 true true]

/-- The pattern `/^(?:echo|cat)\s+([^>]+?)\s*>\s*"([^"]+)"$/i`. -/
def writeBareDq : List Atom :=
  echoHead ++ [Atom.rep notGt 1 false true] ++ redirect ++
    [Atom.one isDq, Atom.rep notDq 1 true true, Atom.one isDq]

/-- The pattern `/^(?:echo|cat)\s+([^>]+?)\s*>\s*([^\s]+)$/i`. -/
def writeBareBare : List Atom :=
  echoHead ++ [Atom.rep notGt 1 false true] ++ redirect ++ [Atom.rep notSpace 1 true true]

/-- The array `fileCreationPatterns`, in source order. -/
def fileCreationPatterns : List (List Atom) :=
  [writeDqDq, writeSqSq, writeDqBare, writeSqBare, writeBareDq, writeBareBare]

/-- The pattern `/^mkdir\s+"([^"]+)"$/i`. -/
def mkdirDq : List Atom :=
  [Atom.alts [js "mkdir"], Atom.rep isJsSpace 1 true false, Atom.one isDq,
   Atom.rep notDq 1 true true, Atom.one isDq]

/-- The pattern `/^mkdir\s+'([^']+)'$/i`. -/
def mkdirSq : List Atom :=
  [Atom.alts [js "mkdir"], Atom.rep isJsSpace 1 true false, Atom.one isSq,
   Atom.rep notSq 1 true true, Atom.one isSq]

/-- The pattern `/^mkdir\s+([^\s]+)$/i`. -/
def mkdirBare : List Atom :=
  [Atom.alts [js "mkdir"], Atom.rep isJsSpace 1 true false, Atom.rep notSpace 1 true true]

/-- The array `mkdirPatterns`, in source order. -/
def mkdirPatterns : List (List Atom) := [mkdirDq, mkdirSq, mkdirBare]

/-- The pattern `/^ls$/i`. -/
def lsRe : List Atom := [Atom.alts [js "ls"]]
/-- The pattern `/^dir$/i`. -/
def dirRe : List Atom := [Atom.alts [js "dir"]]
/-- The pattern `/^pwd$/i`. -/
def pwdRe : List Atom := [Atom.alts [js "pwd"]]

/-- The pattern `/^cd\s+"?([^"]*)"?$/i`. -/
def cdRe : List Atom :=
  [Atom.alts [js "cd"], Atom.rep isJsSpace 1 true false, Atom.opt isDq,
   Atom.rep notDq 0 true true, Atom.opt isDq]

/-! ## The file system (`node:fs`, `node:path`, `process.cwd/chdir`) -/

/-- An entry of the directory tree. -/
inductive Node where
  /-- A regular file and the text it holds (what `readFileSync(p, 'utf8')` returns). -/
  | file (content : Str)
  | dir
  /-- A device such as `/dev/null`: it accepts what is written, keeps nothing and reads as
  empty. -/
  | device
  deriving DecidableEq

/-- The state the commands act on: the working directory of the process and the directory
tree, both keyed by absolute lists of path components.  The tree is an association list
whose first entry for a key is the current one; the root `[]` is always a directory. -/
structure World where
  cwd : List Str
  nodes : List (List Str × Node)
  deriving DecidableEq

/-- The first entry for `q` in an association list. -/
def lookupNode : List (List Str × Node) → List Str → Option Node
  | [], _ => none
  | (k, v) :: rest, q => if k = q then some v else lookupNode rest q

/-- The entry at the absolute path `q`. -/
def World.lookup (w : World) (q : List Str) : Option Node :=
  if q = [] then some Node.dir else lookupNode w.nodes q

/-- The absolute path `q` is a directory. -/
def World.isDir (w : World) (q : List Str) : Bool :=
  match w.lookup q with
  | some Node.dir => true
  | _ => false

/-- The world with one more entry, shadowing any former entry at `q`. -/
def World.insert (w : World) (q : List Str) (n : Node) : World :=
  { w with nodes := (q, n) :: w.nodes }

/-- The pieces of a string between the occurrences of `sep`. -/
def splitOn (sep : Nat) : Str → List Str
  | [] => [[]]
  | c :: t =>
    if c = sep then [] :: splitOn sep t
    else
      match splitOn sep t with
      | [] => [[c]]
      | h :: r => (c :: h) :: r

/-- The components of a path as the file system receives it. -/
def components (p : Str) : List Str := splitOn slash (toWellFormed p)

/-- One step of path resolution from the directory `cur`: an empty component and `.` stay,
`..` goes to the parent, a name goes to the child (which need not exist).  The step fails
when `cur` is not a directory. -/
def stepComp (w : World) (cur : List Str) (c : Str) : Option (List Str) :=
  if w.isDir cur then
    if c = [] ∨ c = [dot] then some cur
    else if c = [dot, dot] then some cur.dropLast
    else some (cur ++ [c])
  else none

/-- Resolution of a list of components from `cur`. -/
def walk (w : World) : List Str → List Str → Option (List Str)
  | cur, [] => some cur
  | cur, c :: cs =>
    match stepComp w cur c with
    | some n => walk w n cs
    | none => none

/-- The error of a step from `cur` that is not a directory: `ENOTDIR` when `cur` is
something else, `ENOENT` when it is nothing. -/
def notDirCode (w : World) (cur : List Str) : Str :=
  match w.lookup cur with
  | some _ => js "ENOTDIR: not a directory"
  | none => js "ENOENT: no such file or directory"

/-- The error of the first step of a resolution that fails. -/
def walkCode (w : World) : List Str → List Str → Str
  | cur, [] => notDirCode w cur
  | cur, c :: cs =>
    match stepComp w cur c with
    | some n => walkCode w n cs
    | none => notDirCode w cur

/-- The message of a file system error: the code, the call and the path as it was given. -/
def fsError (code call p : Str) : Str := code ++ js ", " ++ call ++ js " '" ++ p ++ js "'"

/-- The message of the `TypeError` raised for a path holding a NUL character (the rendering
of the received value is approximate). -/
def nulError (p : Str) : Str :=
  js "The argument 'path' must be a string, Uint8Array, or URL without null bytes. Received '" ++
    p ++ js "'"

/-- The error of a call on a path that is empty or holds a NUL character. -/
def invalidPathError (call p : Str) : Str :=
  if p.isEmpty then fsError (js "ENOENT: no such file or directory") call p else nulError p

/-- A path the file system calls accept: not empty and without a NUL character. -/
def validPath (p : Str) : Bool := !p.isEmpty && !includes p 0

/-- Where the resolution of `p` starts: the root for an absolute path, else the working
directory. -/
def startOf (w : World) (p : Str) : List Str :=
  if p.head? = some slash then [] else w.cwd

/-- The absolute location a path string denotes, when every directory on the way exists. -/
def resolve (w : World) (p : Str) : Option (List Str) :=
  if validPath p then walk w (startOf w p) (components p) else none

/-- The call `fs.existsSync(p)`. -/
def existsSync (w : World) (p : Str) : Bool :=
  match resolve w p with
  | some q => (w.lookup q).isSome
  | none => false

/-- The result of a call that may throw: the new world, or the message of the error
together with the world at the time it was thrown. -/
abbrev FsResult := Except (Str × World) World

/-- Creation of the directories along a list of components, as `mkdir -p`: a missing
component is created, an existing directory is entered, anything else on the way is an
error (`code` is called with the error code). -/
def mkdirp (code : Str → Str) : World → List Str → List Str → FsResult
  | w, cur, [] =>
    if w.isDir cur then Except.ok w else Except.error (code (js "EEXIST: file already exists"), w)
  | w, cur, c :: cs =>
    if w.isDir cur then
      if c = [] ∨ c = [dot] then mkdirp code w cur cs
      else if c = [dot, dot] then mkdirp code w cur.dropLast cs
      else
        match w.lookup (cur ++ [c]) with
        | none => mkdirp code (w.insert (cur ++ [c]) Node.dir) (cur ++ [c]) cs
        | some Node.dir => mkdirp code w (cur ++ [c]) cs
        | some _ =>
          Except.error
            (code (if cs.isEmpty then js "EEXIST: file already exists"
              else js "ENOTDIR: not a directory"), w)
    else Except.error (code (notDirCode w cur), w)

/-- The call `fs.mkdirSync(p, { recursive: true })`. -/
def mkdirSync (w : World) (p : Str) : FsResult :=
  if validPath p then mkdirp (fun c => fsError c (js "mkdir") p) w (startOf w p) (components p)
  else Except.error (invalidPathError (js "mkdir") p, w)

/-- The call `fs.writeFileSync(p, content, 'utf8')`: the containing directory must exist,
the last component must be a name that is not a directory; a regular file is created or
replaced and holds the content as UTF-8 keeps it, a device swallows it. -/
def writeFileSync (w : World) (p : Str) (content : Str) : FsResult :=
  if validPath p then
    match walk w (startOf w p) (components p).dropLast with
    | none =>
      Except.error (fsError (walkCode w (startOf w p) (components p).dropLast) (js "open") p, w)
    | some q =>
      match (components p).getLast? with
      | none => Except.error (fsError (js "ENOENT: no such file or directory") (js "open") p, w)
      | some name =>
        if w.isDir q then
          if name = [] ∨ name = [dot] ∨ name = [dot, dot] then
            Except.error (fsError (js "EISDIR: illegal operation on a directory") (js "open") p, w)
          else
            match w.lookup (q ++ [name]) with
            | some Node.dir =>
              Except.error
                (fsError (js "EISDIR: illegal operation on a directory") (js "open") p, w)
            | some Node.device => Except.ok w
            | _ => Except.ok (w.insert (q ++ [name]) (Node.file (toWellFormed content)))
        else Except.error (fsError (notDirCode w q) (js "open") p, w)
  else Except.error (invalidPathError (js "open") p, w)

/-- The call `fs.readFileSync(p, 'utf8')`. -/
def readFileSync (w : World) (p : Str) : Option Str :=
  match resolve w p with
  | some q =>
    match w.lookup q with
    | some (Node.file c) => some c
    | some Node.device => some []
    | _ => none
  | none => none

/-- The components joined by `sep`. -/
def joinWith (sep : Str) : List Str → Str
  | [] => []
  | [a] => a
  | a :: b :: r => a ++ sep ++ joinWith sep (b :: r)

/-- The call `process.cwd()`. -/
def cwdString (w : World) : Str := slash :: joinWith [slash] w.cwd

/-- The call `process.chdir(p)`; the message of its error names the working directory and
the target. -/
def chdir (w : World) (p : Str) : FsResult :=
  match resolve w p with
  | some q =>
    if w.isDir q then Except.ok { w with cwd := q }
    else
      Except.error (js "ENOTDIR: not a directory, chdir '" ++ cwdString w ++ js "' -> '" ++ p ++
        js "'", w)
  | none =>
    Except.error (js "ENOENT: no such file or directory, chdir '" ++ cwdString w ++ js "' -> '" ++
      p ++ js "'", w)

/-- The order of two strings by their code units. -/
def strLt : Str → Str → Bool
  | _, [] => false
  | [], _ :: _ => true
  | a :: s, b :: t => a < b || (a == b && strLt s t)

/-- Insertion into a list of names kept in order. -/
def insertName (x : Str) : List Str → List Str
  | [] => [x]
  | y :: r => if strLt y x then y :: insertName x r else x :: y :: r

/-- The call `fs.readdirSync('.')`: the names of the entries of the working directory, in
the order of their names. -/
def readdirSync (w : World) : Except (Str × World) (List Str) :=
  if w.isDir w.cwd then
    Except.ok (((w.nodes.filterMap (fun e =>
      match e.1.getLast? with
      | some name => if e.1.dropLast = w.cwd then some name else none
      | none => none)).eraseDups).foldr insertName [])
  else Except.error (fsError (notDirCode w w.cwd) (js "scandir") [dot], w)

/-- The scan of `path.dirname` (POSIX): `r` holds the characters at the indices
`length - 1, ..., 1` of the path, last first; the result is the index `end` of the slash
that ends the directory part, if there is one. -/
def dirnameEnd : Str → Bool → Option Nat
  | [], _ => none
  | c :: r, matchedSlash =>
    if c = slash then
      if !matchedSlash then some (r.length + 1) else dirnameEnd r matchedSlash
    else dirnameEnd r false

/-- The function `path.dirname` (POSIX). -/
def dirname (p : Str) : Str :=
  if p.isEmpty then [dot]
  else
    let hasRoot := p.head? = some slash
    match dirnameEnd p.tail.reverse true with
    | none => if hasRoot then [slash] else [dot]
    | some e => if hasRoot ∧ e = 1 then [slash, slash] else p.take e

/-! ## The command engine -/

/-- How the subprocess of the raw-shell branch ends: the first event that settles the
promise. -/
inductive ProcEnd where
  /-- The event `close` with an exit code (`null` when the child was killed by a signal). -/
  | close (code : Option Int) (stdout stderr : Str)
  /-- The event `error`. -/
  | failed (message : Str)
  /-- The 30 second timer. -/
  | timeout

/-- What `executeCommand` takes from its surroundings. -/
structure Env where
  /-- The constant `isWindows`. -/
  isWindows : Bool
  /-- The subprocess: from the world, the shell and its arguments to the way it ends and
  the world it leaves. -/
  runChild : World → Str → List Str → ProcEnd × World
  /-- The decimal rendering of an exit code in a template string. -/
  showCode : Option Int → Str

deriving instance DecidableEq for Except

/-- What a call of `executeCommand` does: the settled promise (`Except.ok` for `resolve`,
`Except.error` for the message of the rejecting `Error`), the world afterwards, and the
subprocesses it spawned. -/
structure Outcome where
  result : Except Str Str
  world : World
  spawned : List (Str × List Str)

/-- The two file-writing branches after the operands are extracted: the containing
directory is created when absent, then the file is written. -/
def createFile (w : World) (filePath content : Str) : Outcome :=
  let dir := dirname filePath
  let made : FsResult := if !existsSync w dir then mkdirSync w dir else Except.ok w
  match made with
  | Except.error (e, w1) => ⟨Except.error (js "Failed to create file: " ++ e), w1, []⟩
  | Except.ok w1 =>
    match writeFileSync w1 filePath content with
    | Except.error (e, w2) => ⟨Except.error (js "Failed to create file: " ++ e), w2, []⟩
    | Except.ok w2 =>
      ⟨Except.ok (js "stdout: File created successfully: " ++ filePath ++ js "\nstderr:"),
        w2, []⟩

/-- The branch of the `mkdir` directive. -/
def makeDirectory (w : World) (dirPath : Str) : Outcome :=
  if !existsSync w dirPath then
    match mkdirSync w dirPath with
    | Except.ok w1 =>
      ⟨Except.ok (js "stdout: Directory created: " ++ dirPath ++ js "\nstderr:"), w1, []⟩
    | Except.error (e, w1) =>
      ⟨Except.error (js "Failed to create directory: " ++ e), w1, []⟩
  else
    ⟨Except.ok (js "stdout: Directory already exists: " ++ dirPath ++ js "\nstderr:"), w, []⟩

/-- The branch of `ls` and `dir`. -/
def listDirectory (w : World) : Outcome :=
  match readdirSync w with
  | Except.ok files =>
    ⟨Except.ok (js "stdout: " ++ joinWith [10] files ++ js "\nstderr:"), w, []⟩
  | Except.error (e, w1) => ⟨Except.error (js "Failed to list directory: " ++ e), w1, []⟩

/-- The branch of `cd`. -/
def changeDirectory (w : World) (targetDir : Str) : Outcome :=
  if existsSync w targetDir then
    match chdir w targetDir with
    | Except.ok w1 =>
      ⟨Except.ok (js "stdout: Changed directory to: " ++ cwdString w1 ++ js "\nstderr:"),
        w1, []⟩
    | Except.error (e, w1) =>
      ⟨Except.error (js "Failed to change directory: " ++ e), w1, []⟩
  else ⟨Except.error (js "Directory not found: " ++ targetDir), w, []⟩

/-- The raw-shell branch. -/
def rawShell (env : Env) (w : World) (command : Str) : Outcome :=
  if env.isWindows && (includes command pipe || includes command amp || includes command gt) then
    ⟨Except.error
      (js "Complex shell operations not supported on Windows. Use direct file operations instead."),
      w, []⟩
  else
    let shell := if env.isWindows then js "cmd.exe" else js "/bin/bash"
    let shellFlag := if env.isWindows then js "/c" else js "-c"
    let child := env.runChild w shell [shellFlag, command]
    let settled : Except Str Str :=
      match child.1 with
      | ProcEnd.close code stdout stderr =>
        if code = some 0 then
          Except.ok (js "stdout: " ++ stdout ++ js "\nstderr: " ++ stderr)
        else
          Except.error (js "Command failed with code " ++ env.showCode code ++
            js ":\nstdout: " ++ stdout ++ js "\nstderr: " ++ stderr)
      | ProcEnd.failed message => Except.error (js "Failed to execute command: " ++ message)
      | ProcEnd.timeout => Except.error (js "Command timeout")
    ⟨settled, child.2, [(shell, [shellFlag, command])]⟩

/-- The function `executeCommand`. -/
def executeCommand (env : Env) (w : World) (command : Str) : Outcome :=
  match jsMatch createFileRe command with
  | some createFileMatch =>
    createFile w (grp createFileMatch 1) (decodeEscapes (grp createFileMatch 2))
  | none =>
    match firstMatch fileCreationPatterns command with
    | some fileCreationMatch =>
      createFile w (trim (grp fileCreationMatch 2))
        (decodeEscapes (stripOuterQuotes (trim (grp fileCreationMatch 1))))
    | none =>
      match firstMatch mkdirPatterns command with
      | some mkdirMatch => makeDirectory w (trim (grp mkdirMatch 1))
      | none =>
        if (jsMatch lsRe command).isSome || (jsMatch dirRe command).isSome then listDirectory w
        else if (jsMatch pwdRe command).isSome then
          ⟨Except.ok (js "stdout: " ++ cwdString w ++ js "\nstderr:"), w, []⟩
        else
          match jsMatch cdRe command with
          | some cdMatch => changeDirectory w (trim (grp cdMatch 1))
          | none => rawShell env w command

/-! ## The agent loop -/

/-- A value produced by `JSON.parse`; a number is kept as its decimal text. -/
inductive Json where
  | null
  | bool (b : Bool)
  | num (text : Str)
  | str (s : Str)
  | arr (items : List Json)
  | obj (fields : List (Str × Json))

/-- The first field named `key`. -/
def lookupField : List (Str × Json) → Str → Option Json
  | [], _ => none
  | (k, v) :: rest, key => if k = key then some v else lookupField rest key

/-- The property read `v.key` on a parsed value other than `null`, for the keys `step`,
`content`, `tool` and `input`: an object yields its own field, every other value (and an
object without the field) yields `undefined`, here `none`. -/
def Json.prop : Json → Str → Option Json
  | Json.obj fields, key => lookupField fields key
  | _, _ => none

/-- The role of a history entry. -/
inductive Role where
  | system
  | user
  | assistant
  deriving DecidableEq

/-- The content of a history entry: a text, or the serialised object
`{ step: "observe", content }` the loop appends after a tool call. -/
inductive Content where
  | text (s : Str)
  | observe (content : Str)
  deriving DecidableEq

/-- An entry of `messages`. -/
structure Message where
  role : Role
  content : Content
  deriving DecidableEq

/-- The lines `init` writes with `console.log`, one constructor per call site. -/
inductive Event where
  | user (query : Str)
  | executing (command : Str)
  | parseError (message raw : Str)
  | thinking (content : Str)
  | assistant (content : Str)
  | unknownTool (tool : Str)
  | toolOk (tool input : Str)
  | toolFailed (message : Str)
  | observing (content : Str)
  | unknownStep (step : Str)
  | apiError (message : Str)
  | maxSteps
  | completed
  deriving DecidableEq

/-- What `init` takes from its surroundings. -/
structure Agent where
  env : Env
  /-- The constant `SYSTEM_PROMPT`. -/
  systemPrompt : Str
  /-- The request `client.chat.completions.create` followed by the read of
  `response.choices[0].message.content`: the content, or the message of what was thrown. -/
  backend : List Message → Except Str Str
  /-- The function `JSON.parse`: the value, or the message of the `SyntaxError`. -/
  parse : Str → Except Str Json
  /-- The conversion to a string of a parsed value that is not a string, in a template
  string or as a property key; it can throw. -/
  toStr : Json → Except Str Str
  /-- The message of the `TypeError` raised by a failed property read or call. -/
  typeError : Str
  /-- The call `TOOL_MAP[key](input)` for a member `key` inherited from `Object.prototype`:
  the result as the history shows it, or the message of what was thrown. -/
  callInherited : Str → Option Json → Except Str Str

/-- The conversion `${v}` of a template string, also the conversion of a property key. -/
def display (a : Agent) : Option Json → Except Str Str
  | none => Except.ok (js "undefined")
  | some (Json.str s) => Except.ok s
  | some v => a.toStr v

/-- The property names every object literal inherits from `Object.prototype`; each of them
holds a function or an object, hence a truthy value. -/
def objectPrototypeKeys : List Str :=
  [js "constructor", js "__defineGetter__", js "__defineSetter__",
   js "hasOwnProperty", js "__lookupGetter__", js "__lookupSetter__",
   js "isPrototypeOf", js "propertyIsEnumerable", js "toString",
   js "valueOf", js "__proto__", js "toLocaleString"]

/-- What a property read on `TOOL_MAP` can yield. -/
inductive ToolRef where
  | getWeatherInfo
  | executeCommand
  | inherited (key : Str)
  deriving DecidableEq

/-- The read `TOOL_MAP[key]` on the object literal
`{ getWeatherInfo: getWeatherInfo, executeCommand: executeCommand }`: an own property, else
a member of `Object.prototype`, else `undefined` (here `none`). -/
def TOOL_MAP (key : Str) : Option ToolRef :=
  if key = (js "getWeatherInfo") then some ToolRef.getWeatherInfo
  else if key = (js "executeCommand") then some ToolRef.executeCommand
  else if key ∈ objectPrototypeKeys then some (ToolRef.inherited key)
  else none

/-- The function `getWeatherInfo`. -/
def getWeatherInfo (cityName : Str) : Str := cityName ++ js " has 25°C with partly cloudy skies"

/-- The state of a run of `init`: the variables `messages` and `stepCount`, the world, the
console output, and three counters kept for the statements: the number of backend requests
made, the property keys of the tools called, and the subprocesses spawned. -/
structure LoopState where
  messages : List Message
  stepCount : Nat
  world : World
  log : List Event
  requests : Nat
  invoked : List Str
  spawned : List (Str × List Str)
  deriving DecidableEq

/-- The constant `maxSteps`. -/
def maxSteps : Nat := 20

/-- The call `await TOOL_MAP[tool](input)` with the two lines that follow it inside the
inner `try`: the observation to record, or the message the inner `catch` receives. -/
def invokeTool (a : Agent) (st : LoopState) (key : Str) (f : ToolRef) (tool input : Option Json) :
    LoopState × Except Str Str :=
  let called : LoopState × Except Str Str :=
    match f with
    | ToolRef.getWeatherInfo =>
      ({ st with invoked := st.invoked ++ [key] },
        match display a input with
        | Except.ok city => Except.ok (getWeatherInfo city)
        | Except.error e => Except.error e)
    | ToolRef.executeCommand =>
      match display a input with
      | Except.error e => ({ st with invoked := st.invoked ++ [key] }, Except.error e)
      | Except.ok shown =>
        match input with
        | some (Json.str command) =>
          let out := executeCommand a.env st.world command
          ({ st with invoked := st.invoked ++ [key], world := out.world,
                     log := st.log ++ [Event.executing shown],
                     spawned := st.spawned ++ out.spawned }, out.result)
        | _ =>
          ({ st with invoked := st.invoked ++ [key], log := st.log ++ [Event.executing shown] },
            Except.error a.typeError)
    | ToolRef.inherited k =>
      ({ st with invoked := st.invoked ++ [key] }, a.callInherited k input)
  match called.2 with
  | Except.error e => (called.1, Except.error e)
  | Except.ok result =>
    match display a tool with
    | Except.error e => (called.1, Except.error e)
    | Except.ok shownTool =>
      match display a input with
      | Except.error e => (called.1, Except.error e)
      | Except.ok shownInput =>
        ({ called.1 with log := called.1.log ++ [Event.toolOk shownTool shownInput] },
          Except.ok result)

/-- How one pass through the body of the `while` loop ends. -/
inductive Ctl where
  | brk (st : LoopState)
  | cont (st : LoopState)

/-- The outer `catch`: the message is logged and the loop is left. -/
def caught (st : LoopState) (message : Str) : Ctl :=
  Ctl.brk { st with log := st.log ++ [Event.apiError message] }

/-- The state a pass through the loop body ends in. -/
def Ctl.state : Ctl → LoopState
  | Ctl.brk st => st
  | Ctl.cont st => st

/-- A `console.log` of a template string holding `v`, followed by `next` (`continue` or
`break`); when the conversion of `v` throws, the outer `catch` takes over. -/
def report (a : Agent) (st : LoopState) (v : Option Json) (ev : Str → Event)
    (next : LoopState → Ctl) : Ctl :=
  match display a v with
  | Except.ok c => next { st with log := st.log ++ [ev c] }
  | Except.error e => caught st e

/-- The end of the `action` branch: the observation is appended to the history, by the
inner `try` or by the inner `catch`, and the loop continues. -/
def observeResult (r : LoopState × Except Str Str) : Ctl :=
  match r.2 with
  | Except.ok result =>
    Ctl.cont { r.1 with messages := r.1.messages ++ [⟨Role.assistant, Content.observe result⟩] }
  | Except.error e =>
    Ctl.cont { r.1 with
      log := r.1.log ++ [Event.toolFailed e],
      messages := r.1.messages ++ [⟨Role.assistant, Content.observe (js "Error: " ++ e)⟩] }

/-- The branch `if (parsed_response.step === 'action')`. -/
def actionStep (a : Agent) (st : LoopState) (parsed : Json) : Ctl :=
  let tool := parsed.prop (js "tool")
  let input := parsed.prop (js "input")
  match display a tool with
  | Except.error e => caught st e
  | Except.ok key =>
    match TOOL_MAP key with
    | none => Ctl.brk { st with log := st.log ++ [Event.unknownTool key] }
    | some f => observeResult (invokeTool a st key f tool input)

/-- The statements of the loop body after `stepCount++`. -/
def interpret (a : Agent) (st : LoopState) (parsed : Json) : Ctl :=
  match parsed with
  | Json.null => caught st a.typeError
  | _ =>
    match parsed.prop (js "step") with
    | some (Json.str kind) =>
      if kind = (js "think") then
        report a st (parsed.prop (js "content")) Event.thinking Ctl.cont
      else if kind = (js "output") then
        report a st (parsed.prop (js "content")) Event.assistant Ctl.brk
      else if kind = (js "action") then actionStep a st parsed
      else if kind = (js "observe") then
        report a st (parsed.prop (js "content")) Event.observing Ctl.cont
      else Ctl.brk { st with log := st.log ++ [Event.unknownStep kind] }
    | other => report a st other Event.unknownStep Ctl.brk

/-- The body of the `while` loop of `init`. -/
def loopBody (a : Agent) (st : LoopState) : Ctl :=
  match a.backend st.messages with
  | Except.error e => caught { st with requests := st.requests + 1 } e
  | Except.ok assistantResponse =>
    let st1 : LoopState :=
      { st with requests := st.requests + 1,
                messages := st.messages ++ [⟨Role.assistant, Content.text assistantResponse⟩] }
    match a.parse assistantResponse with
    | Except.error m =>
      Ctl.brk { st1 with log := st1.log ++ [Event.parseError m assistantResponse] }
    | Except.ok parsed => interpret a { st1 with stepCount := st1.stepCount + 1 } parsed

/-- The loop `while (stepCount < maxSteps) { ... }`, run for at most `fuel` passes; `none`
when the fuel runs out before the loop is left. -/
def whileLoop (a : Agent) : Nat → LoopState → Option LoopState
  | 0, st => if st.stepCount < maxSteps then none else some st
  | fuel + 1, st =>
    if st.stepCount < maxSteps then
      match loopBody a st with
      | Ctl.brk st1 => some st1
      | Ctl.cont st1 => whileLoop a fuel st1
    else some st

/-- The constant `userQuery`. -/
def userQuery : Str :=
  js "Create a folder \"TODO App\" and create HTML, CSS and JS files for a working ToDo App"

/-- The state `init` enters the loop with. -/
def initialState (a : Agent) (w : World) : LoopState :=
  { messages := [⟨Role.system, Content.text a.systemPrompt⟩, ⟨Role.user, Content.text userQuery⟩],
    stepCount := 0, world := w, log := [Event.user userQuery], requests := 0, invoked := [],
    spawned := [] }

/-- The statements of `init` after the loop. -/
def finish (st : LoopState) : LoopState :=
  let st1 := if st.stepCount ≥ maxSteps then { st with log := st.log ++ [Event.maxSteps] } else st
  { st1 with log := st1.log ++ [Event.completed] }

/-- The function `init`, with the loop run for at most `fuel` passes. -/
def init (a : Agent) (w : World) (fuel : Nat) : Option LoopState :=
  match whileLoop a fuel (initialState a w) with
  | some st => some (finish st)
  | none => none

/-- The step kind of a parsed response: the value of its `step` property when that is a
string. -/
def stepKind (v : Json) : Option Str :=
  match v.prop (js "step") with
  | some (Json.str kind) => some kind
  | _ => none

/-- The four step kinds the loop recognises. -/
def recognizedKinds : List Str :=
  [js "think", js "action", js "observe", js "output"]

/-- An agent whose backend answers from a script: a history of `n` entries (two at the
first request) is answered by `script (n - 2)`, and `JSON.parse` is the table `table`. -/
def scripted (script : Nat → Str) (table : List (Str × Json)) (isWindows : Bool) : Agent :=
  { env := ⟨isWindows, fun w _ _ => (ProcEnd.timeout, w), fun _ => []⟩,
    systemPrompt := [],
    backend := fun messages => Except.ok (script (messages.length - 2)),
    parse := fun text =>
      match lookupField table text with
      | some v => Except.ok v
      | none => Except.error (js "Unexpected token"),
    toStr := fun _ => Except.ok (js "[object Object]"),
    typeError := js "TypeError",
    callInherited := fun k _ =>
      if k = (js "toString") then Except.ok (js "[object Object]")
      else Except.error (js "TypeError") }

/-- The response `{"step": "think", "content": "plan"}`. -/
def thinkText : Str := js "\x7b\"step\": \"think\", \"content\": \"plan\"\x7d"
/-- The response `{"step": "output", "content": "done"}`. -/
def outputText : Str := js "\x7b\"step\": \"output\", \"content\": \"done\"\x7d"
/-- The response `{"step": "action", "tool": "toString", "input": "x"}`. -/
def toStringActionText : Str :=
  js "\x7b\"step\": \"action\", \"tool\": \"toString\", \"input\": \"x\"\x7d"

/-- The values `JSON.parse` gives for the three responses above. -/
def sampleTable : List (Str × Json) :=
  [(thinkText, Json.obj [(js "step", Json.str (js "think")),
      (js "content", Json.str (js "plan"))]),
   (outputText, Json.obj [(js "step", Json.str (js "output")),
      (js "content", Json.str (js "done"))]),
   (toStringActionText, Json.obj [(js "step", Json.str (js "action")),
      (js "tool", Json.str (js "toString")), (js "input", Json.str (js "x"))])]

/-- The empty world: the root directory alone, which is also the working directory. -/
def emptyWorld : World := ⟨[], []⟩


/-! ## The vocabulary of the statements -/

/-- The two counters of a state that a pass through the loop body advances itself. -/
def LoopState.counts (st : LoopState) : Nat × Nat := (st.requests, st.stepCount)

/-- The code units of the white space of ECMAScript: the tabulations, line ends and spaces
of ASCII, U+00A0, U+1680, U+2000 to U+200A, U+2028, U+2029, U+202F, U+205F, U+3000 and
U+FEFF. -/
def whiteSpaceUnits : List Nat :=
  [0x9, 0xA, 0xB, 0xC, 0xD, 0x20, 0xA0, 0x1680, 0x2000, 0x2001, 0x2002, 0x2003, 0x2004, 0x2005,
   0x2006, 0x2007, 0x2008, 0x2009, 0x200A, 0x2028, 0x2029, 0x202F, 0x205F, 0x3000, 0xFEFF]

/-- The string holds white space only. -/
def allSpace (s : Str) : Prop := ∀ c ∈ s, c ∈ whiteSpaceUnits

/-- The string holds no white space. -/
def noSpace (s : Str) : Prop := ∀ c ∈ s, c ∉ whiteSpaceUnits

instance (s : Str) : Decidable (allSpace s) := by unfold allSpace; infer_instance

instance (s : Str) : Decidable (noSpace s) := by unfold noSpace; infer_instance

/-- The upper-case form of an ASCII small letter; every other code unit is left alone. -/
def foldCase (n : Nat) : Nat := if 97 ≤ n ∧ n ≤ 122 then n - 32 else n

/-- The string `kw` spells the word `w` up to the case of its ASCII letters. -/
def sameWord (w kw : Str) : Prop := kw.map foldCase = w.map foldCase

instance (w kw : Str) : Decidable (sameWord w kw) := by unfold sameWord; infer_instance

/-- The text `s` between two quotes `q`. -/
def quoted (q : Nat) (s : Str) : Str := q :: (s ++ [q])

/-- The command `createFile "<path>" "<payload>"`, with `kw` for the keyword and the white
space `ws1`, `ws2` between its parts. -/
def createFileCommand (kw ws1 path ws2 payload : Str) : Str :=
  kw ++ (ws1 ++ (quoted dq path ++ (ws2 ++ quoted dq payload)))

/-- The command `cd "<t>"`. -/
def cdQuoted (t : Str) : Str := js "cd" ++ ([space] ++ quoted dq t)

/-- The command `cd <t>`. -/
def cdBare (t : Str) : Str := js "cd" ++ ([space] ++ t)

/-- The command `mkdir <operand>`, with `kw` for the keyword and the white space `ws`
after it. -/
def mkdirCommand (kw ws operand : Str) : Str := kw ++ (ws ++ operand)

/-- The path `p` has the shape of a quoted operand: a non-empty text free of `q` between two
`q`. -/
def quotedShape (q : Nat) (p : Str) : Prop := ∃ inner, p = quoted q inner ∧ inner ≠ [] ∧ q ∉ inner

/-- The command is one of the three forms of the `mkdir` directive for the path `p`:
`mkdir "p"`, `mkdir 'p'`, or `mkdir p` with a bare `p` (no white space, and not itself of
the shape of a quoted operand).  The keyword `kw` is `mkdir` in any letter case and `ws` is
the white space after it. -/
def mkdirForm (kw ws command p : Str) : Prop :=
  sameWord (js "mkdir") kw ∧ ws ≠ [] ∧ allSpace ws ∧
  ((command = mkdirCommand kw ws (quoted dq p) ∧ p ≠ [] ∧ dq ∉ p) ∨
   (command = mkdirCommand kw ws (quoted sq p) ∧ p ≠ [] ∧ sq ∉ p) ∨
   (command = mkdirCommand kw ws p ∧ p ≠ [] ∧ noSpace p ∧ ¬ quotedShape dq p ∧
     ¬ quotedShape sq p))

/-- The command `<kw> <content> > <path>` with the white space `ws1`, `ws2`, `ws3` between
its parts. -/
def writeCommand (kw ws1 content ws2 ws3 path : Str) : Str :=
  kw ++ (ws1 ++ (content ++ (ws2 ++ (gt :: (ws3 ++ path)))))

/-- A destination written bare: not empty, without white space, and not beginning with a
quote character. -/
def bareToken (p : Str) : Prop :=
  p ≠ [] ∧ noSpace p ∧ ∀ c, p.head? = some c → c ≠ dq ∧ c ≠ sq

/-- A content written bare: not empty, without `>`, beginning with neither white space nor
a quote character, and not ending with white space. -/
def bareContent (c : Str) : Prop :=
  c ≠ [] ∧ gt ∉ c ∧ (∀ x, c.head? = some x → x ∉ whiteSpaceUnits ∧ x ≠ dq ∧ x ≠ sq) ∧
  ∀ x, c.getLast? = some x → x ∉ whiteSpaceUnits

/-- The command is one of the five quoted forms of the write directive for the content `c`
and the destination `p`: `echo "c" > "p"`, `echo 'c' > 'p'`, `echo "c" > p`, `echo 'c' > p`
or `echo c > "p"`.  The keyword `kw` is `echo` or `cat` in any letter case, `ws1` is the
white space after it, `ws2` and `ws3` the white space around `>`; a text in quotes holds no
quote of that kind, and an operand written bare does not begin with a quote character. -/
def writeForm (kw ws1 ws2 ws3 command c p : Str) : Prop :=
  (sameWord (js "echo") kw ∨ sameWord (js "cat") kw) ∧ ws1 ≠ [] ∧ allSpace ws1 ∧
  allSpace ws2 ∧ allSpace ws3 ∧
  ((command = writeCommand kw ws1 (quoted dq c) ws2 ws3 (quoted dq p) ∧ dq ∉ c ∧ p ≠ [] ∧
      dq ∉ p) ∨
   (command = writeCommand kw ws1 (quoted sq c) ws2 ws3 (quoted sq p) ∧ sq ∉ c ∧ p ≠ [] ∧
      sq ∉ p) ∨
   (command = writeCommand kw ws1 (quoted dq c) ws2 ws3 p ∧ dq ∉ c ∧ bareToken p) ∨
   (command = writeCommand kw ws1 (quoted sq c) ws2 ws3 p ∧ sq ∉ c ∧ bareToken p) ∨
   (command = writeCommand kw ws1 c ws2 ws3 (quoted dq p) ∧ bareContent c ∧ p ≠ [] ∧
      dq ∉ p))

/-- The class `isQ` is the quote `q` and the class `notQ` is every other character. -/
def quoteKind (isQ notQ : Nat → Bool) (q : Nat) : Prop :=
  (∀ c, isQ c = true ↔ c = q) ∧ (∀ c, notQ c = true ↔ c ≠ q) ∧ isJsSpace q = false

/-- The string `out` is `s` with every occurrence of the two characters `a b` replaced by
the character `r`: `s` is cut at its occurrences of `a b` into pieces that hold none. -/
inductive ReplacedAll (a b r : Nat) : Str → Str → Prop where
  | last (seg : Str) : ¬ [a, b] <:+: seg → ReplacedAll a b r seg seg
  | cut (seg rest out : Str) : ¬ [a, b] <:+: seg → ReplacedAll a b r rest out →
      ReplacedAll a b r (seg ++ a :: b :: rest) (seg ++ r :: out)

/-- The string `out` is `payload` with the two-character escapes `\n`, `\"`, `\'` and `\t`
replaced by the line feed, the double quote, the single quote and the tabulation, in that
order. -/
def Decoded (payload out : Str) : Prop :=
  ∃ s1 s2 s3, ReplacedAll backslash 110 10 payload s1 ∧ ReplacedAll backslash dq dq s1 s2 ∧
    ReplacedAll backslash sq sq s2 s3 ∧ ReplacedAll backslash 116 9 s3 out

/-- The string `t` is `s` without its leading and trailing white space. -/
def Trimmed (s t : Str) : Prop :=
  ∃ l r, s = l ++ (t ++ r) ∧ allSpace l ∧ allSpace r ∧
    (∀ c, t.head? = some c → c ∉ whiteSpaceUnits) ∧ (∀ c, t.getLast? = some c → c ∉ whiteSpaceUnits)

/-- The string `u` is `s` without a quote character in first position and without a quote
character in last position, each removed whether or not the other is there; a string made
of one quote loses it once. -/
def OuterQuotesRemoved (s u : Str) : Prop :=
  ∃ l r, s = l ++ (u ++ r) ∧
    ((l = [] ∧ ∀ c, s.head? = some c → c ≠ dq ∧ c ≠ sq) ∨ l = [dq] ∨ l = [sq]) ∧
    ((r = [] ∧ ∀ c, u.getLast? = some c → c ≠ dq ∧ c ≠ sq) ∨ r = [dq] ∨ r = [sq])

/-- The string holds no surrogate without its partner. -/
def wellFormed : Str → Bool
  | [] => true
  | [x] => !isSurrogate x
  | x :: y :: t =>
    if isHigh x && isLow y then wellFormed t else !isSurrogate x && wellFormed (y :: t)

/-- Every proper ancestor of the path `p`, taken component by component from where the
resolution of `p` starts, resolves to a directory. -/
def ancestorsExist (w : World) (p : Str) : Bool :=
  (components p).dropLast.inits.all (fun pre =>
    match walk w (startOf w p) pre with
    | some q => w.isDir q
    | none => false)

/-- The path `p` names a device. -/
def deviceAt (w : World) (p : Str) : Bool :=
  match resolve w p with
  | some q => decide (w.lookup q = some Node.device)
  | none => false

/-- An environment whose subprocesses all time out; only `isWindows` matters in what
follows. -/
def sampleEnv (isWindows : Bool) : Env := ⟨isWindows, fun w _ _ => (ProcEnd.timeout, w), fun _ => []⟩

/-- The command matches none of the patterns of `executeCommand` and so reaches the
raw-shell branch. -/
def isRawShell (command : Str) : Bool :=
  (jsMatch createFileRe command).isNone && (firstMatch fileCreationPatterns command).isNone &&
  (firstMatch mkdirPatterns command).isNone && (jsMatch lsRe command).isNone &&
  (jsMatch dirRe command).isNone && (jsMatch pwdRe command).isNone &&
  (jsMatch cdRe command).isNone

/-- A world whose only entry is the directory `/x`; the working directory is the root. -/
def worldWithX : World := emptyWorld.insert [js "x"] Node.dir

/-- A world whose only entry is the file `/out.txt` holding `old`. -/
def worldWithFile : World := emptyWorld.insert [js "out.txt"] (Node.file (js "old"))

/-- A world with the directory `/dev` and the device `/dev/null`. -/
def worldWithNull : World :=
  (emptyWorld.insert [js "dev"] Node.dir).insert [js "dev", js "null"] Node.device

/-! # Theorems -/

/-! ## The agent loop: bounds -/

theorem invokeTool_counts (a : Agent) (st : LoopState) (key : Str) (f : ToolRef)
    (tool input : Option Json) : (invokeTool a st key f tool input).1.counts = st.counts := by
  unfold invokeTool
  cases f <;> simp only [] <;> (repeat' split) <;> rfl

theorem report_counts (a : Agent) (st : LoopState) (v : Option Json) (ev : Str → Event)
    (next : LoopState → Ctl) (hn : ∀ s, (next s).state = s) :
    (report a st v ev next).state.counts = st.counts := by
  unfold report caught
  split
  · rw [hn]; rfl
  · rfl

theorem observeResult_counts (r : LoopState × Except Str Str) :
    (observeResult r).state.counts = r.1.counts := by
  unfold observeResult
  split <;> rfl

theorem actionStep_counts (a : Agent) (st : LoopState) (parsed : Json) :
    (actionStep a st parsed).state.counts = st.counts := by
  unfold actionStep caught
  simp only []
  split
  · rfl
  · split
    · rfl
    · rw [observeResult_counts, invokeTool_counts]

theorem interpret_counts (a : Agent) (st : LoopState) (parsed : Json) :
    (interpret a st parsed).state.counts = st.counts := by
  unfold interpret
  split
  · rfl
  · split
    · split
      · exact report_counts a st _ _ _ (fun _ => rfl)
      · split
        · exact report_counts a st _ _ _ (fun _ => rfl)
        · split
          · exact actionStep_counts a st parsed
          · split
            · exact report_counts a st _ _ _ (fun _ => rfl)
            · rfl
    · exact report_counts a st _ _ _ (fun _ => rfl)

theorem loopBody_requests (a : Agent) (st : LoopState) :
    (loopBody a st).state.requests = st.requests + 1 ∧
    (loopBody a st).state.stepCount ≤ st.stepCount + 1 := by
  unfold loopBody caught
  split
  · exact ⟨rfl, Nat.le_succ _⟩
  · simp only []
    split
    · exact ⟨rfl, Nat.le_succ _⟩
    · have h := interpret_counts a
        { st with requests := st.requests + 1,
                  messages := st.messages ++ [⟨Role.assistant, Content.text ‹Str›⟩],
                  stepCount := st.stepCount + 1 } ‹Json›
      simp only [LoopState.counts, Prod.mk.injEq] at h
      exact ⟨h.1, le_of_eq h.2⟩

theorem loopBody_cont_stepCount (a : Agent) (st s : LoopState) (h : loopBody a st = Ctl.cont s) :
    s.stepCount = st.stepCount + 1 := by
  unfold loopBody caught at h
  split at h
  · cases h
  · simp only [] at h
    split at h
    · cases h
    · have hc := interpret_counts a
        { st with requests := st.requests + 1,
                  messages := st.messages ++ [⟨Role.assistant, Content.text ‹Str›⟩],
                  stepCount := st.stepCount + 1 } ‹Json›
      rw [h] at hc
      simp only [LoopState.counts, Prod.mk.injEq, Ctl.state] at hc
      exact hc.2

theorem whileLoop_bounded (a : Agent) (fuel : Nat) :
    ∀ st : LoopState, st.requests ≤ st.stepCount → st.stepCount ≤ maxSteps →
      maxSteps ≤ st.stepCount + fuel →
      ∃ s, whileLoop a fuel st = some s ∧ s.requests ≤ maxSteps ∧ s.stepCount ≤ maxSteps := by
  induction fuel with
  | zero =>
    intro st h1 h2 h3
    refine ⟨st, ?_, by omega, h2⟩
    have : ¬ st.stepCount < maxSteps := by omega
    simp [whileLoop, this]
  | succ n ih =>
    intro st h1 h2 h3
    by_cases hlt : st.stepCount < maxSteps
    · have hr := loopBody_requests a st
      cases hb : loopBody a st with
      | brk s1 =>
        rw [hb] at hr
        simp only [Ctl.state] at hr
        exact ⟨s1, by simp [whileLoop, hlt, hb], by omega, by omega⟩
      | cont s1 =>
        have hc := loopBody_cont_stepCount a st s1 hb
        rw [hb] at hr
        simp only [Ctl.state] at hr
        obtain ⟨s, hs, hr2, hc2⟩ := ih s1 (by omega) (by omega) (by omega)
        exact ⟨s, by simp [whileLoop, hlt, hb, hs], hr2, hc2⟩
    · exact ⟨st, by simp [whileLoop, hlt], by omega, h2⟩

theorem finish_counts (st : LoopState) : (finish st).counts = st.counts := by
  unfold finish
  split <;> rfl

theorem report_brk (a : Agent) (st : LoopState) (v : Option Json) (ev : Str → Event) :
    ∃ l, report a st v ev Ctl.brk = Ctl.brk { st with log := l } := by
  unfold report caught
  split <;> exact ⟨_, rfl⟩

theorem interpret_unrecognized (a : Agent) (st : LoopState) (v : Json)
    (hbad : stepKind v ∉ recognizedKinds.map some) :
    ∃ l, interpret a st v = Ctl.brk { st with log := l } := by
  unfold interpret
  split
  · exact ⟨_, rfl⟩
  · split
    · rename_i kind hk
      have hkind : stepKind v = some kind := by unfold stepKind; rw [hk]
      rw [hkind] at hbad
      simp only [recognizedKinds, List.map_cons, List.map_nil, List.mem_cons, Option.some.injEq,
        List.mem_nil_iff, or_false, not_or] at hbad
      obtain ⟨h1, h2, h3, h4⟩ := hbad
      simp only [h1, h2, h3, h4, if_false]
      exact ⟨_, rfl⟩
    · exact report_brk a st _ _

/-- C4: the loop of `init` ends, whatever the backend, `JSON.parse` and the tools do, as
soon as it is given room for `maxSteps` passes, and by then it has made at most 20 backend
requests and counted at most 20 steps. -/
theorem init_makes_at_most_twenty_requests (a : Agent) (w : World) (extra : Nat) :
    ∃ st, init a w (maxSteps + extra) = some st ∧ st.requests ≤ 20 ∧ st.stepCount ≤ 20 := by
  obtain ⟨s, hs, hr, hc⟩ := whileLoop_bounded a (maxSteps + extra) (initialState a w)
    (by simp [initialState]) (by simp [initialState]) (by simp [initialState])
  refine ⟨finish s, by simp [init, hs], ?_, ?_⟩
  · have := finish_counts s
    simp only [LoopState.counts, Prod.mk.injEq] at this
    rw [this.1]; exact hr
  · have := finish_counts s
    simp only [LoopState.counts, Prod.mk.injEq] at this
    rw [this.2]; exact hc

/-- C7: in any state of the loop that still has a turn left, a response that `JSON.parse`
rejects, or whose parsed value has no recognised step kind, ends the loop in that very
pass: exactly one more backend request was made, the response is the only entry added to
the history, no tool was called, no subprocess spawned and the world is untouched. -/
theorem malformed_response_aborts (a : Agent) (st : LoopState) (fuel : Nat) (r : Str)
    (hturn : st.stepCount < maxSteps) (hresp : a.backend st.messages = Except.ok r)
    (hbad : ∀ v, a.parse r = Except.ok v → stepKind v ∉ recognizedKinds.map some) :
    ∃ s, whileLoop a (fuel + 1) st = some s ∧ s.requests = st.requests + 1 ∧
      s.messages = st.messages ++ [⟨Role.assistant, Content.text r⟩] ∧
      s.invoked = st.invoked ∧ s.spawned = st.spawned ∧ s.world = st.world := by
  cases hp : a.parse r with
  | error m =>
    have hw : whileLoop a (fuel + 1) st = some
        { st with requests := st.requests + 1,
                  messages := st.messages ++ [⟨Role.assistant, Content.text r⟩],
                  log := st.log ++ [Event.parseError m r] } := by
      simp only [whileLoop, hturn, if_true, loopBody, hresp, hp]
    exact ⟨_, hw, rfl, rfl, rfl, rfl, rfl⟩
  | ok v =>
    obtain ⟨l, hl⟩ := interpret_unrecognized a
      { st with requests := st.requests + 1,
                messages := st.messages ++ [⟨Role.assistant, Content.text r⟩],
                stepCount := st.stepCount + 1 } v (hbad v hp)
    have hw : whileLoop a (fuel + 1) st = some
        { st with requests := st.requests + 1,
                  messages := st.messages ++ [⟨Role.assistant, Content.text r⟩],
                  stepCount := st.stepCount + 1, log := l } := by
      simp only [whileLoop, hturn, if_true, loopBody, hresp, hp, hl]
    exact ⟨_, hw, rfl, rfl, rfl, rfl, rfl⟩

/-- Witness for C7: the response `not valid json` as the first response of a run. -/
theorem malformed_response_aborts_witness :
    ∃ s, whileLoop (scripted (fun _ => js "not valid json") sampleTable false) 1
        (initialState (scripted (fun _ => js "not valid json") sampleTable false) emptyWorld)
        = some s ∧ s.requests = 0 + 1 ∧
      s.messages = (initialState (scripted (fun _ => js "not valid json") sampleTable false)
        emptyWorld).messages ++ [⟨Role.assistant, Content.text (js "not valid json")⟩] ∧
      s.invoked = [] ∧ s.spawned = [] ∧ s.world = emptyWorld :=
  malformed_response_aborts (scripted (fun _ => js "not valid json") sampleTable false)
    (initialState (scripted (fun _ => js "not valid json") sampleTable false) emptyWorld)
    0 (js "not valid json") (by decide) rfl
    (fun v hv => by
      have h : (scripted (fun _ => js "not valid json") sampleTable false).parse
          (js "not valid json") = Except.error (js "Unexpected token") := rfl
      rw [h] at hv
      cases hv)

/-- C5: a run whose twentieth response is an `output` step (after nineteen `think` steps)
ends by that output step and still prints the report of the exhausted turn cap. -/
theorem max_steps_report_after_output_on_turn_twenty :
    ∃ st, init (scripted (fun i => if i < 19 then thinkText else outputText) sampleTable false)
        emptyWorld 20 = some st ∧
      st.requests = 20 ∧
      st.log.drop 20 = [Event.assistant (js "done"), Event.maxSteps, Event.completed] := by
  refine ⟨_, rfl, ?_, ?_⟩ <;> decide

/-- C6: an action step naming `toString`, which is no registered tool, is not answered by
`Unknown tool`: the inherited member is called, an observation is appended to the history
and a second backend request is made. -/
theorem inherited_member_is_invoked_as_tool :
    ∃ st, init (scripted (fun i => if i < 1 then toStringActionText else outputText) sampleTable
        false) emptyWorld 20 = some st ∧
      st.invoked = [js "toString"] ∧ st.requests = 2 ∧
      Event.unknownTool (js "toString") ∉ st.log ∧
      st.messages.drop 3 = [⟨Role.assistant, Content.observe (js "[object Object]")⟩,
        ⟨Role.assistant, Content.text outputText⟩] := by
  refine ⟨_, rfl, ?_, ?_, ?_, ?_⟩ <;> decide

/-! ## The matcher: what a match forces, and what forces a match -/

theorem tryEach_sound (k : Str → Option Caps) (s : Str) (cap : Bool) (js : List Nat) (r : Caps)
    (h : tryEach k s cap js = some r) :
    ∃ j ∈ js, ∃ cs, k (s.drop j) = some cs ∧ r = (if cap then s.take j :: cs else cs) := by
  induction js with
  | nil => simp [tryEach] at h
  | cons j js ih =>
    unfold tryEach at h
    cases hk : k (s.drop j) with
    | some cs =>
      rw [hk] at h
      simp only [Option.some.injEq] at h
      exact ⟨j, List.mem_cons_self _ _, cs, hk, h.symm⟩
    | none =>
      rw [hk] at h
      obtain ⟨i, hi, cs, h1, h2⟩ := ih h
      exact ⟨i, List.mem_cons_of_mem _ hi, cs, h1, h2⟩

theorem tryEach_none (k : Str → Option Caps) (s : Str) (cap : Bool) (js : List Nat)
    (h : ∀ j ∈ js, k (s.drop j) = none) : tryEach k s cap js = none := by
  induction js with
  | nil => rfl
  | cons j js ih =>
    unfold tryEach
    rw [h j (List.mem_cons_self _ _)]
    exact ih (fun i hi => h i (List.mem_cons_of_mem _ hi))

theorem tryEach_ordered (k : Str → Option Caps) (s : Str) (cap : Bool) (rel : Nat → Nat → Prop)
    (js : List Nat) (hord : js.Pairwise rel) (j : Nat) (hj : j ∈ js) (cs : Caps)
    (hok : k (s.drop j) = some cs)
    (hfail : ∀ i ∈ js, rel i j → k (s.drop i) = none) :
    tryEach k s cap js = some (if cap then s.take j :: cs else cs) := by
  induction js with
  | nil => cases hj
  | cons a tl ih =>
    rw [List.pairwise_cons] at hord
    unfold tryEach
    rcases List.mem_cons.1 hj with rfl | hmem
    · rw [hok]
    · rw [hfail a (List.mem_cons_self _ _) (hord.1 j hmem)]
      exact ih hord.2 hmem (fun i hi => hfail i (List.mem_cons_of_mem _ hi))

theorem mem_counts (min n : Nat) (greedy : Bool) (j : Nat) :
    j ∈ counts min n greedy ↔ min ≤ j ∧ j ≤ n := by
  unfold counts
  cases greedy <;> simp only [if_true, if_false, Bool.false_eq_true, List.mem_reverse,
    List.mem_range'_1] <;> omega

theorem counts_greedy_ordered (min n : Nat) : (counts min n true).Pairwise (fun a b => b < a) := by
  unfold counts
  simp only [if_true]
  rw [List.pairwise_reverse]
  exact List.pairwise_lt_range' min (n + 1 - min)

theorem counts_lazy_ordered (min n : Nat) : (counts min n false).Pairwise (fun a b => a < b) := by
  unfold counts
  simp only [Bool.false_eq_true, if_false]
  exact List.pairwise_lt_range' min (n + 1 - min)

/-- A greedy repetition settles on the count `j` when the rest of the pattern matches after
`j` characters and after no larger admissible count. -/
theorem rep_greedy (p : Nat → Bool) (min : Nat) (cap : Bool) (rest : List Atom) (s : Str)
    (j : Nat) (cs : Caps) (hmin : min ≤ j) (hj : j ≤ (s.takeWhile p).length)
    (hok : matchAtoms rest (s.drop j) = some cs)
    (hfail : ∀ i, j < i → i ≤ (s.takeWhile p).length → matchAtoms rest (s.drop i) = none) :
    matchAtoms (Atom.rep p min true cap :: rest) s = some (if cap then s.take j :: cs else cs) := by
  unfold matchAtoms
  exact tryEach_ordered _ s cap _ _ (counts_greedy_ordered min _) j
    ((mem_counts _ _ _ _).2 ⟨hmin, hj⟩) cs hok
    (fun i hi hlt => hfail i hlt ((mem_counts _ _ _ _).1 hi).2)

/-- A lazy repetition settles on the count `j` when the rest of the pattern matches after
`j` characters and after no smaller admissible count. -/
theorem rep_lazy (p : Nat → Bool) (min : Nat) (cap : Bool) (rest : List Atom) (s : Str)
    (j : Nat) (cs : Caps) (hmin : min ≤ j) (hj : j ≤ (s.takeWhile p).length)
    (hok : matchAtoms rest (s.drop j) = some cs)
    (hfail : ∀ i, min ≤ i → i < j → matchAtoms rest (s.drop i) = none) :
    matchAtoms (Atom.rep p min false cap :: rest) s = some (if cap then s.take j :: cs else cs) := by
  unfold matchAtoms
  exact tryEach_ordered _ s cap _ _ (counts_lazy_ordered min _) j
    ((mem_counts _ _ _ _).2 ⟨hmin, hj⟩) cs hok
    (fun i hi hlt => hfail i ((mem_counts _ _ _ _).1 hi).1 hlt)

theorem takeWhile_stop (p : Nat → Bool) (xs ys : Str) (hxs : ∀ c ∈ xs, p c = true)
    (hys : ∀ c, ys.head? = some c → p c = false) : (xs ++ ys).takeWhile p = xs := by
  induction xs with
  | nil =>
    cases ys with
    | nil => rfl
    | cons c t => simp [List.takeWhile, hys c rfl]
  | cons x t ih =>
    have ih1 := ih (fun c hc => hxs c (List.mem_cons_of_mem _ hc))
    simp only [List.cons_append, List.takeWhile, hxs x (List.mem_cons_self _ _)]
    exact congrArg (List.cons x) ih1

/-- A greedy repetition in front of a text `xs ++ ys`, where `xs` is the whole run of
characters of the class, takes `xs` as soon as the rest of the pattern matches `ys`. -/
theorem rep_greedy_run (p : Nat → Bool) (min : Nat) (cap : Bool) (rest : List Atom)
    (xs ys : Str) (cs : Caps) (hxs : ∀ c ∈ xs, p c = true)
    (hys : ∀ c, ys.head? = some c → p c = false) (hmin : min ≤ xs.length)
    (hok : matchAtoms rest ys = some cs) :
    matchAtoms (Atom.rep p min true cap :: rest) (xs ++ ys) =
      some (if cap then xs :: cs else cs) := by
  have htw := takeWhile_stop p xs ys hxs hys
  have h := rep_greedy p min cap rest (xs ++ ys) xs.length cs hmin (by rw [htw])
    (by rw [List.drop_left]; exact hok) (by rw [htw]; intro i h1 h2; omega)
  rw [List.take_left] at h
  exact h

/-- A lazy repetition in front of `xs ++ ys` takes `xs` when the rest of the pattern
matches `ys` and no earlier stop inside `xs` lets it match. -/
theorem rep_lazy_run (p : Nat → Bool) (min : Nat) (cap : Bool) (rest : List Atom)
    (xs ys : Str) (cs : Caps) (hxs : ∀ c ∈ xs, p c = true) (hmin : min ≤ xs.length)
    (hok : matchAtoms rest ys = some cs)
    (hfail : ∀ i, i < xs.length → matchAtoms rest ((xs ++ ys).drop i) = none) :
    matchAtoms (Atom.rep p min false cap :: rest) (xs ++ ys) =
      some (if cap then xs :: cs else cs) := by
  have hlen : xs.length ≤ ((xs ++ ys).takeWhile p).length := by
    rw [List.takeWhile_append_of_pos (fun a ha => hxs a ha)]
    simp
  have h := rep_lazy p min cap rest (xs ++ ys) xs.length cs hmin hlen
    (by rw [List.drop_left]; exact hok) (fun i _ hlt => hfail i hlt)
  rw [List.take_left] at h
  exact h

theorem one_cons (p : Nat → Bool) (rest : List Atom) (c : Nat) (t : Str) (hc : p c = true) :
    matchAtoms (Atom.one p :: rest) (c :: t) = matchAtoms rest t := by
  simp [matchAtoms, stepOne, hc]

theorem one_fail (p : Nat → Bool) (rest : List Atom) (s : Str)
    (h : ∀ c, s.head? = some c → p c = false) : matchAtoms (Atom.one p :: rest) s = none := by
  cases s with
  | nil => simp [matchAtoms, stepOne]
  | cons c t => simp [matchAtoms, stepOne, h c rfl]

theorem word_match (w : Str) (rest : List Atom) (s : Str) :
    matchAtoms (Atom.alts [w] :: rest) (w ++ s) =
      if ciStarts w (w ++ s) then matchAtoms rest s else none := by
  simp only [matchAtoms, tryWords, List.drop_left]
  split
  · cases matchAtoms rest s <;> rfl
  · rfl

theorem ciStarts_self (w s : Str) : ciStarts w (w ++ s) = true := by
  induction w with
  | nil => rfl
  | cons a t ih => simp [ciStarts, ciEq, ih]

/-! ### What a match forces -/

theorem nil_sound (s : Str) (r : Caps) (h : matchAtoms [] s = some r) : s = [] ∧ r = [] := by
  cases s with
  | nil => simp [matchAtoms] at h; exact ⟨rfl, h⟩
  | cons c t => simp [matchAtoms] at h

theorem one_sound (p : Nat → Bool) (rest : List Atom) (s : Str) (r : Caps)
    (h : matchAtoms (Atom.one p :: rest) s = some r) :
    ∃ c t, s = c :: t ∧ p c = true ∧ matchAtoms rest t = some r := by
  cases s with
  | nil => simp [matchAtoms, stepOne] at h
  | cons c t =>
    by_cases hc : p c = true
    · exact ⟨c, t, rfl, hc, by simpa [matchAtoms, stepOne, hc] using h⟩
    · simp [matchAtoms, stepOne, hc] at h

theorem rep_sound (p : Nat → Bool) (min : Nat) (greedy cap : Bool) (rest : List Atom) (s : Str)
    (r : Caps) (h : matchAtoms (Atom.rep p min greedy cap :: rest) s = some r) :
    ∃ xs ys cs, s = xs ++ ys ∧ (∀ c ∈ xs, p c = true) ∧ min ≤ xs.length ∧
      matchAtoms rest ys = some cs ∧ r = (if cap then xs :: cs else cs) := by
  unfold matchAtoms at h
  obtain ⟨j, hj, cs, hk, hr⟩ := tryEach_sound _ _ _ _ _ h
  rw [mem_counts] at hj
  have hjs : j ≤ s.length := le_trans hj.2 (by
    have := congrArg List.length (List.takeWhile_append_dropWhile p s)
    rw [List.length_append] at this
    omega)
  refine ⟨s.take j, s.drop j, cs, (List.take_append_drop j s).symm, ?_, ?_, hk, hr⟩
  · intro c hc
    have hpre : s.take j = (s.takeWhile p).take j := by
      conv_lhs => rw [← List.takeWhile_append_dropWhile p s]
      rw [List.take_append_of_le_length hj.2]
    rw [hpre] at hc
    exact List.mem_takeWhile_imp (List.mem_of_mem_take hc)
  · rw [List.length_take]; omega

theorem alts_sound (ws : List Str) (rest : List Atom) (s : Str) (r : Caps)
    (h : matchAtoms (Atom.alts ws :: rest) s = some r) :
    ∃ w ∈ ws, ciStarts w s = true ∧ matchAtoms rest (s.drop w.length) = some r := by
  unfold matchAtoms at h
  induction ws with
  | nil => simp [tryWords] at h
  | cons w ws ih =>
    unfold tryWords at h
    by_cases hw : ciStarts w s = true
    · rw [if_pos hw] at h
      cases hk : matchAtoms rest (s.drop w.length) with
      | some cs =>
        rw [hk] at h
        simp only [Option.some.injEq] at h
        exact ⟨w, List.mem_cons_self _ _, hw, by rw [hk, h]⟩
      | none =>
        rw [hk] at h
        obtain ⟨w1, hw1, h1, h2⟩ := ih h
        exact ⟨w1, List.mem_cons_of_mem _ hw1, h1, h2⟩
    · rw [if_neg hw] at h
      obtain ⟨w1, hw1, h1, h2⟩ := ih h
      exact ⟨w1, List.mem_cons_of_mem _ hw1, h1, h2⟩

theorem alts_fail (ws : List Str) (rest : List Atom) (s : Str)
    (h : ∀ w ∈ ws, ciStarts w s = false) : matchAtoms (Atom.alts ws :: rest) s = none := by
  unfold matchAtoms
  induction ws with
  | nil => rfl
  | cons w ws ih =>
    unfold tryWords
    rw [h w (List.mem_cons_self _ _)]
    simp only [Bool.false_eq_true, if_false]
    exact ih (fun w1 hw1 => h w1 (List.mem_cons_of_mem _ hw1))

/-! ### White space, words and forced repetitions -/

theorem isJsSpace_iff (c : Nat) : isJsSpace c = true ↔ c ∈ whiteSpaceUnits := by
  simp only [isJsSpace, whiteSpaceUnits, Bool.or_eq_true, beq_iff_eq, Bool.and_eq_true,
    decide_eq_true_eq, List.mem_cons, List.mem_singleton, List.mem_nil_iff, or_false]
  omega

theorem allSpace_isJsSpace (s : Str) (h : allSpace s) : ∀ c ∈ s, isJsSpace c = true :=
  fun c hc => (isJsSpace_iff c).2 (h c hc)

theorem not_isJsSpace (c : Nat) (h : c ∉ whiteSpaceUnits) : isJsSpace c = false := by
  cases hs : isJsSpace c with
  | false => rfl
  | true => exact absurd ((isJsSpace_iff c).1 hs) h

theorem noSpace_notSpace (s : Str) (h : noSpace s) : ∀ c ∈ s, notSpace c = true := by
  intro c hc
  simp [notSpace, not_isJsSpace c (h c hc)]

theorem fold_lower (a b : Nat) (h : foldCase a = foldCase b) : lower a = lower b := by
  unfold foldCase at h
  unfold lower
  split_ifs at h ⊢ <;> omega

theorem sameWord_cons (a : Nat) (w kw : Str) (h : sameWord (a :: w) kw) :
    ∃ b kw1, kw = b :: kw1 ∧ foldCase b = foldCase a ∧ sameWord w kw1 := by
  unfold sameWord at h
  cases kw with
  | nil => simp at h
  | cons b kw1 =>
    simp only [List.map_cons, List.cons.injEq] at h
    exact ⟨b, kw1, rfl, h.1, h.2⟩

theorem sameWord_ciStarts (w : Str) : ∀ (kw s : Str), sameWord w kw →
    ciStarts w (kw ++ s) = true ∧ (kw ++ s).drop w.length = s := by
  induction w with
  | nil =>
    intro kw s h
    unfold sameWord at h
    simp only [List.map_nil, List.map_eq_nil_iff] at h
    subst h
    exact ⟨rfl, rfl⟩
  | cons a w ih =>
    intro kw s h
    obtain ⟨b, kw1, rfl, hb, hw⟩ := sameWord_cons a w kw h
    obtain ⟨h1, h2⟩ := ih kw1 s hw
    refine ⟨?_, ?_⟩
    · show (ciEq a b && ciStarts w (kw1 ++ s)) = true
      rw [h1, Bool.and_true]
      simp [ciEq, fold_lower b a hb]
    · simpa using h2

theorem sameWord_clash (a c : Nat) (w w1 kw s : Str) (h : sameWord (a :: w) kw)
    (hac : lower c ≠ lower a) : ciStarts (c :: w1) (kw ++ s) = false := by
  obtain ⟨b, kw1, rfl, hb, _⟩ := sameWord_cons a w kw h
  show (ciEq c b && ciStarts w1 (kw1 ++ s)) = false
  have : ciEq c b = false := by
    simp only [ciEq, beq_eq_false_iff_ne, ne_eq]
    rw [fold_lower b a hb]
    exact hac
  rw [this, Bool.false_and]

/-- A keyword spelled in any case is consumed by the one-word alternation. -/
theorem alts_word (w kw s : Str) (rest : List Atom) (h : sameWord w kw) :
    matchAtoms (Atom.alts [w] :: rest) (kw ++ s) = matchAtoms rest s := by
  obtain ⟨h1, h2⟩ := sameWord_ciStarts w kw s h
  simp only [matchAtoms, tryWords, h1, if_true, h2]
  cases matchAtoms rest s <;> rfl

/-- The keyword `echo` or `cat`, in any case, is consumed by `(?:echo|cat)`. -/
theorem alts_echo (kw s : Str) (rest : List Atom)
    (h : sameWord (js "echo") kw ∨ sameWord (js "cat") kw) :
    matchAtoms (Atom.alts [js "echo", js "cat"] :: rest) (kw ++ s) = matchAtoms rest s := by
  rcases h with h | h
  · obtain ⟨h1, h2⟩ := sameWord_ciStarts _ kw s h
    have h3 : ciStarts (js "cat") (kw ++ s) = false :=
      sameWord_clash 101 99 (js "cho") (js "at") kw s h (by decide)
    simp only [matchAtoms, tryWords, h1, if_true, h2, h3, Bool.false_eq_true, if_false]
    cases matchAtoms rest s <;> rfl
  · obtain ⟨h1, h2⟩ := sameWord_ciStarts _ kw s h
    have h3 : ciStarts (js "echo") (kw ++ s) = false :=
      sameWord_clash 99 101 (js "at") (js "cho") kw s h (by decide)
    simp only [matchAtoms, tryWords, h1, if_true, h2, h3, Bool.false_eq_true, if_false]
    cases matchAtoms rest s <;> rfl

theorem drop_in_run (xs ys : Str) (i : Nat) (h : i < xs.length) :
    ∃ c ∈ xs, ∃ t, (xs ++ ys).drop i = c :: t := by
  induction xs generalizing i with
  | nil => simp at h
  | cons x xs ih =>
    cases i with
    | zero => exact ⟨x, List.mem_cons_self _ _, xs ++ ys, rfl⟩
    | succ i =>
      obtain ⟨c, hc, t, ht⟩ := ih i (by simpa using h)
      exact ⟨c, List.mem_cons_of_mem _ hc, t, by simpa using ht⟩

/-- A repetition of a class followed by one character outside the class has no choice:
in front of `xs ++ ys`, where `xs` is the whole run of the class, it takes `xs` or fails. -/
theorem rep_then_one (p q : Nat → Bool) (min : Nat) (greedy cap : Bool) (rest : List Atom)
    (xs ys : Str) (hxs : ∀ c ∈ xs, p c = true) (hys : ∀ c, ys.head? = some c → p c = false)
    (hpq : ∀ c, p c = true → q c = false) (hmin : min ≤ xs.length) :
    matchAtoms (Atom.rep p min greedy cap :: Atom.one q :: rest) (xs ++ ys) =
      (matchAtoms (Atom.one q :: rest) ys).map (fun cs => if cap then xs :: cs else cs) := by
  have hin : ∀ i, i < xs.length →
      matchAtoms (Atom.one q :: rest) ((xs ++ ys).drop i) = none := by
    intro i hi
    obtain ⟨c, hc, t, ht⟩ := drop_in_run xs ys i hi
    rw [ht]
    simp [matchAtoms, stepOne, hpq c (hxs c hc)]
  cases hk : matchAtoms (Atom.one q :: rest) ys with
  | some cs =>
    cases greedy with
    | true => exact rep_greedy_run p min cap _ xs ys cs hxs hys hmin hk
    | false => exact rep_lazy_run p min cap _ xs ys cs hxs hmin hk hin
  | none =>
    have htw := takeWhile_stop p xs ys hxs hys
    simp only [Option.map_none']
    show tryEach _ _ _ _ = none
    apply tryEach_none
    intro j hj
    rw [mem_counts, htw] at hj
    rcases Nat.lt_or_ge j xs.length with hlt | hge
    · exact hin j hlt
    · have : j = xs.length := by omega
      rw [this, List.drop_left]
      exact hk

/-- A greedy repetition that must reach the end of the text takes all of it. -/
theorem rep_to_end (p : Nat → Bool) (min : Nat) (xs : Str) (hxs : ∀ c ∈ xs, p c = true)
    (hmin : min ≤ xs.length) : matchAtoms [Atom.rep p min true true] xs = some [xs] := by
  have h := rep_greedy_run p min true [] xs [] [] hxs (by intro c hc; cases hc) hmin rfl
  simpa using h

/-! ## The text operations against their descriptions -/

theorem pair_infix_cons (a b x : Nat) (s : Str) :
    [a, b] <:+: x :: s ↔ (x = a ∧ s.head? = some b) ∨ [a, b] <:+: s := by
  rw [List.infix_cons_iff, List.cons_prefix_cons]
  have : [b] <+: s ↔ s.head? = some b := by
    cases s with
    | nil => simp
    | cons c t => simp [List.cons_prefix_cons, eq_comm]
  rw [this, eq_comm]

theorem replaceAll2_noop (a b r : Nat) (s : Str) (h : ¬ [a, b] <:+: s) :
    replaceAll2 a b r s = s := by
  induction s with
  | nil => rfl
  | cons x s ih =>
    rw [pair_infix_cons, not_or] at h
    cases s with
    | nil => rfl
    | cons y t =>
      have hn : ¬ (x = a ∧ y = b) := fun e => h.1 ⟨e.1, by rw [e.2]; rfl⟩
      simp only [replaceAll2, hn, if_false]
      rw [ih h.2]

theorem replaceAll2_cut (a b r : Nat) (hab : a ≠ b) (seg rest : Str) (h : ¬ [a, b] <:+: seg) :
    replaceAll2 a b r (seg ++ a :: b :: rest) = seg ++ r :: replaceAll2 a b r rest := by
  induction seg with
  | nil => simp [replaceAll2]
  | cons x seg ih =>
    rw [pair_infix_cons, not_or] at h
    cases seg with
    | nil =>
      have hn : ¬ (x = a ∧ a = b) := fun e => hab e.2
      simp only [List.cons_append, List.nil_append, replaceAll2, hn, if_false]
      simp [replaceAll2]
    | cons y t =>
      have hn : ¬ (x = a ∧ y = b) := fun e => h.1 ⟨e.1, by rw [e.2]; rfl⟩
      have ih1 := ih h.2
      simp only [List.cons_append] at ih1 ⊢
      simp only [replaceAll2, hn, if_false]
      rw [ih1]

/-- Whatever is `s` with its occurrences of `a b` replaced is what `replaceAll2` computes. -/
theorem replaceAll2_sound (a b r : Nat) (hab : a ≠ b) (s out : Str)
    (h : ReplacedAll a b r s out) : replaceAll2 a b r s = out := by
  induction h with
  | last seg hseg => exact replaceAll2_noop a b r seg hseg
  | cut seg rest out hseg _ ih => rw [replaceAll2_cut a b r hab seg rest hseg, ih]

theorem ReplacedAll.cons {a b r : Nat} {s out : Str} (x : Nat) (h : ReplacedAll a b r s out)
    (hx : ¬ (x = a ∧ s.head? = some b)) : ReplacedAll a b r (x :: s) (x :: out) := by
  cases h with
  | last seg hseg =>
    exact ReplacedAll.last _ (by rw [pair_infix_cons, not_or]; exact ⟨hx, hseg⟩)
  | cut seg rest out1 hseg hrest =>
    have hn : ¬ [a, b] <:+: x :: seg := by
      rw [pair_infix_cons, not_or]
      refine ⟨fun e => hx ⟨e.1, ?_⟩, hseg⟩
      cases seg with
      | nil => cases e.2
      | cons c t => simpa using e.2
    exact ReplacedAll.cut (x :: seg) rest out1 hn hrest

/-- What `replaceAll2` computes is `s` with its occurrences of `a b` replaced. -/
theorem replaceAll2_complete (a b r : Nat) (s : Str) :
    ReplacedAll a b r s (replaceAll2 a b r s) := by
  induction s using replaceAll2.induct a b r with
  | case1 => exact ReplacedAll.last [] (by simp)
  | case2 x =>
    refine ReplacedAll.last [x] ?_
    rw [pair_infix_cons]
    simp
  | case3 x y t hm ih =>
    have h := ReplacedAll.cut (a := a) (b := b) (r := r) [] t _ (by simp) ih
    simp only [replaceAll2, hm, and_self, if_true]
    exact h
  | case4 x y t hm ih =>
    simp only [replaceAll2, hm, if_false]
    exact ReplacedAll.cons x ih (fun e => hm ⟨e.1, by simpa using e.2⟩)

theorem decodeEscapes_decoded (s : Str) : Decoded s (decodeEscapes s) :=
  ⟨_, _, _, replaceAll2_complete _ _ _ s, replaceAll2_complete _ _ _ _,
    replaceAll2_complete _ _ _ _, replaceAll2_complete _ _ _ _⟩

theorem decoded_unique (s out : Str) (h : Decoded s out) : out = decodeEscapes s := by
  obtain ⟨s1, s2, s3, h1, h2, h3, h4⟩ := h
  have e1 := replaceAll2_sound _ _ _ (by decide) _ _ h1
  have e2 := replaceAll2_sound _ _ _ (by decide) _ _ h2
  have e3 := replaceAll2_sound _ _ _ (by decide) _ _ h3
  have e4 := replaceAll2_sound _ _ _ (by decide) _ _ h4
  unfold decodeEscapes
  rw [e1, e2, e3, e4]

/-! ### Strings without lone surrogate -/

theorem toWellFormed_of_wellFormed (s : Str) (h : wellFormed s = true) : toWellFormed s = s := by
  induction s using wellFormed.induct with
  | case1 => rfl
  | case2 x =>
    simp only [wellFormed, Bool.not_eq_true'] at h
    simp [toWellFormed, h]
  | case3 x y t hp ih =>
    simp only [wellFormed, hp, if_true] at h
    simp only [toWellFormed, hp, if_true, ih h]
  | case4 x y t hp ih =>
    rw [wellFormed, if_neg hp, Bool.and_eq_true, Bool.not_eq_true'] at h
    rw [toWellFormed, if_neg hp, h.1, if_neg (by decide), ih h.2]

theorem wellFormed_cons (x : Nat) (t : Str) (hx : isSurrogate x = false) :
    wellFormed (x :: t) = wellFormed t := by
  have hh : isHigh x = false := by
    simp only [isSurrogate, isHigh, Bool.and_eq_false_iff, decide_eq_false_iff_not] at hx ⊢
    omega
  cases t with
  | nil => simp [wellFormed, hx]
  | cons y t => simp [wellFormed, hx, hh]

theorem wellFormed_split (x : Nat) (t : Str) (hx : isSurrogate x = false) (seg : Str) :
    wellFormed (seg ++ x :: t) = (wellFormed seg && wellFormed t) := by
  have hl : isLow x = false := by
    simp only [isSurrogate, isLow, Bool.and_eq_false_iff, decide_eq_false_iff_not] at hx ⊢
    omega
  induction seg using wellFormed.induct with
  | case1 => simp [wellFormed, wellFormed_cons x t hx]
  | case2 y =>
    simp only [List.cons_append, List.nil_append, wellFormed, hl, Bool.and_false,
      Bool.false_eq_true, if_false, wellFormed_cons x t hx]
  | case3 y z u hp ih =>
    show wellFormed (y :: z :: (u ++ x :: t)) = (wellFormed (y :: z :: u) && wellFormed t)
    rw [wellFormed, if_pos hp, wellFormed, if_pos hp]
    exact ih
  | case4 y z u hp ih =>
    show wellFormed (y :: z :: (u ++ x :: t)) = (wellFormed (y :: z :: u) && wellFormed t)
    have ih1 : wellFormed (z :: (u ++ x :: t)) = (wellFormed (z :: u) && wellFormed t) := ih
    rw [wellFormed, if_neg hp, wellFormed, if_neg hp, ih1, Bool.and_assoc]

theorem replacedAll_wellFormed (a b r : Nat) (ha : isSurrogate a = false)
    (hb : isSurrogate b = false) (hr : isSurrogate r = false) (s out : Str)
    (h : ReplacedAll a b r s out) (hs : wellFormed s = true) : wellFormed out = true := by
  induction h with
  | last seg _ => exact hs
  | cut seg rest out _ _ ih =>
    rw [wellFormed_split a _ ha, wellFormed_cons b rest hb, Bool.and_eq_true] at hs
    rw [wellFormed_split r _ hr, Bool.and_eq_true]
    exact ⟨hs.1, ih hs.2⟩

/-- Decoding the escapes of a string without lone surrogate gives such a string. -/
theorem decoded_wellFormed (s out : Str) (h : Decoded s out) (hs : wellFormed s = true) :
    wellFormed out = true := by
  obtain ⟨s1, s2, s3, h1, h2, h3, h4⟩ := h
  have w1 := replacedAll_wellFormed _ _ _ (by decide) (by decide) (by decide) _ _ h1 hs
  have w2 := replacedAll_wellFormed _ _ _ (by decide) (by decide) (by decide) _ _ h2 w1
  have w3 := replacedAll_wellFormed _ _ _ (by decide) (by decide) (by decide) _ _ h3 w2
  exact replacedAll_wellFormed _ _ _ (by decide) (by decide) (by decide) _ _ h4 w3

/-! ### Trimming and the removal of the outer quotes -/

theorem dropWhile_head_not (p : Nat → Bool) (s : Str) (c : Nat)
    (h : (s.dropWhile p).head? = some c) : p c = false := by
  have := List.head?_dropWhile_not p s
  rw [h] at this
  exact this

/-- The method `trim` removes the white space at both ends and nothing else. -/
theorem trim_trimmed (s : Str) : Trimmed s (trim s) := by
  have hs : s = s.takeWhile isJsSpace ++ s.dropWhile isJsSpace :=
    (List.takeWhile_append_dropWhile isJsSpace s).symm
  have hr : (s.dropWhile isJsSpace).reverse =
      (s.dropWhile isJsSpace).reverse.takeWhile isJsSpace ++
        (s.dropWhile isJsSpace).reverse.dropWhile isJsSpace :=
    (List.takeWhile_append_dropWhile isJsSpace _).symm
  have hrest : s.dropWhile isJsSpace =
      trim s ++ ((s.dropWhile isJsSpace).reverse.takeWhile isJsSpace).reverse := by
    have := congrArg List.reverse hr
    rw [List.reverse_reverse, List.reverse_append] at this
    exact this
  refine ⟨s.takeWhile isJsSpace, ((s.dropWhile isJsSpace).reverse.takeWhile isJsSpace).reverse,
    ?_, ?_, ?_, ?_, ?_⟩
  · rw [← hrest]; exact hs
  · intro c hc
    exact (isJsSpace_iff c).1 (List.mem_takeWhile_imp hc)
  · intro c hc
    rw [List.mem_reverse] at hc
    exact (isJsSpace_iff c).1 (List.mem_takeWhile_imp hc)
  · intro c hc hmem
    have hne : trim s ≠ [] := by intro e; rw [e] at hc; cases hc
    have hh : (s.dropWhile isJsSpace).head? = some c := by
      rw [hrest, List.head?_append_of_ne_nil _ hne]; exact hc
    have := dropWhile_head_not isJsSpace s c hh
    rw [(isJsSpace_iff c).2 hmem] at this
    cases this
  · intro c hc hmem
    have hh : ((s.dropWhile isJsSpace).reverse.dropWhile isJsSpace).head? = some c := by
      have : (trim s).reverse = (s.dropWhile isJsSpace).reverse.dropWhile isJsSpace := by
        unfold trim; rw [List.reverse_reverse]
      rw [← this, List.head?_reverse]; exact hc
    have := dropWhile_head_not isJsSpace _ c hh
    rw [(isJsSpace_iff c).2 hmem] at this
    cases this

theorem isQuote_iff (c : Nat) : isQuote c = true ↔ c = dq ∨ c = sq := by
  simp [isQuote]

theorem dropTrailingQuote_spec (t : Str) :
    ∃ r, t = dropTrailingQuote t ++ r ∧
      ((r = [] ∧ ∀ c, t.getLast? = some c → c ≠ dq ∧ c ≠ sq) ∨ r = [dq] ∨ r = [sq]) := by
  unfold dropTrailingQuote
  cases hl : t.getLast? with
  | none =>
    have : t = [] := by simpa using hl
    subst this
    exact ⟨[], rfl, Or.inl ⟨rfl, fun c hc => by cases hc⟩⟩
  | some q =>
    simp only []
    by_cases hq : isQuote q = true
    · rw [if_pos hq]
      refine ⟨[q], (List.dropLast_append_getLast? q (by rw [hl]; rfl)).symm, Or.inr ?_⟩
      rcases (isQuote_iff q).1 hq with e | e
      · exact Or.inl (by rw [e])
      · exact Or.inr (by rw [e])
    · rw [if_neg hq]
      refine ⟨[], by simp, Or.inl ⟨rfl, ?_⟩⟩
      intro c hc
      simp only [Option.some.injEq] at hc
      subst hc
      rw [isQuote_iff, not_or] at hq
      exact hq

/-- The replacement of the outer quotes removes a quote in first position and a quote in
last position, each on its own, and nothing else. -/
theorem stripOuterQuotes_removed (s : Str) : OuterQuotesRemoved s (stripOuterQuotes s) := by
  cases s with
  | nil => exact ⟨[], [], rfl, Or.inl ⟨rfl, fun c hc => by cases hc⟩,
      Or.inl ⟨rfl, fun c hc => by cases hc⟩⟩
  | cons c t =>
    obtain ⟨r, ht, hr⟩ := dropTrailingQuote_spec t
    by_cases hq : isQuote c = true
    · rw [show stripOuterQuotes (c :: t) = dropTrailingQuote t by simp [stripOuterQuotes, hq]]
      refine ⟨[c], r, by rw [← ht]; rfl, Or.inr ?_, ?_⟩
      · rcases (isQuote_iff c).1 hq with e | e
        · exact Or.inl (by rw [e])
        · exact Or.inr (by rw [e])
      · rcases hr with ⟨hr1, hr2⟩ | hr
        · refine Or.inl ⟨hr1, ?_⟩
          rw [hr1, List.append_nil] at ht
          rw [← ht]; exact hr2
        · exact Or.inr hr
    · rw [show stripOuterQuotes (c :: t) = c :: dropTrailingQuote t by
        simp [stripOuterQuotes, hq]]
      rw [isQuote_iff, not_or] at hq
      refine ⟨[], r, by rw [List.nil_append, List.cons_append, ← ht], Or.inl ⟨rfl, ?_⟩, ?_⟩
      · intro x hx
        simp only [List.head?_cons, Option.some.injEq] at hx
        subst hx; exact hq
      · rcases hr with ⟨hr1, hr2⟩ | hr
        · refine Or.inl ⟨hr1, ?_⟩
          rw [hr1, List.append_nil] at ht
          rw [← ht]
          intro x hx
          cases t with
          | nil =>
            simp only [List.getLast?_singleton, Option.some.injEq] at hx
            subst hx; exact hq
          | cons y u =>
            rw [List.getLast?_cons_cons] at hx
            exact hr2 x hx
        · exact Or.inr hr

/-! ## The explicit file-creation directive -/

theorem space_not_dq : ∀ c, isJsSpace c = true → isDq c = false := by
  intro c hc
  cases hd : isDq c with
  | false => rfl
  | true =>
    have : c = dq := by simpa [isDq] using hd
    subst this
    exact absurd hc (by decide)

theorem space_not_sq : ∀ c, isJsSpace c = true → isSq c = false := by
  intro c hc
  cases hd : isSq c with
  | false => rfl
  | true =>
    have : c = sq := by simpa [isSq] using hd
    subst this
    exact absurd hc (by decide)

theorem space_not_gt : ∀ c, isJsSpace c = true → isGt c = false := by
  intro c hc
  cases hd : isGt c with
  | false => rfl
  | true =>
    have : c = gt := by simpa [isGt] using hd
    subst this
    exact absurd hc (by decide)

theorem notDq_not_dq : ∀ c, notDq c = true → isDq c = false := by
  intro c hc
  simpa [notDq, isDq] using hc

theorem notSq_not_sq : ∀ c, notSq c = true → isSq c = false := by
  intro c hc
  simpa [notSq, isSq] using hc

theorem head_cons_not (p : Nat → Bool) (x : Nat) (t : Str) (h : p x = false) :
    ∀ c, (x :: t).head? = some c → p c = false := by
  intro c hc
  simp only [List.head?_cons, Option.some.injEq] at hc
  rw [← hc]; exact h

theorem notDq_of_not_mem (t : Str) (h : dq ∉ t) : ∀ c ∈ t, notDq c = true := by
  intro c hc
  have : c ≠ dq := fun e => h (e ▸ hc)
  simp [notDq, this]

theorem notSq_of_not_mem (t : Str) (h : sq ∉ t) : ∀ c ∈ t, notSq c = true := by
  intro c hc
  have : c ≠ sq := fun e => h (e ▸ hc)
  simp [notSq, this]

theorem length_pos_of_ne_nil (s : Str) (h : s ≠ []) : 1 ≤ s.length := by
  cases s with
  | nil => exact absurd rfl h
  | cons c t => simp

theorem payload_tail_match (payload : Str) :
    matchAtoms [Atom.rep anyChar 0 true true, Atom.one isDq] (payload ++ [dq]) =
      some [payload] := by
  have hlen : ((payload ++ [dq]).takeWhile anyChar).length = payload.length + 1 := by
    have e : (payload ++ [dq]).takeWhile anyChar = payload ++ [dq] :=
      List.takeWhile_eq_self_iff.2 (fun _ _ => rfl)
    rw [e]
    simp
  have h := rep_greedy anyChar 0 true [Atom.one isDq] (payload ++ [dq]) payload.length []
    (Nat.zero_le _) (by rw [hlen]; exact Nat.le_succ _)
    (by rw [List.drop_left]; rfl)
    (by
      intro i h1 h2
      have hi : (payload ++ [dq]).length ≤ i := by
        simp only [List.length_append, List.length_singleton]; omega
      rw [List.drop_of_length_le hi]
      rfl)
  rw [List.take_left] at h
  exact h

/-- The pattern of the explicit directive matches `createFile "<path>" "<payload>"`, with the
keyword in any case and any white space between the parts, and captures the path and the
payload as written. -/
theorem createFile_match (kw ws1 path ws2 payload : Str) (hkw : sameWord (js "createFile") kw)
    (h1 : ws1 ≠ []) (hs1 : allSpace ws1) (h2 : ws2 ≠ []) (hs2 : allSpace ws2)
    (hne : path ≠ []) (hq : dq ∉ path) :
    jsMatch createFileRe (createFileCommand kw ws1 path ws2 payload) =
      some [createFileCommand kw ws1 path ws2 payload, path, payload] := by
  have hcmd : createFileCommand kw ws1 path ws2 payload =
      kw ++ (ws1 ++ (dq :: (path ++ (dq :: (ws2 ++ (dq :: (payload ++ [dq]))))))) := by
    simp [createFileCommand, quoted]
  have hm : matchAtoms createFileRe (createFileCommand kw ws1 path ws2 payload) =
      some [path, payload] := by
    rw [hcmd]
    unfold createFileRe
    rw [alts_word _ kw _ _ hkw,
      rep_then_one isJsSpace isDq 1 true false _ ws1 _ (allSpace_isJsSpace ws1 hs1)
        (head_cons_not _ _ _ (by decide)) space_not_dq (length_pos_of_ne_nil ws1 h1),
      one_cons _ _ _ _ (by decide),
      rep_then_one notDq isDq 1 true true _ path _ (notDq_of_not_mem path hq)
        (head_cons_not _ _ _ (by decide)) notDq_not_dq (length_pos_of_ne_nil path hne),
      one_cons _ _ _ _ (by decide),
      rep_then_one isJsSpace isDq 1 true false _ ws2 _ (allSpace_isJsSpace ws2 hs2)
        (head_cons_not _ _ _ (by decide)) space_not_dq (length_pos_of_ne_nil ws2 h2),
      one_cons _ _ _ _ (by decide), payload_tail_match]
    rfl
  simp [jsMatch, hm]

/-! ## The file system -/

theorem lookup_insert (w : World) (k : List Str) (n : Node) (x : List Str) :
    (w.insert k n).lookup x =
      if x = [] then some Node.dir else if k = x then some n else w.lookup x := by
  unfold World.lookup World.insert
  by_cases hx : x = []
  · simp [hx]
  · simp only [hx, if_false, lookupNode]

theorem isDir_insert_file (w : World) (k : List Str) (c : Str) (hk : w.isDir k = false)
    (x : List Str) : (w.insert k (Node.file c)).isDir x = w.isDir x := by
  unfold World.isDir
  rw [lookup_insert]
  by_cases hx : x = []
  · simp [hx, World.lookup]
  · rw [if_neg hx]
    by_cases hkx : k = x
    · subst hkx
      rw [if_pos rfl]
      unfold World.isDir at hk
      rw [hk]
    · rw [if_neg hkx]

theorem isDir_insert_dir (w : World) (k x : List Str) (h : w.isDir x = true) :
    (w.insert k Node.dir).isDir x = true := by
  unfold World.isDir at h ⊢
  rw [lookup_insert]
  by_cases hx : x = []
  · simp [hx]
  · rw [if_neg hx]
    by_cases hkx : k = x
    · rw [if_pos hkx]
    · rw [if_neg hkx]; exact h

theorem stepComp_congr (w w1 : World) (h : ∀ x, w1.isDir x = w.isDir x) (cur : List Str)
    (c : Str) : stepComp w1 cur c = stepComp w cur c := by
  unfold stepComp
  rw [h]

theorem walk_congr (w w1 : World) (h : ∀ x, w1.isDir x = w.isDir x) (cs : List Str) :
    ∀ cur, walk w1 cur cs = walk w cur cs := by
  induction cs with
  | nil => intro cur; rfl
  | cons c cs ih =>
    intro cur
    simp only [walk, stepComp_congr w w1 h, ih]

theorem walk_append (w : World) (a b : List Str) :
    ∀ cur, walk w cur (a ++ b) = (walk w cur a).bind (fun q => walk w q b) := by
  induction a with
  | nil => intro cur; rfl
  | cons c cs ih =>
    intro cur
    simp only [List.cons_append, walk]
    cases stepComp w cur c with
    | none => rfl
    | some n => exact ih n

theorem walk_start_isDir (w : World) (cur : List Str) (c : Str) (cs : List Str) (q : List Str)
    (h : walk w cur (c :: cs) = some q) : w.isDir cur = true := by
  simp only [walk] at h
  by_cases hd : w.isDir cur = true
  · exact hd
  · simp [stepComp, hd] at h

theorem isDir_lookup_isSome (w : World) (q : List Str) (h : w.isDir q = true) :
    (w.lookup q).isSome = true := by
  unfold World.isDir at h
  cases hl : w.lookup q with
  | none => rw [hl] at h; cases h
  | some n => rfl

/-- What a successful `writeFileSync` did: the containing directory was there, the name is
a proper name and no directory, and either the target is a device and nothing changed, or
the target now is a regular file holding the content as UTF-8 keeps it. -/
theorem writeFileSync_ok (w w1 : World) (p content : Str)
    (h : writeFileSync w p content = Except.ok w1) :
    validPath p = true ∧ ∃ q name, walk w (startOf w p) (components p).dropLast = some q ∧
      components p = (components p).dropLast ++ [name] ∧ w.isDir q = true ∧
      ¬ (name = [] ∨ name = [dot] ∨ name = [dot, dot]) ∧ w.isDir (q ++ [name]) = false ∧
      ((w.lookup (q ++ [name]) = some Node.device ∧ w1 = w) ∨
        (w.lookup (q ++ [name]) ≠ some Node.device ∧
          w1 = w.insert (q ++ [name]) (Node.file (toWellFormed content)))) := by
  unfold writeFileSync at h
  by_cases hv : validPath p = true
  · rw [if_pos hv] at h
    refine ⟨hv, ?_⟩
    cases hw : walk w (startOf w p) (components p).dropLast with
    | none => rw [hw] at h; cases h
    | some q =>
      rw [hw] at h
      simp only [] at h
      cases hl : (components p).getLast? with
      | none => rw [hl] at h; cases h
      | some name =>
        rw [hl] at h
        simp only [] at h
        by_cases hd : w.isDir q = true
        · rw [if_pos hd] at h
          by_cases hn : name = [] ∨ name = [dot] ∨ name = [dot, dot]
          · rw [if_pos hn] at h; cases h
          · rw [if_neg hn] at h
            have key : w.isDir (q ++ [name]) = false ∧
                ((w.lookup (q ++ [name]) = some Node.device ∧ w1 = w) ∨
                  (w.lookup (q ++ [name]) ≠ some Node.device ∧
                    w1 = w.insert (q ++ [name]) (Node.file (toWellFormed content)))) := by
              cases hl2 : w.lookup (q ++ [name]) with
              | none =>
                rw [hl2] at h
                injection h with h
                exact ⟨by simp [World.isDir, hl2], Or.inr ⟨by simp, h.symm⟩⟩
              | some n =>
                cases n with
                | dir => rw [hl2] at h; cases h
                | device =>
                  rw [hl2] at h
                  injection h with h
                  exact ⟨by simp [World.isDir, hl2], Or.inl ⟨rfl, h.symm⟩⟩
                | file c0 =>
                  rw [hl2] at h
                  injection h with h
                  exact ⟨by simp [World.isDir, hl2], Or.inr ⟨by simp, h.symm⟩⟩
            exact ⟨q, name, rfl, (List.dropLast_append_getLast? name (by rw [hl]; rfl)).symm, hd,
              hn, key.1, key.2⟩
        · rw [if_neg hd] at h; cases h
  · rw [if_neg hv] at h; cases h

theorem startOf_cwd (w w1 : World) (p : Str) (h : w1.cwd = w.cwd) : startOf w1 p = startOf w p := by
  unfold startOf
  rw [h]

theorem writeFileSync_isDir (w w1 : World) (p content : Str)
    (h : writeFileSync w p content = Except.ok w1) :
    w1.cwd = w.cwd ∧ ∀ x, w1.isDir x = w.isDir x := by
  obtain ⟨_, q, name, _, _, _, _, hf, hcase⟩ := writeFileSync_ok w w1 p content h
  rcases hcase with ⟨_, rfl⟩ | ⟨_, rfl⟩
  · exact ⟨rfl, fun _ => rfl⟩
  · exact ⟨rfl, isDir_insert_file w _ _ hf⟩

theorem writeFileSync_resolve (w w1 : World) (p content : Str)
    (h : writeFileSync w p content = Except.ok w1) :
    ∃ q name, resolve w1 p = some (q ++ [name]) ∧
      ((w.lookup (q ++ [name]) = some Node.device ∧ w1 = w) ∨
        (w.lookup (q ++ [name]) ≠ some Node.device ∧
          w1 = w.insert (q ++ [name]) (Node.file (toWellFormed content)))) := by
  obtain ⟨hc, hiso⟩ := writeFileSync_isDir w w1 p content h
  obtain ⟨hv, q, name, hw, hs, hd, hn, _, hcase⟩ := writeFileSync_ok w w1 p content h
  refine ⟨q, name, ?_, hcase⟩
  unfold resolve
  rw [if_pos hv, startOf_cwd w w1 p hc, walk_congr w w1 hiso, hs, walk_append, hw]
  simp only [Option.bind, walk, stepComp, hd, if_true]
  have h1 : ¬ (name = [] ∨ name = [dot]) := fun h => hn (h.elim Or.inl (fun h => Or.inr (Or.inl h)))
  have h2 : ¬ name = [dot, dot] := fun h => hn (Or.inr (Or.inr h))
  rw [if_neg h1, if_neg h2]

/-- After a successful `writeFileSync` on a path that names no device, the path names a
regular file that holds the content as UTF-8 keeps it, and reads back as that. -/
theorem readFileSync_writeFileSync (w w1 : World) (p content : Str)
    (h : writeFileSync w p content = Except.ok w1) (hdev : deviceAt w1 p = false) :
    (∃ q, resolve w1 p = some q ∧ w1.lookup q = some (Node.file (toWellFormed content))) ∧
    readFileSync w1 p = some (toWellFormed content) := by
  obtain ⟨q, name, hres, hcase⟩ := writeFileSync_resolve w w1 p content h
  have hl : w1.lookup (q ++ [name]) = some (Node.file (toWellFormed content)) := by
    rcases hcase with ⟨hl, rfl⟩ | ⟨_, rfl⟩
    · unfold deviceAt at hdev
      rw [hres] at hdev
      simp [hl] at hdev
    · rw [lookup_insert]; simp
  refine ⟨⟨_, hres, hl⟩, ?_⟩
  unfold readFileSync
  rw [hres]
  simp only []
  rw [hl]

theorem walk_prefix_isDir (w : World) (pre suf : List Str) (cur q : List Str)
    (h : walk w cur (pre ++ suf) = some q) (hq : w.isDir q = true) :
    ∃ q1, walk w cur pre = some q1 ∧ w.isDir q1 = true := by
  rw [walk_append] at h
  cases hp : walk w cur pre with
  | none => rw [hp] at h; cases h
  | some q1 =>
    rw [hp] at h
    simp only [Option.bind] at h
    refine ⟨q1, rfl, ?_⟩
    cases suf with
    | nil => simp only [walk, Option.some.injEq] at h; rw [h]; exact hq
    | cons c cs => exact walk_start_isDir w q1 c cs q h

/-- After a successful `writeFileSync` every ancestor of the path is a directory. -/
theorem ancestorsExist_writeFileSync (w w1 : World) (p content : Str)
    (h : writeFileSync w p content = Except.ok w1) : ancestorsExist w1 p = true := by
  obtain ⟨hc, hiso⟩ := writeFileSync_isDir w w1 p content h
  obtain ⟨hv, q, name, hw, hs, hd, hn, hf, _⟩ := writeFileSync_ok w w1 p content h
  unfold ancestorsExist
  rw [List.all_eq_true]
  intro pre hpre
  rw [List.mem_inits] at hpre
  obtain ⟨suf, hsuf⟩ := hpre
  rw [startOf_cwd w w1 p hc, walk_congr w w1 hiso]
  rw [← hsuf] at hw
  obtain ⟨q1, hq1, hd1⟩ := walk_prefix_isDir w pre suf _ q hw hd
  rw [hq1]
  simp only []
  rw [hiso]
  exact hd1

theorem existsSync_writeFileSync (w w1 : World) (p content x : Str)
    (h : writeFileSync w p content = Except.ok w1) (hx : existsSync w x = true) :
    existsSync w1 x = true := by
  obtain ⟨hc, hiso⟩ := writeFileSync_isDir w w1 p content h
  obtain ⟨_, q, name, _, _, _, _, _, hcase⟩ := writeFileSync_ok w w1 p content h
  rcases hcase with ⟨_, rfl⟩ | ⟨_, rfl⟩
  · exact hx
  · unfold existsSync resolve at hx ⊢
    by_cases hv : validPath x = true
    · rw [if_pos hv] at hx ⊢
      rw [startOf_cwd w _ x hc, walk_congr w _ hiso]
      cases hwk : walk w (startOf w x) (components x) with
      | none => rw [hwk] at hx; cases hx
      | some y =>
        rw [hwk] at hx
        simp only [] at hx ⊢
        rw [lookup_insert]
        by_cases hy : y = []
        · rw [if_pos hy]; rfl
        · rw [if_neg hy]
          by_cases hk : q ++ [name] = y
          · rw [if_pos hk]; rfl
          · rw [if_neg hk]; exact hx
    · rw [if_neg hv] at hx; cases hx

theorem mkdirp_ok (code : Str → Str) (cs : List Str) : ∀ (w w1 : World) (cur : List Str),
    mkdirp code w cur cs = Except.ok w1 →
      w1.cwd = w.cwd ∧ (∀ x, w.isDir x = true → w1.isDir x = true) ∧
      ∃ q, walk w1 cur cs = some q ∧ w1.isDir q = true := by
  induction cs with
  | nil =>
    intro w w1 cur h
    unfold mkdirp at h
    by_cases hd : w.isDir cur = true
    · rw [if_pos hd] at h
      injection h with h
      subst h
      exact ⟨rfl, fun _ hx => hx, cur, rfl, hd⟩
    · rw [if_neg hd] at h; cases h
  | cons c cs ih =>
    intro w w1 cur h
    unfold mkdirp at h
    by_cases hd : w.isDir cur = true
    · rw [if_pos hd] at h
      by_cases h1 : c = [] ∨ c = [dot]
      · rw [if_pos h1] at h
        obtain ⟨hc, hm, q, hq, hqd⟩ := ih w w1 cur h
        refine ⟨hc, hm, q, ?_, hqd⟩
        simp only [walk, stepComp, hm cur hd, if_true, if_pos h1]
        exact hq
      · rw [if_neg h1] at h
        by_cases h2 : c = [dot, dot]
        · rw [if_pos h2] at h
          obtain ⟨hc, hm, q, hq, hqd⟩ := ih w w1 cur.dropLast h
          refine ⟨hc, hm, q, ?_, hqd⟩
          simp only [walk, stepComp, hm cur hd, if_true, if_neg h1, if_pos h2]
          exact hq
        · rw [if_neg h2] at h
          cases hl : w.lookup (cur ++ [c]) with
          | none =>
            rw [hl] at h
            simp only [] at h
            obtain ⟨hc, hm, q, hq, hqd⟩ := ih _ w1 (cur ++ [c]) h
            refine ⟨hc, fun x hx => hm x (isDir_insert_dir w _ x hx), q, ?_, hqd⟩
            simp only [walk, stepComp, hm cur (isDir_insert_dir w _ cur hd), if_true, if_neg h1,
              if_neg h2]
            exact hq
          | some n =>
            rw [hl] at h
            cases n with
            | file content => cases h
            | device => cases h
            | dir =>
              simp only [] at h
              obtain ⟨hc, hm, q, hq, hqd⟩ := ih w w1 (cur ++ [c]) h
              refine ⟨hc, hm, q, ?_, hqd⟩
              simp only [walk, stepComp, hm cur hd, if_true, if_neg h1, if_neg h2]
              exact hq
    · rw [if_neg hd] at h; cases h

/-- After a successful `mkdirSync` the path exists. -/
theorem existsSync_mkdirSync (w w1 : World) (p : Str) (h : mkdirSync w p = Except.ok w1) :
    existsSync w1 p = true := by
  unfold mkdirSync at h
  by_cases hv : validPath p = true
  · rw [if_pos hv] at h
    obtain ⟨hc, _, q, hq, hqd⟩ := mkdirp_ok _ _ w w1 _ h
    unfold existsSync resolve
    rw [if_pos hv, startOf_cwd w w1 p hc, hq]
    exact isDir_lookup_isSome w1 q hqd
  · rw [if_neg hv] at h; cases h

/-! ## The command engine -/

theorem createFile_ok (w : World) (p c r : Str) (h : (createFile w p c).result = Except.ok r) :
    (∃ w1, existsSync w1 (dirname p) = true ∧
      writeFileSync w1 p c = Except.ok (createFile w p c).world) ∧
    r = js "stdout: File created successfully: " ++ p ++ js "\nstderr:" := by
  unfold createFile at h ⊢
  simp only [] at h ⊢
  split at h
  · cases h
  · rename_i w1 hmade
    have hdir : existsSync w1 (dirname p) = true := by
      by_cases he : existsSync w (dirname p) = true
      · simp only [he, Bool.not_true, Bool.false_eq_true, if_false] at hmade
        injection hmade with hmade
        rw [← hmade]; exact he
      · have hn : (!existsSync w (dirname p)) = true := by simpa using he
        rw [if_pos hn] at hmade
        exact existsSync_mkdirSync w w1 _ hmade
    cases hw : writeFileSync w1 p c with
    | error e => rw [hw] at h; cases h
    | ok w2 =>
      rw [hw] at h
      simp only [] at h ⊢
      injection h with h
      exact ⟨⟨w1, hdir, hw⟩, h.symm⟩

/-- C1 (amended): for the directive `createFile "<path>" "<payload>"`, with the keyword in
any letter case and any white space between the parts, a non-empty path without double
quote and a payload without lone surrogate: when `executeCommand` succeeds and the path
names no device, the path names a regular file that holds the payload with the escapes
`\n`, `\"`, `\'`, `\t` replaced in that order (a text the payload determines), `readFileSync`
returns that very text, every ancestor of the path is a directory, the containing directory
exists, and the result names the path. -/
theorem createFile_directive_writes_decoded_payload (env : Env) (w : World)
    (kw ws1 path ws2 payload r : Str) (hkw : sameWord (js "createFile") kw)
    (h1 : ws1 ≠ []) (hs1 : allSpace ws1) (h2 : ws2 ≠ []) (hs2 : allSpace ws2)
    (hne : path ≠ []) (hq : dq ∉ path) (hwf : wellFormed payload = true)
    (hok : (executeCommand env w (createFileCommand kw ws1 path ws2 payload)).result =
      Except.ok r)
    (hdev : deviceAt (executeCommand env w (createFileCommand kw ws1 path ws2 payload)).world
      path = false) :
    ∃ content, Decoded payload content ∧ (∀ c, Decoded payload c → c = content) ∧
      (∃ q, resolve (executeCommand env w (createFileCommand kw ws1 path ws2 payload)).world path
          = some q ∧
        (executeCommand env w (createFileCommand kw ws1 path ws2 payload)).world.lookup q =
          some (Node.file content)) ∧
      readFileSync (executeCommand env w (createFileCommand kw ws1 path ws2 payload)).world path =
        some content ∧
      ancestorsExist (executeCommand env w (createFileCommand kw ws1 path ws2 payload)).world path
        = true ∧
      existsSync (executeCommand env w (createFileCommand kw ws1 path ws2 payload)).world
        (dirname path) = true ∧
      r = js "stdout: File created successfully: " ++ path ++ js "\nstderr:" := by
  have hm := createFile_match kw ws1 path ws2 payload hkw h1 hs1 h2 hs2 hne hq
  have hex : executeCommand env w (createFileCommand kw ws1 path ws2 payload) =
      createFile w path (decodeEscapes payload) := by
    unfold executeCommand
    rw [hm]
    rfl
  rw [hex] at hok hdev ⊢
  obtain ⟨⟨w1, hdir, hw⟩, hr⟩ := createFile_ok w path (decodeEscapes payload) r hok
  have hdec := decodeEscapes_decoded payload
  have hkeep : toWellFormed (decodeEscapes payload) = decodeEscapes payload :=
    toWellFormed_of_wellFormed _ (decoded_wellFormed _ _ hdec hwf)
  obtain ⟨hfile, hread⟩ := readFileSync_writeFileSync w1 _ path _ hw hdev
  rw [hkeep] at hfile hread
  exact ⟨decodeEscapes payload, hdec, fun c hc => decoded_unique payload c hc, hfile, hread,
    ancestorsExist_writeFileSync w1 _ path _ hw, existsSync_writeFileSync w1 _ path _ _ hw hdir,
    hr⟩

/-- Witness for C1: `createFile "a/b/c.txt" "hello\nworld"` in the empty world leaves
`a/b/c.txt` holding `hello`, a line feed, `world`, below the new directories `a` and `a/b`;
and `CREATEFILE`, a tabulation, a path, a line end and a payload with the four escapes leave
the file holding the four characters. -/
theorem createFile_directive_writes_decoded_payload_witness :
    (createFileCommand (js "createFile") [space] (js "a/b/c.txt") [space] (js "hello\\nworld") =
      js "createFile \"a/b/c.txt\" \"hello\\nworld\"" ∧
     readFileSync (executeCommand (sampleEnv false) emptyWorld
        (js "createFile \"a/b/c.txt\" \"hello\\nworld\"")).world (js "a/b/c.txt") =
      some (js "hello\nworld") ∧
     (executeCommand (sampleEnv false) emptyWorld
        (js "createFile \"a/b/c.txt\" \"hello\\nworld\"")).world.isDir [js "a", js "b"] = true ∧
     readFileSync (executeCommand (sampleEnv false) emptyWorld
        (js "CREATEFILE\t\"f\"\n\"a\\nb\\n\\\"c\\'d\\te\"")).world (js "f") =
      some (js "a\nb\n\"c'd\te")) ∧
    ∃ content, Decoded (js "hello\\nworld") content ∧
      (∀ c, Decoded (js "hello\\nworld") c → c = content) ∧
      (∃ q, resolve (executeCommand (sampleEnv false) emptyWorld
          (createFileCommand (js "createFile") [space] (js "a/b/c.txt") [space]
            (js "hello\\nworld"))).world (js "a/b/c.txt") = some q ∧
        (executeCommand (sampleEnv false) emptyWorld
          (createFileCommand (js "createFile") [space] (js "a/b/c.txt") [space]
            (js "hello\\nworld"))).world.lookup q = some (Node.file content)) ∧
      readFileSync (executeCommand (sampleEnv false) emptyWorld
        (createFileCommand (js "createFile") [space] (js "a/b/c.txt") [space]
          (js "hello\\nworld"))).world (js "a/b/c.txt") = some content ∧
      ancestorsExist (executeCommand (sampleEnv false) emptyWorld
        (createFileCommand (js "createFile") [space] (js "a/b/c.txt") [space]
          (js "hello\\nworld"))).world (js "a/b/c.txt") = true ∧
      existsSync (executeCommand (sampleEnv false) emptyWorld
        (createFileCommand (js "createFile") [space] (js "a/b/c.txt") [space]
          (js "hello\\nworld"))).world (dirname (js "a/b/c.txt")) = true ∧
      js "stdout: File created successfully: a/b/c.txt\nstderr:" =
        js "stdout: File created successfully: " ++ js "a/b/c.txt" ++ js "\nstderr:" :=
  ⟨by decide,
    createFile_directive_writes_decoded_payload (sampleEnv false) emptyWorld (js "createFile")
      [space] (js "a/b/c.txt") [space] (js "hello\\nworld")
      (js "stdout: File created successfully: a/b/c.txt\nstderr:")
      (by decide) (by decide) (by decide) (by decide) (by decide) (by decide) (by decide)
      (by decide) (by decide) (by decide)⟩

/-- C1 as stated fails on two inputs.  A payload made of the lone surrogate U+D800 holds no
escape, so its decoded text is itself, yet the file holds U+FFFD and reads back as that.
And on the device `/dev/null` the command succeeds while the path reads back empty. -/
theorem createFile_directive_lone_surrogate_and_device :
    (executeCommand (sampleEnv false) emptyWorld
      (createFileCommand (js "createFile") [space] (js "f") [space] [0xD800])).result =
      Except.ok (js "stdout: File created successfully: f\nstderr:") ∧
    Decoded [0xD800] [0xD800] ∧
    readFileSync (executeCommand (sampleEnv false) emptyWorld
      (createFileCommand (js "createFile") [space] (js "f") [space] [0xD800])).world (js "f") =
      some [0xFFFD] ∧
    (executeCommand (sampleEnv false) worldWithNull
      (js "createFile \"/dev/null\" \"x\"")).result =
      Except.ok (js "stdout: File created successfully: /dev/null\nstderr:") ∧
    readFileSync (executeCommand (sampleEnv false) worldWithNull
      (js "createFile \"/dev/null\" \"x\"")).world (js "/dev/null") = some [] :=
  ⟨by decide, decodeEscapes_decoded [0xD800], by decide, by decide, by decide⟩

/-! ## Change of directory -/

theorem opt_take (p : Nat → Bool) (rest : List Atom) (c : Nat) (t : Str) (r : Caps)
    (hc : p c = true) (h : matchAtoms rest t = some r) :
    matchAtoms (Atom.opt p :: rest) (c :: t) = some r := by
  simp [matchAtoms, stepOne, hc, h]

theorem opt_skip (p : Nat → Bool) (rest : List Atom) (s : Str)
    (h : ∀ c, s.head? = some c → p c = false) :
    matchAtoms (Atom.opt p :: rest) s = matchAtoms rest s := by
  cases s with
  | nil => simp [matchAtoms, stepOne]
  | cons c t => simp [matchAtoms, stepOne, h c rfl]

theorem length_dropWhile_le (p : Nat → Bool) (s : Str) : (s.dropWhile p).length ≤ s.length := by
  have := congrArg List.length (List.takeWhile_append_dropWhile p s)
  rw [List.length_append] at this
  omega

theorem trim_fixed_head (t : Str) (ht : trim t = t) :
    ∀ c, t.head? = some c → isJsSpace c = false := by
  intro c hc
  cases t with
  | nil => cases hc
  | cons x t1 =>
    simp only [List.head?_cons, Option.some.injEq] at hc
    subst hc
    by_contra hsp
    have hx : isJsSpace x = true := by simpa using hsp
    have hlen := congrArg List.length ht
    unfold trim at hlen
    rw [List.length_reverse] at hlen
    have h1 := length_dropWhile_le isJsSpace ((x :: t1).dropWhile isJsSpace).reverse
    rw [List.length_reverse] at h1
    have h2 : ((x :: t1).dropWhile isJsSpace).length ≤ t1.length := by
      rw [List.dropWhile_cons_of_pos hx]
      exact length_dropWhile_le isJsSpace t1
    simp only [List.length_cons] at hlen
    omega

theorem space_is_space : ∀ c ∈ [space], isJsSpace c = true := by decide

theorem cd_not_earlier (rest : Str) :
    jsMatch createFileRe (99 :: 100 :: rest) = none ∧
    firstMatch fileCreationPatterns (99 :: 100 :: rest) = none ∧
    firstMatch mkdirPatterns (99 :: 100 :: rest) = none ∧
    jsMatch lsRe (99 :: 100 :: rest) = none ∧ jsMatch dirRe (99 :: 100 :: rest) = none ∧
    jsMatch pwdRe (99 :: 100 :: rest) = none :=
  ⟨rfl, rfl, rfl, rfl, rfl, rfl⟩

theorem cdQuoted_match (t : Str) (hq : dq ∉ t) :
    jsMatch cdRe (cdQuoted t) = some [cdQuoted t, t] := by
  have h4 : matchAtoms [Atom.opt isDq] [dq] = some [] := rfl
  have h3 := rep_greedy_run notDq 0 true [Atom.opt isDq] t [dq] [] (notDq_of_not_mem t hq)
    (head_cons_not _ _ _ (by decide)) (Nat.zero_le _) h4
  have h2 := opt_take isDq [Atom.rep notDq 0 true true, Atom.opt isDq] dq (t ++ [dq]) [t]
    (by decide) h3
  have h1 := rep_greedy_run isJsSpace 1 false _ [space] (dq :: (t ++ [dq])) [t]
    space_is_space (head_cons_not _ _ _ (by decide)) (le_refl _) h2
  have h0 : matchAtoms cdRe (cdQuoted t) = some [t] := by
    unfold cdRe cdQuoted quoted
    rw [alts_word _ _ _ _ rfl]
    exact h1
  simp [jsMatch, h0]

theorem cdBare_match (t : Str) (hq : dq ∉ t) (ht : trim t = t) :
    jsMatch cdRe (cdBare t) = some [cdBare t, t] := by
  have h4 : matchAtoms [Atom.opt isDq] [] = some [] := rfl
  have h3 := rep_greedy_run notDq 0 true [Atom.opt isDq] t [] [] (notDq_of_not_mem t hq)
    (by intro c hc; cases hc) (Nat.zero_le _) h4
  rw [List.append_nil] at h3
  have hhead : ∀ c, t.head? = some c → isDq c = false := by
    intro c hc
    cases t with
    | nil => cases hc
    | cons x t1 =>
      simp only [List.head?_cons, Option.some.injEq] at hc
      subst hc
      have : x ≠ dq := fun e => hq (e ▸ List.mem_cons_self _ _)
      simp [isDq, this]
  have h2 : matchAtoms [Atom.opt isDq, Atom.rep notDq 0 true true, Atom.opt isDq] t = some [t] := by
    rw [opt_skip _ _ _ hhead]; exact h3
  have h1 := rep_greedy_run isJsSpace 1 false _ [space] t [t]
    space_is_space (trim_fixed_head t ht) (le_refl _) h2
  have h0 : matchAtoms cdRe (cdBare t) = some [t] := by
    unfold cdRe cdBare
    rw [alts_word _ _ _ _ rfl]
    exact h1
  simp [jsMatch, h0]

theorem executeCommand_cd (env : Env) (w : World) (rest : Str) (m : List Str)
    (h : jsMatch cdRe (99 :: 100 :: rest) = some m) :
    executeCommand env w (99 :: 100 :: rest) = changeDirectory w (trim (grp m 1)) := by
  obtain ⟨h1, h2, h3, h4, h5, h6⟩ := cd_not_earlier rest
  unfold executeCommand
  rw [h1, h2, h3, h4, h5, h6, h]
  rfl

/-- C2 (amended): for a target without double quote and without leading or trailing white
space that does not exist, `cd "t"` and `cd t` are rejected with `Directory not found: t`
and leave the world, so the working directory, as it was. -/
theorem cd_to_missing_target_is_rejected (env : Env) (w : World) (t : Str) (hq : dq ∉ t)
    (ht : trim t = t) (hmiss : existsSync w t = false) :
    (executeCommand env w (cdQuoted t)).result = Except.error (js "Directory not found: " ++ t) ∧
    (executeCommand env w (cdQuoted t)).world = w ∧
    (executeCommand env w (cdBare t)).result = Except.error (js "Directory not found: " ++ t) ∧
    (executeCommand env w (cdBare t)).world = w := by
  have e1 : executeCommand env w (cdQuoted t) = changeDirectory w (trim (grp [cdQuoted t, t] 1)) :=
    executeCommand_cd env w _ _ (cdQuoted_match t hq)
  have e2 : executeCommand env w (cdBare t) = changeDirectory w (trim (grp [cdBare t, t] 1)) :=
    executeCommand_cd env w _ _ (cdBare_match t hq ht)
  have hg1 : trim (grp [cdQuoted t, t] 1) = t := ht
  have hg2 : trim (grp [cdBare t, t] 1) = t := ht
  rw [e1, e2, hg1, hg2]
  unfold changeDirectory
  rw [hmiss]
  exact ⟨rfl, rfl, rfl, rfl⟩

/-- Witness for C2: `cd "nonexistent"` and `cd nonexistent` in the empty world. -/
theorem cd_to_missing_target_is_rejected_witness :
    (executeCommand (sampleEnv false) emptyWorld (js "cd \"nonexistent\"")).result =
      Except.error (js "Directory not found: nonexistent") ∧
    (executeCommand (sampleEnv false) emptyWorld (cdQuoted (js "nonexistent"))).world =
      emptyWorld ∧
    (executeCommand (sampleEnv false) emptyWorld (js "cd nonexistent")).result =
      Except.error (js "Directory not found: nonexistent") ∧
    (executeCommand (sampleEnv false) emptyWorld (cdBare (js "nonexistent"))).world =
      emptyWorld :=
  cd_to_missing_target_is_rejected (sampleEnv false) emptyWorld (js "nonexistent")
    (by decide) (by decide) (by decide)

/-- C2 as stated fails: with the directory `x` present, the target ` x` (a space, then `x`)
does not exist, yet `cd " x"` succeeds and moves the working directory to `/x`, because the
captured target is trimmed before it is looked up. -/
theorem cd_trims_target_before_lookup :
    existsSync worldWithX (js " x") = false ∧
    (executeCommand (sampleEnv false) worldWithX (js "cd \" x\"")).result =
      Except.ok (js "stdout: Changed directory to: /x\nstderr:") ∧
    worldWithX.cwd = [] ∧
    (executeCommand (sampleEnv false) worldWithX (js "cd \" x\"")).world.cwd = [js "x"] := by
  decide

/-! ## The raw-shell branch -/

theorem executeCommand_rawShell (env : Env) (w : World) (command : Str)
    (h : isRawShell command = true) : executeCommand env w command = rawShell env w command := by
  unfold isRawShell at h
  simp only [Bool.and_eq_true, Option.isNone_iff_eq_none] at h
  obtain ⟨⟨⟨⟨⟨⟨h1, h2⟩, h3⟩, h4⟩, h5⟩, h6⟩, h7⟩ := h
  unfold executeCommand
  rw [h1, h2, h3, h4, h5, h6, h7]
  rfl

/-- C8 (amended): on Windows a command that matches none of the patterns and contains `|`,
`&` or `>` is rejected with the unsupported-operation error, spawns nothing and leaves the
world as it was. -/
theorem windows_rejects_shell_metacharacters (env : Env) (w : World) (command : Str)
    (hwin : env.isWindows = true) (hraw : isRawShell command = true)
    (hmeta : includes command pipe = true ∨ includes command amp = true ∨
      includes command gt = true) :
    (executeCommand env w command).result = Except.error
      (js "Complex shell operations not supported on Windows. Use direct file operations instead.") ∧
    (executeCommand env w command).spawned = [] ∧ (executeCommand env w command).world = w := by
  rw [executeCommand_rawShell env w command hraw]
  unfold rawShell
  have hc : (env.isWindows &&
      (includes command pipe || includes command amp || includes command gt)) = true := by
    rw [hwin]
    rcases hmeta with h | h | h <;> simp [h]
  rw [if_pos hc]
  exact ⟨rfl, rfl, rfl⟩

/-- Witness for C8: `type a.txt | more` on Windows. -/
theorem windows_rejects_shell_metacharacters_witness :
    (js "|") = [pipe] ∧ js "&" = [amp] ∧ js ">" = [gt] ∧
    ((executeCommand (sampleEnv true) emptyWorld (js "type a.txt | more")).result = Except.error
      (js "Complex shell operations not supported on Windows. Use direct file operations instead.") ∧
    (executeCommand (sampleEnv true) emptyWorld (js "type a.txt | more")).spawned = [] ∧
    (executeCommand (sampleEnv true) emptyWorld (js "type a.txt | more")).world = emptyWorld) :=
  ⟨by decide, by decide, by decide,
    windows_rejects_shell_metacharacters (sampleEnv true) emptyWorld (js "type a.txt | more")
      rfl (by decide) (Or.inl (by decide))⟩

/-- C8 as stated fails: on Windows `sort < a.txt` reaches the raw-shell branch and contains
the redirection character `<`, yet it is not rejected: `cmd.exe /c` is
spawned with it. -/
theorem windows_spawns_input_redirection :
    isRawShell (js "sort < a.txt") = true ∧ js "<" = [lt] ∧ includes (js "sort < a.txt") lt = true ∧
    (executeCommand (sampleEnv true) emptyWorld (js "sort < a.txt")).spawned =
      [(js "cmd.exe", [js "/c", js "sort < a.txt"])] ∧
    (executeCommand (sampleEnv true) emptyWorld (js "sort < a.txt")).result ≠ Except.error
      (js "Complex shell operations not supported on Windows. Use direct file operations instead.") := by
  decide

/-! ## Which branch a command takes -/

theorem firstMatch_mem (res : List (List Atom)) (s : Str) (m : List Str)
    (h : firstMatch res s = some m) : ∃ re ∈ res, jsMatch re s = some m := by
  induction res with
  | nil => cases h
  | cons re res ih =>
    unfold firstMatch at h
    cases hj : jsMatch re s with
    | some m1 =>
      rw [hj] at h
      exact ⟨re, List.mem_cons_self _ _, by rw [hj]; exact h⟩
    | none =>
      rw [hj] at h
      obtain ⟨r1, hr1, h1⟩ := ih h
      exact ⟨r1, List.mem_cons_of_mem _ hr1, h1⟩

theorem firstMatch_none (res : List (List Atom)) (s : Str)
    (h : ∀ re ∈ res, jsMatch re s = none) : firstMatch res s = none := by
  induction res with
  | nil => rfl
  | cons re res ih =>
    unfold firstMatch
    rw [h re (List.mem_cons_self _ _)]
    exact ih (fun r hr => h r (List.mem_cons_of_mem _ hr))

/-- The first pattern of the list that matches settles the result. -/
theorem firstMatch_split (pre post : List (List Atom)) (re : List Atom) (s : Str) (m : List Str)
    (hpre : ∀ r ∈ pre, jsMatch r s = none) (hre : jsMatch re s = some m) :
    firstMatch (pre ++ re :: post) s = some m := by
  induction pre with
  | nil => simp [firstMatch, hre]
  | cons r pre ih =>
    simp only [List.cons_append, firstMatch, hpre r (List.mem_cons_self _ _)]
    exact ih (fun r1 hr1 => hpre r1 (List.mem_cons_of_mem _ hr1))

theorem jsMatch_some (re : List Atom) (s : Str) (m : List Str) (h : jsMatch re s = some m) :
    ∃ cs, matchAtoms re s = some cs ∧ m = s :: cs := by
  unfold jsMatch at h
  cases hm : matchAtoms re s with
  | none => rw [hm] at h; cases h
  | some cs =>
    rw [hm] at h
    simp only [Option.map_some', Option.some.injEq] at h
    exact ⟨cs, rfl, h.symm⟩

theorem jsMatch_alts_fail (ws : List Str) (rest : List Atom) (s : Str)
    (h : ∀ w ∈ ws, ciStarts w s = false) : jsMatch (Atom.alts ws :: rest) s = none := by
  unfold jsMatch
  rw [alts_fail ws rest s h]
  rfl

theorem ciStarts_first_letter (a b : Nat) (w1 w2 s : Str) (h : ciStarts (a :: w1) s = true)
    (hab : (lower a == lower b) = false) : ciStarts (b :: w2) s = false := by
  cases s with
  | nil => rfl
  | cons c t =>
    simp only [ciStarts, ciEq, Bool.and_eq_true, beq_iff_eq] at h
    simp only [ciStarts, ciEq, Bool.and_eq_false_iff]
    left
    rw [← h.1]
    simp only [beq_eq_false_iff_ne, ne_eq] at hab ⊢
    exact fun e => hab e.symm

theorem ciStarts_second_letter (a b1 b2 : Nat) (w1 w2 s : Str)
    (h : ciStarts (a :: b1 :: w1) s = true) (hab : (lower b1 == lower b2) = false) :
    ciStarts (a :: b2 :: w2) s = false := by
  cases s with
  | nil => rfl
  | cons c t =>
    simp only [ciStarts, Bool.and_eq_true] at h
    simp only [ciStarts, Bool.and_eq_false_iff]
    right
    exact ciStarts_first_letter b1 b2 w1 w2 t h.2 hab

theorem write_pattern_head (re : List Atom) (h : re ∈ fileCreationPatterns) :
    ∃ tail, re = Atom.alts [js "echo", js "cat"] :: tail := by
  simp only [fileCreationPatterns, List.mem_cons, List.mem_singleton, List.mem_nil_iff,
    or_false] at h
  rcases h with h | h | h | h | h | h <;> exact ⟨_, by rw [h]; rfl⟩

theorem mkdir_pattern_head (re : List Atom) (h : re ∈ mkdirPatterns) :
    ∃ tail, re = Atom.alts [js "mkdir"] :: tail := by
  simp only [mkdirPatterns, List.mem_cons, List.mem_singleton, List.mem_nil_iff,
    or_false] at h
  rcases h with h | h | h <;> exact ⟨_, by rw [h]; rfl⟩

theorem write_starts (s : Str) (m : List Str) (h : firstMatch fileCreationPatterns s = some m) :
    ciStarts (js "echo") s = true ∨ ciStarts (js "cat") s = true := by
  obtain ⟨re, hre, hj⟩ := firstMatch_mem _ _ _ h
  obtain ⟨tail, rfl⟩ := write_pattern_head re hre
  obtain ⟨cs, hcs, _⟩ := jsMatch_some _ _ _ hj
  obtain ⟨w, hw, hs, _⟩ := alts_sound _ _ _ _ hcs
  simp only [List.mem_cons, List.mem_singleton, List.mem_nil_iff, or_false] at hw
  rcases hw with rfl | rfl
  · exact Or.inl hs
  · exact Or.inr hs

theorem mkdir_starts (s : Str) (m : List Str) (h : firstMatch mkdirPatterns s = some m) :
    ciStarts (js "mkdir") s = true := by
  obtain ⟨re, hre, hj⟩ := firstMatch_mem _ _ _ h
  obtain ⟨tail, rfl⟩ := mkdir_pattern_head re hre
  obtain ⟨cs, hcs, _⟩ := jsMatch_some _ _ _ hj
  obtain ⟨w, hw, hs, _⟩ := alts_sound _ _ _ _ hcs
  simp only [List.mem_singleton] at hw
  rw [hw] at hs
  exact hs

theorem executeCommand_write (env : Env) (w : World) (s : Str) (m : List Str)
    (h : firstMatch fileCreationPatterns s = some m) :
    executeCommand env w s =
      createFile w (trim (grp m 2)) (decodeEscapes (stripOuterQuotes (trim (grp m 1)))) := by
  have h1 : jsMatch createFileRe s = none := by
    apply jsMatch_alts_fail
    intro x hx
    simp only [List.mem_singleton] at hx
    subst hx
    rcases write_starts s m h with he | hc
    · exact ciStarts_first_letter 101 99 _ _ s he (by decide)
    · exact ciStarts_second_letter 99 97 114 _ _ s hc (by decide)
  unfold executeCommand
  rw [h1, h]

theorem executeCommand_mkdir (env : Env) (w : World) (s : Str) (m : List Str)
    (h : firstMatch mkdirPatterns s = some m) :
    executeCommand env w s = makeDirectory w (trim (grp m 1)) := by
  have hs := mkdir_starts s m h
  have h1 : jsMatch createFileRe s = none := by
    apply jsMatch_alts_fail
    intro x hx
    simp only [List.mem_singleton] at hx
    subst hx
    exact ciStarts_first_letter 109 99 _ _ s hs (by decide)
  have h2 : firstMatch fileCreationPatterns s = none := by
    apply firstMatch_none
    intro re hre
    obtain ⟨tail, rfl⟩ := write_pattern_head re hre
    apply jsMatch_alts_fail
    intro x hx
    simp only [List.mem_cons, List.mem_singleton, List.mem_nil_iff, or_false] at hx
    rcases hx with rfl | rfl
    · exact ciStarts_first_letter 109 101 _ _ s hs (by decide)
    · exact ciStarts_first_letter 109 99 _ _ s hs (by decide)
  unfold executeCommand
  rw [h1, h2, h]

/-! ## Directory creation -/

theorem makeDirectory_exists (w : World) (p : Str) (h : existsSync w p = true) :
    makeDirectory w p =
      ⟨Except.ok (js "stdout: Directory already exists: " ++ p ++ js "\nstderr:"), w, []⟩ := by
  unfold makeDirectory
  simp [h]

theorem makeDirectory_ok (w : World) (p r : Str) (h : (makeDirectory w p).result = Except.ok r) :
    existsSync (makeDirectory w p).world p = true ∧
    (existsSync w p = false →
      r = js "stdout: Directory created: " ++ p ++ js "\nstderr:") := by
  by_cases he : existsSync w p = true
  · rw [makeDirectory_exists w p he]
    exact ⟨he, fun hf => absurd he (by rw [hf]; decide)⟩
  · unfold makeDirectory at h ⊢
    have hn : (!existsSync w p) = true := by simpa using he
    rw [if_pos hn] at h ⊢
    cases hmk : mkdirSync w p with
    | error e => rw [hmk] at h; cases h
    | ok w1 =>
      rw [hmk] at h
      simp only [] at h ⊢
      injection h with h
      exact ⟨existsSync_mkdirSync w w1 p hmk, fun _ => h.symm⟩

theorem one_fail_head (p : Nat → Bool) (rest : List Atom) (x : Nat) (t : Str) (h : p x = false) :
    matchAtoms (Atom.one p :: rest) (x :: t) = none := by
  simp [matchAtoms, stepOne, h]

/-- A quoted operand is matched by `q([^q]+)q$` and captured without its quotes. -/
theorem quoted_operand_match (isQ notQ : Nat → Bool) (q : Nat) (p : Str) (hq : isQ q = true)
    (hnq : ∀ c ∈ p, notQ c = true) (hstop : notQ q = false)
    (hdis : ∀ c, notQ c = true → isQ c = false) (hne : p ≠ []) :
    matchAtoms [Atom.one isQ, Atom.rep notQ 1 true true, Atom.one isQ] (quoted q p) =
      some [p] := by
  unfold quoted
  rw [one_cons _ _ _ _ hq,
    rep_then_one notQ isQ 1 true true _ p [q] hnq (head_cons_not _ _ _ hstop) hdis
      (length_pos_of_ne_nil p hne),
    one_cons _ _ _ _ hq]
  rfl

/-- A text that is matched by `q([^q]+)q$` has the shape of a quoted operand. -/
theorem quoted_operand_sound (isQ notQ : Nat → Bool) (q : Nat) (p : Str) (cs : Caps)
    (hq : ∀ c, isQ c = true → c = q) (hnq : ∀ c, notQ c = true → c ≠ q)
    (h : matchAtoms [Atom.one isQ, Atom.rep notQ 1 true true, Atom.one isQ] p = some cs) :
    quotedShape q p := by
  obtain ⟨c, t, hp, hc, h1⟩ := one_sound _ _ _ _ h
  obtain ⟨inner, ys, cs1, ht, hin, hlen, h2, _⟩ := rep_sound _ _ _ _ _ _ _ h1
  obtain ⟨c2, t2, hys, hc2, h3⟩ := one_sound _ _ _ _ h2
  obtain ⟨ht2, _⟩ := nil_sound _ _ h3
  refine ⟨inner, ?_, ?_, ?_⟩
  · rw [hp, ht, hys, ht2, hq c hc, hq c2 hc2]; rfl
  · intro e; rw [e] at hlen; simp at hlen
  · intro hmem; exact hnq q (hin q hmem) rfl

theorem noSpace_head (p : Str) (h : noSpace p) : ∀ c, p.head? = some c → isJsSpace c = false := by
  intro c hc
  cases p with
  | nil => cases hc
  | cons x t =>
    simp only [List.head?_cons, Option.some.injEq] at hc
    subst hc
    exact not_isJsSpace _ (h _ (List.mem_cons_self _ _))

/-- The head `mkdir\s+` in front of an operand that begins with no white space. -/
theorem mkdir_head (kw ws : Str) (hkw : sameWord (js "mkdir") kw) (hne : ws ≠ [])
    (hs : allSpace ws) (rest : List Atom) (q : Nat → Bool) (x : Str)
    (hx : ∀ c, x.head? = some c → isJsSpace c = false) (hq : ∀ c, isJsSpace c = true → q c = false) :
    matchAtoms (Atom.alts [js "mkdir"] :: Atom.rep isJsSpace 1 true false :: Atom.one q :: rest)
      (mkdirCommand kw ws x) = matchAtoms (Atom.one q :: rest) x := by
  unfold mkdirCommand
  rw [alts_word _ _ _ _ hkw,
    rep_then_one isJsSpace q 1 true false _ ws x (allSpace_isJsSpace ws hs) hx hq
      (length_pos_of_ne_nil ws hne)]
  cases matchAtoms (Atom.one q :: rest) x <;> rfl

/-- Each of the three forms of the `mkdir` directive is matched with the path as its
capture. -/
theorem mkdir_form_match (kw ws command p : Str) (h : mkdirForm kw ws command p) :
    firstMatch mkdirPatterns command = some [command, p] := by
  obtain ⟨hkw, hwn, hws, h⟩ := h
  rcases h with ⟨rfl, hne, hq⟩ | ⟨rfl, hne, hq⟩ | ⟨rfl, hne, hns, hd, hs⟩
  · have h1 : matchAtoms mkdirDq (mkdirCommand kw ws (quoted dq p)) = some [p] := by
      unfold mkdirDq
      rw [mkdir_head kw ws hkw hwn hws _ isDq (quoted dq p)
        (head_cons_not isJsSpace dq (p ++ [dq]) (by decide)) space_not_dq]
      exact quoted_operand_match isDq notDq dq p (by decide) (notDq_of_not_mem p hq) (by decide)
        notDq_not_dq hne
    simp [firstMatch, mkdirPatterns, jsMatch, h1]
  · have h1 : matchAtoms mkdirDq (mkdirCommand kw ws (quoted sq p)) = none := by
      unfold mkdirDq
      rw [mkdir_head kw ws hkw hwn hws _ isDq (quoted sq p)
        (head_cons_not isJsSpace sq (p ++ [sq]) (by decide)) space_not_dq]
      exact one_fail_head isDq _ sq (p ++ [sq]) (by decide)
    have h2 : matchAtoms mkdirSq (mkdirCommand kw ws (quoted sq p)) = some [p] := by
      unfold mkdirSq
      rw [mkdir_head kw ws hkw hwn hws _ isSq (quoted sq p)
        (head_cons_not isJsSpace sq (p ++ [sq]) (by decide)) space_not_sq]
      exact quoted_operand_match isSq notSq sq p (by decide) (notSq_of_not_mem p hq) (by decide)
        notSq_not_sq hne
    simp [firstMatch, mkdirPatterns, jsMatch, h1, h2]
  · have hx := noSpace_head p hns
    have h1 : matchAtoms mkdirDq (mkdirCommand kw ws p) = none := by
      unfold mkdirDq
      rw [mkdir_head kw ws hkw hwn hws _ isDq p hx space_not_dq]
      cases hm : matchAtoms [Atom.one isDq, Atom.rep notDq 1 true true, Atom.one isDq] p with
      | none => rfl
      | some cs =>
        exact absurd (quoted_operand_sound isDq notDq dq p cs
          (fun c hc => by simpa [isDq] using hc) (fun c hc => by simpa [notDq] using hc) hm) hd
    have h2 : matchAtoms mkdirSq (mkdirCommand kw ws p) = none := by
      unfold mkdirSq
      rw [mkdir_head kw ws hkw hwn hws _ isSq p hx space_not_sq]
      cases hm : matchAtoms [Atom.one isSq, Atom.rep notSq 1 true true, Atom.one isSq] p with
      | none => rfl
      | some cs =>
        exact absurd (quoted_operand_sound isSq notSq sq p cs
          (fun c hc => by simpa [isSq] using hc) (fun c hc => by simpa [notSq] using hc) hm) hs
    have h3 : matchAtoms mkdirBare (mkdirCommand kw ws p) = some [p] := by
      unfold mkdirBare mkdirCommand
      rw [alts_word _ _ _ _ hkw]
      exact rep_greedy_run isJsSpace 1 false _ ws p [p] (allSpace_isJsSpace ws hws) hx
        (length_pos_of_ne_nil ws hwn)
        (rep_to_end notSpace 1 p (noSpace_notSpace p hns) (length_pos_of_ne_nil p hne))
    simp [firstMatch, mkdirPatterns, jsMatch, h1, h2, h3]

/-- C3 (amended): for each form of the `mkdir` directive (`mkdir "p"`, `mkdir 'p'`,
`mkdir p`; keyword in any letter case, any white space after it), with `trim(p)` for the
path: when the first call succeeds, a second call of the same command succeeds with
`Directory already exists: trim(p)` and leaves the world as the first call left it; and when
`trim(p)` did not exist before, the first call answers `Directory created: trim(p)`. -/
theorem mkdir_twice_is_idempotent (env : Env) (w : World) (kw ws command p r : Str)
    (hform : mkdirForm kw ws command p)
    (hok : (executeCommand env w command).result = Except.ok r) :
    (executeCommand env (executeCommand env w command).world command).result =
      Except.ok (js "stdout: Directory already exists: " ++ trim p ++ js "\nstderr:") ∧
    (executeCommand env (executeCommand env w command).world command).world =
      (executeCommand env w command).world ∧
    (existsSync w (trim p) = false →
      r = js "stdout: Directory created: " ++ trim p ++ js "\nstderr:") := by
  have hm := mkdir_form_match kw ws command p hform
  have e1 : executeCommand env w command = makeDirectory w (trim p) :=
    executeCommand_mkdir env w command [command, p] hm
  have e2 : executeCommand env (makeDirectory w (trim p)).world command =
      makeDirectory (makeDirectory w (trim p)).world (trim p) :=
    executeCommand_mkdir env (makeDirectory w (trim p)).world command [command, p] hm
  rw [e1] at hok
  rw [e1, e2]
  obtain ⟨he, hr⟩ := makeDirectory_ok w (trim p) r hok
  rw [makeDirectory_exists _ _ he]
  exact ⟨rfl, rfl, hr⟩

/-- Witness for C3: `mkdir "proj"` run twice from the empty world; the other two forms and
another spelling of the keyword are run once. -/
theorem mkdir_twice_is_idempotent_witness :
    (mkdirCommand (js "mkdir") [space] (quoted dq (js "proj")) = js "mkdir \"proj\"" ∧
     trim (js "proj") = js "proj" ∧
     (executeCommand (sampleEnv false) emptyWorld (js "mkdir \"proj\"")).result =
      Except.ok (js "stdout: Directory created: proj\nstderr:") ∧
     (executeCommand (sampleEnv false) emptyWorld (js "mkdir 'my proj'")).result =
      Except.ok (js "stdout: Directory created: my proj\nstderr:") ∧
     (executeCommand (sampleEnv false) emptyWorld (js "MkDir \t a/b")).result =
      Except.ok (js "stdout: Directory created: a/b\nstderr:")) ∧
    ((executeCommand (sampleEnv false)
        (executeCommand (sampleEnv false) emptyWorld (js "mkdir \"proj\"")).world
        (js "mkdir \"proj\"")).result =
      Except.ok (js "stdout: Directory already exists: " ++ trim (js "proj") ++ js "\nstderr:") ∧
    (executeCommand (sampleEnv false)
        (executeCommand (sampleEnv false) emptyWorld (js "mkdir \"proj\"")).world
        (js "mkdir \"proj\"")).world =
      (executeCommand (sampleEnv false) emptyWorld (js "mkdir \"proj\"")).world ∧
    (existsSync emptyWorld (trim (js "proj")) = false →
      js "stdout: Directory created: proj\nstderr:" =
        js "stdout: Directory created: " ++ trim (js "proj") ++ js "\nstderr:")) :=
  ⟨by decide,
    mkdir_twice_is_idempotent (sampleEnv false) emptyWorld (js "mkdir") [space]
      (js "mkdir \"proj\"") (js "proj") (js "stdout: Directory created: proj\nstderr:")
      ⟨by decide, by decide, by decide, Or.inl ⟨by decide, by decide, by decide⟩⟩ (by decide)⟩

/-- C3 as stated fails on two inputs.  The path ` a ` (with the spaces) is accepted by
`mkdir " a "` and does not exist in the empty world, yet the first call answers
`Directory created: a`, not `Directory created:  a `: the message carries the trimmed path.
And below the regular file `out.txt` the path `out.txt/x` does not exist, yet the first call
of `mkdir "out.txt/x"` fails, and so does the second. -/
theorem mkdir_message_carries_trimmed_path :
    firstMatch mkdirPatterns (js "mkdir \" a \"") = some [js "mkdir \" a \"", js " a "] ∧
    existsSync emptyWorld (js " a ") = false ∧
    (executeCommand (sampleEnv false) emptyWorld (js "mkdir \" a \"")).result =
      Except.ok (js "stdout: Directory created: a\nstderr:") ∧
    (executeCommand (sampleEnv false) emptyWorld (js "mkdir \" a \"")).result ≠
      Except.ok (js "stdout: Directory created:  a \nstderr:") ∧
    existsSync worldWithFile (js "out.txt/x") = false ∧
    (executeCommand (sampleEnv false) worldWithFile (js "mkdir \"out.txt/x\"")).result =
      Except.error
        (js "Failed to create directory: ENOTDIR: not a directory, mkdir 'out.txt/x'") ∧
    (executeCommand (sampleEnv false)
      (executeCommand (sampleEnv false) worldWithFile (js "mkdir \"out.txt/x\"")).world
      (js "mkdir \"out.txt/x\"")).result =
      Except.error
        (js "Failed to create directory: ENOTDIR: not a directory, mkdir 'out.txt/x'") := by
  decide

/-! ## The generic write forms -/

theorem dropWhile_run (p : Nat → Bool) (l rest : Str) (h : ∀ c ∈ l, p c = true) :
    (l ++ rest).dropWhile p = rest.dropWhile p := by
  induction l with
  | nil => rfl
  | cons x l ih =>
    rw [List.cons_append, List.dropWhile_cons, if_pos (h x (List.mem_cons_self _ _))]
    exact ih (fun c hc => h c (List.mem_cons_of_mem _ hc))

theorem dropWhile_all (p : Nat → Bool) (l : Str) (h : ∀ c ∈ l, p c = true) :
    l.dropWhile p = [] := by
  have := dropWhile_run p l [] h
  rw [List.append_nil] at this
  exact this

theorem dropWhile_stop (p : Nat → Bool) (s : Str) (h : ∀ c, s.head? = some c → p c = false) :
    s.dropWhile p = s := by
  cases s with
  | nil => rfl
  | cons x t =>
    rw [List.dropWhile_cons, if_neg]
    rw [h x rfl]
    decide

/-- The text without its leading and trailing white space is what `trim` returns. -/
theorem trimmed_unique (s t : Str) (h : Trimmed s t) : t = trim s := by
  obtain ⟨l, r, rfl, hl, hr, hhead, hlast⟩ := h
  unfold trim
  rw [dropWhile_run isJsSpace l _ (allSpace_isJsSpace l hl)]
  cases t with
  | nil =>
    rw [List.nil_append, dropWhile_all isJsSpace r (allSpace_isJsSpace r hr)]
    rfl
  | cons c t =>
    rw [dropWhile_stop isJsSpace ((c :: t) ++ r)
      (fun x hx => not_isJsSpace x (hhead x (by simpa using hx))),
      List.reverse_append,
      dropWhile_run isJsSpace r.reverse _
        (fun x hx => allSpace_isJsSpace r hr x (List.mem_reverse.1 hx)),
      dropWhile_stop isJsSpace (c :: t).reverse
        (fun x hx => not_isJsSpace x (hlast x (by rw [← List.head?_reverse]; exact hx))),
      List.reverse_reverse]

theorem dropTrailingQuote_keep (u : Str) (h : ∀ c, u.getLast? = some c → c ≠ dq ∧ c ≠ sq) :
    dropTrailingQuote u = u := by
  unfold dropTrailingQuote
  cases hl : u.getLast? with
  | none =>
    have : u = [] := by simpa using hl
    rw [this]
  | some q =>
    have hq : ¬ isQuote q = true := by
      rw [isQuote_iff, not_or]
      exact h q hl
    simp only [if_neg hq]

theorem dropTrailingQuote_drop (u : Str) (q : Nat) (hq : isQuote q = true) :
    dropTrailingQuote (u ++ [q]) = u := by
  unfold dropTrailingQuote
  rw [List.getLast?_append_of_ne_nil _ (by simp), List.getLast?_singleton]
  simp only [if_pos hq, List.dropLast_concat]

theorem quote_unit (r : Str) (h : r = [dq] ∨ r = [sq]) : ∃ q, r = [q] ∧ isQuote q = true := by
  rcases h with rfl | rfl
  · exact ⟨dq, rfl, by decide⟩
  · exact ⟨sq, rfl, by decide⟩

/-- The text without its outer quotes is what the replacement of the outer quotes
returns. -/
theorem outerQuotesRemoved_unique (s u : Str) (h : OuterQuotesRemoved s u) :
    u = stripOuterQuotes s := by
  obtain ⟨l, r, hs, hl, hr⟩ := h
  have hend : dropTrailingQuote (u ++ r) = u := by
    rcases hr with ⟨rfl, hlast⟩ | hr
    · rw [List.append_nil]; exact dropTrailingQuote_keep u hlast
    · obtain ⟨q, rfl, hq⟩ := quote_unit r hr
      exact dropTrailingQuote_drop u q hq
  rcases hl with ⟨rfl, hhead⟩ | hl
  · rw [List.nil_append] at hs
    cases s with
    | nil =>
      have : u = [] := by
        cases u with
        | nil => rfl
        | cons x u => cases hs
      rw [this]; rfl
    | cons c t =>
      have hc : ¬ isQuote c = true := by
        rw [isQuote_iff, not_or]; exact hhead c rfl
      rw [show stripOuterQuotes (c :: t) = c :: dropTrailingQuote t by
        simp [stripOuterQuotes, hc]]
      cases u with
      | nil =>
        rcases hr with ⟨rfl, _⟩ | hr
        · cases hs
        · obtain ⟨q, rfl, hq⟩ := quote_unit r hr
          simp only [List.nil_append, List.cons.injEq] at hs
          rw [hs.1] at hc
          exact absurd hq hc
      | cons x u =>
        simp only [List.cons_append, List.cons.injEq] at hs
        rw [hs.1, hs.2]
        rcases hr with ⟨rfl, hlast⟩ | hr
        · rw [List.append_nil]
          cases u with
          | nil => rfl
          | cons y v =>
            rw [dropTrailingQuote_keep (y :: v)
              (fun c hc => hlast c (by rw [List.getLast?_cons_cons]; exact hc))]
        · obtain ⟨q, rfl, hq⟩ := quote_unit r hr
          rw [dropTrailingQuote_drop u q hq]
  · obtain ⟨q, rfl, hq⟩ := quote_unit l hl
    rw [hs]
    rw [show stripOuterQuotes ([q] ++ (u ++ r)) = dropTrailingQuote (u ++ r) by
      simp [stripOuterQuotes, hq]]
    exact hend.symm

theorem space_not_surrogate (c : Nat) (h : c ∈ whiteSpaceUnits) : isSurrogate c = false := by
  revert c
  decide

theorem wellFormed_front (l s : Str) (hl : ∀ c ∈ l, isSurrogate c = false) :
    wellFormed (l ++ s) = wellFormed s := by
  induction l with
  | nil => rfl
  | cons x l ih =>
    rw [List.cons_append, wellFormed_cons x _ (hl x (List.mem_cons_self _ _))]
    exact ih (fun c hc => hl c (List.mem_cons_of_mem _ hc))

theorem wellFormed_back (s r : Str) (hr : ∀ c ∈ r, isSurrogate c = false)
    (h : wellFormed (s ++ r) = true) : wellFormed s = true := by
  cases r with
  | nil => rw [List.append_nil] at h; exact h
  | cons x r =>
    rw [wellFormed_split x r (hr x (List.mem_cons_self _ _)) s, Bool.and_eq_true] at h
    exact h.1

theorem trimmed_wellFormed (s t : Str) (h : Trimmed s t) (hs : wellFormed s = true) :
    wellFormed t = true := by
  obtain ⟨l, r, rfl, hl, hr, _, _⟩ := h
  rw [wellFormed_front l _ (fun c hc => space_not_surrogate c (hl c hc))] at hs
  exact wellFormed_back t r (fun c hc => space_not_surrogate c (hr c hc)) hs

theorem outerQuotesRemoved_wellFormed (s u : Str) (h : OuterQuotesRemoved s u)
    (hs : wellFormed s = true) : wellFormed u = true := by
  obtain ⟨l, r, rfl, hl, hr⟩ := h
  have hl1 : ∀ c ∈ l, isSurrogate c = false := by
    rcases hl with ⟨rfl, _⟩ | rfl | rfl <;> decide
  have hr1 : ∀ c ∈ r, isSurrogate c = false := by
    rcases hr with ⟨rfl, _⟩ | rfl | rfl <;> decide
  rw [wellFormed_front l _ hl1] at hs
  exact wellFormed_back u r hr1 hs

/-- C10 (amended): for a command matched by one of the six write patterns whose captured
content holds no lone surrogate, when `executeCommand` succeeds and the path names no
device, the file at the captured path without its surrounding white space holds the captured
content without its leading and trailing white space, then without a quote character in
first position and without a quote character in last position (each on its own), then with
`\n`, `\"`, `\'`, `\t` decoded in that order; the capture determines that text, the file
is a regular file whatever the path held before, and the result names the path. -/
theorem generic_write_stores_processed_content (env : Env) (w : World) (command : Str)
    (m : List Str) (r : Str) (hm : firstMatch fileCreationPatterns command = some m)
    (hwf : wellFormed (grp m 1) = true)
    (hok : (executeCommand env w command).result = Except.ok r)
    (hdev : ∀ p, Trimmed (grp m 2) p → deviceAt (executeCommand env w command).world p = false) :
    ∃ path t u content, Trimmed (grp m 2) path ∧ Trimmed (grp m 1) t ∧
      OuterQuotesRemoved t u ∧ Decoded u content ∧
      (∀ p, Trimmed (grp m 2) p → p = path) ∧
      (∀ t1 u1 c1, Trimmed (grp m 1) t1 → OuterQuotesRemoved t1 u1 → Decoded u1 c1 →
        c1 = content) ∧
      (∃ q, resolve (executeCommand env w command).world path = some q ∧
        (executeCommand env w command).world.lookup q = some (Node.file content)) ∧
      readFileSync (executeCommand env w command).world path = some content ∧
      r = js "stdout: File created successfully: " ++ path ++ js "\nstderr:" := by
  have hp := trim_trimmed (grp m 2)
  have ht := trim_trimmed (grp m 1)
  have hu := stripOuterQuotes_removed (trim (grp m 1))
  have hc := decodeEscapes_decoded (stripOuterQuotes (trim (grp m 1)))
  have hdev1 := hdev _ hp
  rw [executeCommand_write env w command m hm] at hok hdev1 ⊢
  obtain ⟨⟨w1, _, hw⟩, hr⟩ := createFile_ok w _ _ r hok
  have hkeep := toWellFormed_of_wellFormed _
    (decoded_wellFormed _ _ hc (outerQuotesRemoved_wellFormed _ _ hu
      (trimmed_wellFormed _ _ ht hwf)))
  obtain ⟨hfile, hread⟩ := readFileSync_writeFileSync w1 _ _ _ hw hdev1
  rw [hkeep] at hfile hread
  refine ⟨_, _, _, _, hp, ht, hu, hc, fun p h => trimmed_unique _ p h, ?_, hfile, hread, hr⟩
  intro t1 u1 c1 h1 h2 h3
  rw [decoded_unique u1 c1 h3, outerQuotesRemoved_unique t1 u1 h2, trimmed_unique _ t1 h1]

/-- Witness for C10: `echo "'a\nb'" > out.txt` over an existing `out.txt` that held `old`
leaves it holding `a`, a line feed, `b`. -/
theorem generic_write_stores_processed_content_witness :
    (readFileSync worldWithFile (js "out.txt") = some (js "old") ∧
     firstMatch fileCreationPatterns (js "echo \"'a\\nb'\" > out.txt") =
      some [js "echo \"'a\\nb'\" > out.txt", js "'a\\nb'", js "out.txt"] ∧
     readFileSync (executeCommand (sampleEnv false) worldWithFile
        (js "echo \"'a\\nb'\" > out.txt")).world (js "out.txt") = some (js "a\nb")) ∧
    ∃ path t u content,
      Trimmed (grp [js "echo \"'a\\nb'\" > out.txt", js "'a\\nb'", js "out.txt"] 2) path ∧
      Trimmed (grp [js "echo \"'a\\nb'\" > out.txt", js "'a\\nb'", js "out.txt"] 1) t ∧
      OuterQuotesRemoved t u ∧ Decoded u content ∧
      (∀ p, Trimmed (grp [js "echo \"'a\\nb'\" > out.txt", js "'a\\nb'", js "out.txt"] 2) p →
        p = path) ∧
      (∀ t1 u1 c1,
        Trimmed (grp [js "echo \"'a\\nb'\" > out.txt", js "'a\\nb'", js "out.txt"] 1) t1 →
        OuterQuotesRemoved t1 u1 → Decoded u1 c1 → c1 = content) ∧
      (∃ q, resolve (executeCommand (sampleEnv false) worldWithFile
          (js "echo \"'a\\nb'\" > out.txt")).world path = some q ∧
        (executeCommand (sampleEnv false) worldWithFile
          (js "echo \"'a\\nb'\" > out.txt")).world.lookup q = some (Node.file content)) ∧
      readFileSync (executeCommand (sampleEnv false) worldWithFile
        (js "echo \"'a\\nb'\" > out.txt")).world path = some content ∧
      js "stdout: File created successfully: out.txt\nstderr:" =
        js "stdout: File created successfully: " ++ path ++ js "\nstderr:" :=
  ⟨by decide,
    generic_write_stores_processed_content (sampleEnv false) worldWithFile
      (js "echo \"'a\\nb'\" > out.txt")
      [js "echo \"'a\\nb'\" > out.txt", js "'a\\nb'", js "out.txt"]
      (js "stdout: File created successfully: out.txt\nstderr:") (by decide) (by decide)
      (by decide) (fun p h => by rw [trimmed_unique _ p h]; decide)⟩

/-- C10 as stated fails.  The white space inside the quotes of `echo " hi " > f` is not
written (the file holds `hi`), and the quote without partner of `echo "abc > f` is not
written either (the file holds `abc`).  A content made of the lone surrogate U+D800 is
written as U+FFFD.  On the device `/dev/null` the command succeeds and the path reads back
empty; and below the regular file `out.txt` the command fails and nothing is written. -/
theorem generic_write_trims_and_strips_lone_quote :
    firstMatch fileCreationPatterns (js "echo \" hi \" > f") =
      some [js "echo \" hi \" > f", js " hi ", js "f"] ∧
    readFileSync (executeCommand (sampleEnv false) emptyWorld (js "echo \" hi \" > f")).world
      (js "f") = some (js "hi") ∧
    firstMatch fileCreationPatterns (js "echo \"abc > f") =
      some [js "echo \"abc > f", js "\"abc", js "f"] ∧
    readFileSync (executeCommand (sampleEnv false) emptyWorld (js "echo \"abc > f")).world
      (js "f") = some (js "abc") ∧
    firstMatch fileCreationPatterns (js "echo " ++ ([0xD800] ++ js " > f")) =
      some [js "echo " ++ ([0xD800] ++ js " > f"), [0xD800], js "f"] ∧
    readFileSync (executeCommand (sampleEnv false) emptyWorld
      (js "echo " ++ ([0xD800] ++ js " > f"))).world (js "f") = some [0xFFFD] ∧
    (executeCommand (sampleEnv false) worldWithNull (js "echo hi > /dev/null")).result =
      Except.ok (js "stdout: File created successfully: /dev/null\nstderr:") ∧
    readFileSync (executeCommand (sampleEnv false) worldWithNull
      (js "echo hi > /dev/null")).world (js "/dev/null") = some [] ∧
    firstMatch fileCreationPatterns (js "echo hi > out.txt/x") =
      some [js "echo hi > out.txt/x", js "hi", js "out.txt/x"] ∧
    (executeCommand (sampleEnv false) worldWithFile (js "echo hi > out.txt/x")).result =
      Except.error
        (js "Failed to create file: ENOTDIR: not a directory, open 'out.txt/x'") ∧
    readFileSync (executeCommand (sampleEnv false) worldWithFile
      (js "echo hi > out.txt/x")).world (js "out.txt/x") = none := by
  decide

/-! ## The order of the write patterns -/

/-- The loop over a list of patterns returns the match of the first pattern that matches,
and nothing else. -/
theorem firstMatch_iff (res : List (List Atom)) (s : Str) (m : List Str) :
    firstMatch res s = some m ↔
      ∃ pre re post, res = pre ++ re :: post ∧ (∀ x ∈ pre, jsMatch x s = none) ∧
        jsMatch re s = some m := by
  constructor
  · intro h
    induction res with
    | nil => cases h
    | cons r res ih =>
      cases hr : jsMatch r s with
      | some m1 =>
        simp only [firstMatch, hr, Option.some.injEq] at h
        subst h
        exact ⟨[], r, res, rfl, fun x hx => (by cases hx), hr⟩
      | none =>
        simp only [firstMatch, hr] at h
        obtain ⟨pre, re, post, e, hpre, hre⟩ := ih h
        refine ⟨r :: pre, re, post, by rw [e]; rfl, ?_, hre⟩
        intro x hx
        rcases List.mem_cons.1 hx with rfl | hx
        · exact hr
        · exact hpre x hx
  · rintro ⟨pre, re, post, rfl, hpre, hre⟩
    exact firstMatch_split pre post re s m hpre hre

theorem dq_kind : quoteKind isDq notDq dq :=
  ⟨fun c => by simp [isDq], fun c => by simp [notDq], by decide⟩

theorem sq_kind : quoteKind isSq notSq sq :=
  ⟨fun c => by simp [isSq], fun c => by simp [notSq], by decide⟩

theorem quoteKind_space (isQ notQ : Nat → Bool) (q : Nat) (hk : quoteKind isQ notQ q) :
    ∀ c, isJsSpace c = true → isQ c = false := by
  intro c hc
  cases hq : isQ c with
  | false => rfl
  | true =>
    rw [(hk.1 c).1 hq, hk.2.2] at hc
    cases hc

theorem quoteKind_disjoint (isQ notQ : Nat → Bool) (q : Nat) (hk : quoteKind isQ notQ q) :
    ∀ c, notQ c = true → isQ c = false := by
  intro c hc
  cases hq : isQ c with
  | false => rfl
  | true => exact absurd ((hk.1 c).1 hq) ((hk.2.1 c).1 hc)

theorem quoteKind_run (isQ notQ : Nat → Bool) (q : Nat) (hk : quoteKind isQ notQ q) (s : Str)
    (h : q ∉ s) : ∀ c ∈ s, notQ c = true := by
  intro c hc
  rw [hk.2.1 c]
  intro e
  rw [e] at hc
  exact h hc

theorem quoteKind_stop (isQ notQ : Nat → Bool) (q : Nat) (hk : quoteKind isQ notQ q) :
    notQ q = false := by
  cases h : notQ q with
  | false => rfl
  | true => exact absurd rfl ((hk.2.1 q).1 h)

/-- A repetition without capture in front of one character outside its class. -/
theorem rep_then_one_skip (p q : Nat → Bool) (min : Nat) (greedy : Bool) (rest : List Atom)
    (xs ys : Str) (hxs : ∀ c ∈ xs, p c = true) (hys : ∀ c, ys.head? = some c → p c = false)
    (hpq : ∀ c, p c = true → q c = false) (hmin : min ≤ xs.length) :
    matchAtoms (Atom.rep p min greedy false :: Atom.one q :: rest) (xs ++ ys) =
      matchAtoms (Atom.one q :: rest) ys := by
  rw [rep_then_one p q min greedy false rest xs ys hxs hys hpq hmin]
  cases matchAtoms (Atom.one q :: rest) ys <;> rfl

/-- A capturing repetition in front of one character outside its class. -/
theorem rep_then_one_keep (p q : Nat → Bool) (min : Nat) (greedy : Bool) (rest : List Atom)
    (xs ys : Str) (hxs : ∀ c ∈ xs, p c = true) (hys : ∀ c, ys.head? = some c → p c = false)
    (hpq : ∀ c, p c = true → q c = false) (hmin : min ≤ xs.length) :
    matchAtoms (Atom.rep p min greedy true :: Atom.one q :: rest) (xs ++ ys) =
      (matchAtoms (Atom.one q :: rest) ys).map (fun cs => xs :: cs) := by
  rw [rep_then_one p q min greedy true rest xs ys hxs hys hpq hmin]
  cases matchAtoms (Atom.one q :: rest) ys <;> rfl

/-- The head `(?:echo|cat)\s+` in front of an operand that begins with no white space, when
the pattern goes on with one character. -/
theorem write_head (kw ws1 : Str) (hkw : sameWord (js "echo") kw ∨ sameWord (js "cat") kw)
    (h1 : ws1 ≠ []) (hs1 : allSpace ws1) (q : Nat → Bool) (rest : List Atom) (x : Str)
    (hx : ∀ c, x.head? = some c → isJsSpace c = false)
    (hq : ∀ c, isJsSpace c = true → q c = false) :
    matchAtoms (Atom.alts [js "echo", js "cat"] :: Atom.rep isJsSpace 1 true false ::
      Atom.one q :: rest) (kw ++ (ws1 ++ x)) = matchAtoms (Atom.one q :: rest) x := by
  rw [alts_echo kw _ _ hkw]
  exact rep_then_one_skip isJsSpace q 1 true _ ws1 x (allSpace_isJsSpace ws1 hs1) hx hq
    (length_pos_of_ne_nil ws1 h1)

/-- A pattern for a content in quotes `q` fails on a command whose content begins with
another character. -/
theorem write_head_fail (kw ws1 : Str)
    (hkw : sameWord (js "echo") kw ∨ sameWord (js "cat") kw)
    (h1 : ws1 ≠ []) (hs1 : allSpace ws1) (q : Nat → Bool) (rest : List Atom) (x : Str)
    (hx : ∀ c, x.head? = some c → isJsSpace c = false ∧ q c = false)
    (hq : ∀ c, isJsSpace c = true → q c = false) :
    matchAtoms (Atom.alts [js "echo", js "cat"] :: Atom.rep isJsSpace 1 true false ::
      Atom.one q :: rest) (kw ++ (ws1 ++ x)) = none := by
  rw [write_head kw ws1 hkw h1 hs1 q rest x (fun c hc => (hx c hc).1) hq]
  exact one_fail q rest x (fun c hc => (hx c hc).2)

/-- The part `q([^q]*?)q\s*>` of a pattern on a content in quotes `q`: the content is
captured without its quotes and the rest of the pattern goes on after `>`. -/
theorem write_quoted_content (isQ notQ : Nat → Bool) (q : Nat) (hk : quoteKind isQ notQ q)
    (kw ws1 c ws2 y : Str) (hkw : sameWord (js "echo") kw ∨ sameWord (js "cat") kw)
    (h1 : ws1 ≠ []) (hs1 : allSpace ws1) (hs2 : allSpace ws2) (hc : q ∉ c) (rest : List Atom) :
    matchAtoms (Atom.alts [js "echo", js "cat"] :: Atom.rep isJsSpace 1 true false ::
      Atom.one isQ :: Atom.rep notQ 0 false true :: Atom.one isQ ::
      Atom.rep isJsSpace 0 true false :: Atom.one isGt :: rest)
      (kw ++ (ws1 ++ (quoted q c ++ (ws2 ++ (gt :: y))))) =
      (matchAtoms rest y).map (fun cs => c :: cs) := by
  have hq : isQ q = true := (hk.1 q).2 rfl
  have e : quoted q c ++ (ws2 ++ (gt :: y)) = q :: (c ++ (q :: (ws2 ++ (gt :: y)))) := by
    simp [quoted]
  rw [e, write_head kw ws1 hkw h1 hs1 isQ _ _ (head_cons_not isJsSpace q _ hk.2.2)
      (quoteKind_space isQ notQ q hk),
    one_cons _ _ _ _ hq,
    rep_then_one_keep notQ isQ 0 false _ c _ (quoteKind_run isQ notQ q hk c hc)
      (head_cons_not notQ q _ (quoteKind_stop isQ notQ q hk))
      (quoteKind_disjoint isQ notQ q hk) (Nat.zero_le _),
    one_cons _ _ _ _ hq,
    rep_then_one_skip isJsSpace isGt 0 true _ ws2 _ (allSpace_isJsSpace ws2 hs2)
      (head_cons_not isJsSpace gt _ (by decide)) space_not_gt (Nat.zero_le _),
    one_cons _ _ _ _ (by decide)]

/-- The part `\s*q([^q]+)q$` of a pattern on a destination in quotes `q`. -/
theorem write_quoted_path (isQ notQ : Nat → Bool) (q : Nat) (hk : quoteKind isQ notQ q)
    (ws3 p : Str) (hs3 : allSpace ws3) (hne : p ≠ []) (hp : q ∉ p) :
    matchAtoms [Atom.rep isJsSpace 0 true false, Atom.one isQ, Atom.rep notQ 1 true true,
      Atom.one isQ] (ws3 ++ quoted q p) = some [p] := by
  rw [rep_then_one_skip isJsSpace isQ 0 true _ ws3 (quoted q p) (allSpace_isJsSpace ws3 hs3)
    (head_cons_not isJsSpace q (p ++ [q]) hk.2.2) (quoteKind_space isQ notQ q hk)
    (Nat.zero_le _)]
  exact quoted_operand_match isQ notQ q p ((hk.1 q).2 rfl) (quoteKind_run isQ notQ q hk p hp)
    (quoteKind_stop isQ notQ q hk) (quoteKind_disjoint isQ notQ q hk) hne

/-- The part `\s*q([^q]+)q$` of a pattern fails on a destination that begins with another
character. -/
theorem write_quoted_path_fail (isQ notQ : Nat → Bool) (q : Nat) (hk : quoteKind isQ notQ q)
    (ws3 p : Str) (hs3 : allSpace ws3) (hns : noSpace p)
    (hp : ∀ c, p.head? = some c → c ≠ q) :
    matchAtoms [Atom.rep isJsSpace 0 true false, Atom.one isQ, Atom.rep notQ 1 true true,
      Atom.one isQ] (ws3 ++ p) = none := by
  rw [rep_then_one_skip isJsSpace isQ 0 true _ ws3 _ (allSpace_isJsSpace ws3 hs3)
    (noSpace_head p hns) (quoteKind_space isQ notQ q hk) (Nat.zero_le _)]
  apply one_fail
  intro c hc
  cases h : isQ c with
  | false => rfl
  | true => exact absurd ((hk.1 c).1 h) (hp c hc)

/-- The part `\s*([^\s]+)$` of a pattern on a destination written bare. -/
theorem write_bare_path (ws3 p : Str) (hs3 : allSpace ws3) (hne : p ≠ []) (hns : noSpace p) :
    matchAtoms [Atom.rep isJsSpace 0 true false, Atom.rep notSpace 1 true true] (ws3 ++ p) =
      some [p] :=
  rep_greedy_run isJsSpace 0 false _ ws3 p [p] (allSpace_isJsSpace ws3 hs3) (noSpace_head p hns)
    (Nat.zero_le _) (rep_to_end notSpace 1 p (noSpace_notSpace p hns) (length_pos_of_ne_nil p hne))

/-- No `\s*>` inside a content without `>` that does not end with white space. -/
theorem no_redirect_inside (c t : Str) (rest : List Atom) (i : Nat) (hi : i < c.length)
    (hgt : gt ∉ c) (hlast : ∀ x, c.getLast? = some x → x ∉ whiteSpaceUnits) :
    matchAtoms (Atom.rep isJsSpace 0 true false :: Atom.one isGt :: rest) ((c ++ t).drop i) =
      none := by
  cases hm : matchAtoms (Atom.rep isJsSpace 0 true false :: Atom.one isGt :: rest)
      ((c ++ t).drop i) with
  | none => rfl
  | some r =>
    exfalso
    obtain ⟨sp, ys, cs, hsplit, hsp, _, hrest, _⟩ := rep_sound _ _ _ _ _ _ _ hm
    obtain ⟨g, u, hys, hg, _⟩ := one_sound _ _ _ _ hrest
    have hg1 : g = gt := by simpa [isGt] using hg
    rw [List.drop_append_of_le_length (Nat.le_of_lt hi), hys, hg1] at hsplit
    have hne : c.drop i ≠ [] := by
      intro e
      have := congrArg List.length e
      simp at this
      omega
    have hl : (c.drop i).getLast? = c.getLast? := by
      conv_rhs => rw [← List.take_append_drop i c]
      rw [List.getLast?_append_of_ne_nil _ hne]
    have hmem : ∀ x ∈ c.drop i, x ∈ c := fun x hx => List.mem_of_mem_drop hx
    rcases List.append_eq_append_iff.1 hsplit with ⟨a, e1, _⟩ | ⟨b, e1, e2⟩
    · obtain ⟨x, hx⟩ : ∃ x, (c.drop i).getLast? = some x := by
        cases h : (c.drop i).getLast? with
        | none => exact absurd (List.getLast?_eq_none_iff.1 h) hne
        | some x => exact ⟨x, rfl⟩
      have hxs : x ∈ sp := by
        rw [e1]
        exact List.mem_append_left _ (List.mem_of_getLast?_eq_some hx)
      exact hlast x (by rw [← hl]; exact hx) ((isJsSpace_iff x).1 (hsp x hxs))
    · cases b with
      | nil =>
        rw [List.append_nil] at e1
        obtain ⟨x, hx⟩ : ∃ x, (c.drop i).getLast? = some x := by
          cases h : (c.drop i).getLast? with
          | none => exact absurd (List.getLast?_eq_none_iff.1 h) hne
          | some x => exact ⟨x, rfl⟩
        have hxs : x ∈ sp := by
          rw [← e1]
          exact List.mem_of_getLast?_eq_some hx
        exact hlast x (by rw [← hl]; exact hx) ((isJsSpace_iff x).1 (hsp x hxs))
      | cons y b =>
        simp only [List.cons_append, List.cons.injEq] at e2
        apply hgt
        apply hmem
        rw [e1, ← e2.1]
        exact List.mem_append_right _ (List.mem_cons_self _ _)

/-- A pattern for a content and a destination in quotes `q` on a command of that form. -/
theorem write_both_quoted (isQ notQ : Nat → Bool) (q : Nat) (hk : quoteKind isQ notQ q)
    (kw ws1 c ws2 ws3 p : Str) (hkw : sameWord (js "echo") kw ∨ sameWord (js "cat") kw)
    (h1 : ws1 ≠ []) (hs1 : allSpace ws1) (hs2 : allSpace ws2) (hs3 : allSpace ws3)
    (hc : q ∉ c) (hne : p ≠ []) (hp : q ∉ p) :
    matchAtoms [Atom.alts [js "echo", js "cat"], Atom.rep isJsSpace 1 true false,
      Atom.one isQ, Atom.rep notQ 0 false true, Atom.one isQ,
      Atom.rep isJsSpace 0 true false, Atom.one isGt, Atom.rep isJsSpace 0 true false,
      Atom.one isQ, Atom.rep notQ 1 true true, Atom.one isQ]
      (writeCommand kw ws1 (quoted q c) ws2 ws3 (quoted q p)) = some [c, p] := by
  unfold writeCommand
  rw [write_quoted_content isQ notQ q hk kw ws1 c ws2 _ hkw h1 hs1 hs2 hc,
    write_quoted_path isQ notQ q hk ws3 p hs3 hne hp]
  rfl

/-- A pattern for a content and a destination in quotes `q` fails on a destination written
bare that does not begin with `q`. -/
theorem write_both_quoted_fail (isQ notQ : Nat → Bool) (q : Nat) (hk : quoteKind isQ notQ q)
    (kw ws1 c ws2 ws3 p : Str) (hkw : sameWord (js "echo") kw ∨ sameWord (js "cat") kw)
    (h1 : ws1 ≠ []) (hs1 : allSpace ws1) (hs2 : allSpace ws2) (hs3 : allSpace ws3)
    (hc : q ∉ c) (hns : noSpace p) (hp : ∀ x, p.head? = some x → x ≠ q) :
    matchAtoms [Atom.alts [js "echo", js "cat"], Atom.rep isJsSpace 1 true false,
      Atom.one isQ, Atom.rep notQ 0 false true, Atom.one isQ,
      Atom.rep isJsSpace 0 true false, Atom.one isGt, Atom.rep isJsSpace 0 true false,
      Atom.one isQ, Atom.rep notQ 1 true true, Atom.one isQ]
      (writeCommand kw ws1 (quoted q c) ws2 ws3 p) = none := by
  unfold writeCommand
  rw [write_quoted_content isQ notQ q hk kw ws1 c ws2 _ hkw h1 hs1 hs2 hc,
    write_quoted_path_fail isQ notQ q hk ws3 p hs3 hns hp]
  rfl

/-- A pattern for a content in quotes `q` and a bare destination on a command of that
form. -/
theorem write_quoted_bare (isQ notQ : Nat → Bool) (q : Nat) (hk : quoteKind isQ notQ q)
    (kw ws1 c ws2 ws3 p : Str) (hkw : sameWord (js "echo") kw ∨ sameWord (js "cat") kw)
    (h1 : ws1 ≠ []) (hs1 : allSpace ws1) (hs2 : allSpace ws2) (hs3 : allSpace ws3)
    (hc : q ∉ c) (hne : p ≠ []) (hns : noSpace p) :
    matchAtoms [Atom.alts [js "echo", js "cat"], Atom.rep isJsSpace 1 true false,
      Atom.one isQ, Atom.rep notQ 0 false true, Atom.one isQ,
      Atom.rep isJsSpace 0 true false, Atom.one isGt, Atom.rep isJsSpace 0 true false,
      Atom.rep notSpace 1 true true]
      (writeCommand kw ws1 (quoted q c) ws2 ws3 p) = some [c, p] := by
  unfold writeCommand
  rw [write_quoted_content isQ notQ q hk kw ws1 c ws2 _ hkw h1 hs1 hs2 hc,
    write_bare_path ws3 p hs3 hne hns]
  rfl

/-- A pattern for a content in quotes fails on a command whose content begins with a
character that is neither white space nor that quote. -/
theorem write_content_fail (isQ : Nat → Bool) (hsp : ∀ c, isJsSpace c = true → isQ c = false)
    (kw ws1 ws2 ws3 p : Str) (a : Nat) (t : Str) (rest : List Atom)
    (hkw : sameWord (js "echo") kw ∨ sameWord (js "cat") kw)
    (h1 : ws1 ≠ []) (hs1 : allSpace ws1) (ha : isJsSpace a = false) (hq : isQ a = false) :
    matchAtoms (Atom.alts [js "echo", js "cat"] :: Atom.rep isJsSpace 1 true false ::
      Atom.one isQ :: rest) (writeCommand kw ws1 (a :: t) ws2 ws3 p) = none := by
  unfold writeCommand
  apply write_head_fail kw ws1 hkw h1 hs1 isQ rest _ _ hsp
  intro c hc
  simp only [List.cons_append, List.head?_cons, Option.some.injEq] at hc
  rw [← hc]
  exact ⟨ha, hq⟩

/-- The pattern for a bare content and a destination in double quotes on a command of that
form: the lazy content stops at the last character before the white space and `>`. -/
theorem write_bare_quoted (kw ws1 c ws2 ws3 p : Str)
    (hkw : sameWord (js "echo") kw ∨ sameWord (js "cat") kw)
    (h1 : ws1 ≠ []) (hs1 : allSpace ws1) (hs2 : allSpace ws2) (hs3 : allSpace ws3)
    (hc : bareContent c) (hne : p ≠ []) (hp : dq ∉ p) :
    matchAtoms writeBareDq (writeCommand kw ws1 c ws2 ws3 (quoted dq p)) = some [c, p] := by
  obtain ⟨hcne, hgt, hhead, hlast⟩ := hc
  have e : writeBareDq = [Atom.alts [js "echo", js "cat"], Atom.rep isJsSpace 1 true false,
      Atom.rep notGt 1 false true, Atom.rep isJsSpace 0 true false, Atom.one isGt,
      Atom.rep isJsSpace 0 true false, Atom.one isDq, Atom.rep notDq 1 true true,
      Atom.one isDq] := rfl
  have hrun : ∀ x ∈ c, notGt x = true := by
    intro x hx
    simp only [notGt, bne_iff_ne, ne_eq]
    intro e1
    rw [e1] at hx
    exact hgt hx
  have htail : matchAtoms [Atom.rep isJsSpace 0 true false, Atom.one isGt,
      Atom.rep isJsSpace 0 true false, Atom.one isDq, Atom.rep notDq 1 true true,
      Atom.one isDq] (ws2 ++ (gt :: (ws3 ++ quoted dq p))) = some [p] := by
    rw [rep_then_one_skip isJsSpace isGt 0 true _ ws2 _ (allSpace_isJsSpace ws2 hs2)
        (head_cons_not isJsSpace gt _ (by decide)) space_not_gt (Nat.zero_le _),
      one_cons _ _ _ _ (by decide)]
    exact write_quoted_path isDq notDq dq dq_kind ws3 p hs3 hne hp
  have hcontent := rep_lazy_run notGt 1 true _ c (ws2 ++ (gt :: (ws3 ++ quoted dq p))) [p]
    hrun (length_pos_of_ne_nil c hcne) htail
    (fun i hi => no_redirect_inside c _ _ i hi hgt hlast)
  unfold writeCommand
  rw [e, alts_echo kw _ _ hkw]
  exact rep_greedy_run isJsSpace 1 false _ ws1 _ _ (allSpace_isJsSpace ws1 hs1)
    (fun x hx => not_isJsSpace x ((hhead x (by
      rw [List.head?_append_of_ne_nil _ hcne] at hx; exact hx)).1))
    (length_pos_of_ne_nil ws1 h1) hcontent

/-- Each of the five quoted forms of the write directive is matched with the content and
the destination, taken without their quotes, as its captures. -/
theorem write_form_match (kw ws1 ws2 ws3 command c p : Str)
    (h : writeForm kw ws1 ws2 ws3 command c p) :
    firstMatch fileCreationPatterns command = some [command, c, p] := by
  obtain ⟨hkw, h1, hs1, hs2, hs3, h⟩ := h
  have eDD : writeDqDq = [Atom.alts [js "echo", js "cat"], Atom.rep isJsSpace 1 true false,
      Atom.one isDq, Atom.rep notDq 0 false true, Atom.one isDq,
      Atom.rep isJsSpace 0 true false, Atom.one isGt, Atom.rep isJsSpace 0 true false,
      Atom.one isDq, Atom.rep notDq 1 true true, Atom.one isDq] := rfl
  have eSS : writeSqSq = [Atom.alts [js "echo", js "cat"], Atom.rep isJsSpace 1 true false,
      Atom.one isSq, Atom.rep notSq 0 false true, Atom.one isSq,
      Atom.rep isJsSpace 0 true false, Atom.one isGt, Atom.rep isJsSpace 0 true false,
      Atom.one isSq, Atom.rep notSq 1 true true, Atom.one isSq] := rfl
  have eDB : writeDqBare = [Atom.alts [js "echo", js "cat"], Atom.rep isJsSpace 1 true false,
      Atom.one isDq, Atom.rep notDq 0 false true, Atom.one isDq,
      Atom.rep isJsSpace 0 true false, Atom.one isGt, Atom.rep isJsSpace 0 true false,
      Atom.rep notSpace 1 true true] := rfl
  have eSB : writeSqBare = [Atom.alts [js "echo", js "cat"], Atom.rep isJsSpace 1 true false,
      Atom.one isSq, Atom.rep notSq 0 false true, Atom.one isSq,
      Atom.rep isJsSpace 0 true false, Atom.one isGt, Atom.rep isJsSpace 0 true false,
      Atom.rep notSpace 1 true true] := rfl
  rcases h with ⟨rfl, hc, hne, hp⟩ | ⟨rfl, hc, hne, hp⟩ | ⟨rfl, hc, hne, hns, hh⟩ |
    ⟨rfl, hc, hne, hns, hh⟩ | ⟨rfl, hc, hne, hp⟩
  · have m1 := write_both_quoted isDq notDq dq dq_kind kw ws1 c ws2 ws3 p hkw h1 hs1 hs2 hs3
      hc hne hp
    rw [← eDD] at m1
    simp [firstMatch, fileCreationPatterns, jsMatch, m1]
  · have f1 : matchAtoms writeDqDq (writeCommand kw ws1 (quoted sq c) ws2 ws3 (quoted sq p)) =
        none := by
      rw [eDD]
      exact write_content_fail isDq space_not_dq kw ws1 ws2 ws3 _ sq (c ++ [sq]) _ hkw h1 hs1
        (by decide) (by decide)
    have m2 := write_both_quoted isSq notSq sq sq_kind kw ws1 c ws2 ws3 p hkw h1 hs1 hs2 hs3
      hc hne hp
    rw [← eSS] at m2
    simp [firstMatch, fileCreationPatterns, jsMatch, f1, m2]
  · have f1 := write_both_quoted_fail isDq notDq dq dq_kind kw ws1 c ws2 ws3 p hkw h1 hs1 hs2
      hs3 hc hns (fun x hx => (hh x hx).1)
    rw [← eDD] at f1
    have f2 : matchAtoms writeSqSq (writeCommand kw ws1 (quoted dq c) ws2 ws3 p) = none := by
      rw [eSS]
      exact write_content_fail isSq space_not_sq kw ws1 ws2 ws3 _ dq (c ++ [dq]) _ hkw h1 hs1
        (by decide) (by decide)
    have m3 := write_quoted_bare isDq notDq dq dq_kind kw ws1 c ws2 ws3 p hkw h1 hs1 hs2 hs3
      hc hne hns
    rw [← eDB] at m3
    simp [firstMatch, fileCreationPatterns, jsMatch, f1, f2, m3]
  · have f1 : matchAtoms writeDqDq (writeCommand kw ws1 (quoted sq c) ws2 ws3 p) = none := by
      rw [eDD]
      exact write_content_fail isDq space_not_dq kw ws1 ws2 ws3 _ sq (c ++ [sq]) _ hkw h1 hs1
        (by decide) (by decide)
    have f2 := write_both_quoted_fail isSq notSq sq sq_kind kw ws1 c ws2 ws3 p hkw h1 hs1 hs2
      hs3 hc hns (fun x hx => (hh x hx).2)
    rw [← eSS] at f2
    have f3 : matchAtoms writeDqBare (writeCommand kw ws1 (quoted sq c) ws2 ws3 p) = none := by
      rw [eDB]
      exact write_content_fail isDq space_not_dq kw ws1 ws2 ws3 _ sq (c ++ [sq]) _ hkw h1 hs1
        (by decide) (by decide)
    have m4 := write_quoted_bare isSq notSq sq sq_kind kw ws1 c ws2 ws3 p hkw h1 hs1 hs2 hs3
      hc hne hns
    rw [← eSB] at m4
    simp [firstMatch, fileCreationPatterns, jsMatch, f1, f2, f3, m4]
  · obtain ⟨a, t, rfl⟩ : ∃ a t, c = a :: t := by
      cases c with
      | nil => exact absurd rfl hc.1
      | cons a t => exact ⟨a, t, rfl⟩
    obtain ⟨ha, hd, hs⟩ := hc.2.2.1 a rfl
    have hsp : isJsSpace a = false := not_isJsSpace a ha
    have hnd : isDq a = false := by simpa [isDq] using hd
    have hnq : isSq a = false := by simpa [isSq] using hs
    have f1 : matchAtoms writeDqDq (writeCommand kw ws1 (a :: t) ws2 ws3 (quoted dq p)) =
        none := by
      rw [eDD]
      exact write_content_fail isDq space_not_dq kw ws1 ws2 ws3 _ a t _ hkw h1 hs1 hsp hnd
    have f2 : matchAtoms writeSqSq (writeCommand kw ws1 (a :: t) ws2 ws3 (quoted dq p)) =
        none := by
      rw [eSS]
      exact write_content_fail isSq space_not_sq kw ws1 ws2 ws3 _ a t _ hkw h1 hs1 hsp hnq
    have f3 : matchAtoms writeDqBare (writeCommand kw ws1 (a :: t) ws2 ws3 (quoted dq p)) =
        none := by
      rw [eDB]
      exact write_content_fail isDq space_not_dq kw ws1 ws2 ws3 _ a t _ hkw h1 hs1 hsp hnd
    have f4 : matchAtoms writeSqBare (writeCommand kw ws1 (a :: t) ws2 ws3 (quoted dq p)) =
        none := by
      rw [eSB]
      exact write_content_fail isSq space_not_sq kw ws1 ws2 ws3 _ a t _ hkw h1 hs1 hsp hnq
    have m5 := write_bare_quoted kw ws1 (a :: t) ws2 ws3 p hkw h1 hs1 hs2 hs3 hc hne hp
    simp [firstMatch, fileCreationPatterns, jsMatch, f1, f2, f3, f4, m5]

/-- C9 (amended): the write patterns are tried in their listed order and the first match
wins: the loop returns the match of a pattern exactly when every pattern listed before it
fails.  And for each of the five quoted forms of the directive (`echo "c" > "p"`,
`echo 'c' > 'p'`, `echo "c" > p`, `echo 'c' > p`, `echo c > "p"`; `echo` or `cat` in any
letter case, a text in quotes without a quote of that kind, a bare operand that does not
begin with a quote character) the extracted content and destination are `c` and `p`, the
texts without their quotes. -/
theorem quoted_write_pattern_wins (kw ws1 ws2 ws3 command c p : Str)
    (h : writeForm kw ws1 ws2 ws3 command c p) :
    firstMatch fileCreationPatterns command = some [command, c, p] ∧
    grp [command, c, p] 1 = c ∧ grp [command, c, p] 2 = p ∧
    ∀ s m, firstMatch fileCreationPatterns s = some m ↔
      ∃ pre re post, fileCreationPatterns = pre ++ re :: post ∧
        (∀ x ∈ pre, jsMatch x s = none) ∧ jsMatch re s = some m :=
  ⟨write_form_match kw ws1 ws2 ws3 command c p h, rfl, rfl,
    fun s m => firstMatch_iff fileCreationPatterns s m⟩

/-- Witness for C9: `echo "hi" > "f"` also matches the unquoted pattern, with the quotes
kept in both operands, and is classified by the fully quoted pattern; so are, each by its
pattern, `echo "hi" > f`, `echo hi > "f"`, `CAT 'a b'>'c d'` and `cat 'a' > b`. -/
theorem quoted_write_pattern_wins_witness :
    (writeCommand (js "echo") [space] (quoted dq (js "hi")) [space] [space]
        (quoted dq (js "f")) = js "echo \"hi\" > \"f\"" ∧
     jsMatch writeBareBare (js "echo \"hi\" > \"f\"") =
      some [js "echo \"hi\" > \"f\"", js "\"hi\"", js "\"f\""] ∧
     firstMatch fileCreationPatterns (js "echo \"hi\" > f") =
      some [js "echo \"hi\" > f", js "hi", js "f"] ∧
     jsMatch writeBareBare (js "echo \"hi\" > f") =
      some [js "echo \"hi\" > f", js "\"hi\"", js "f"] ∧
     firstMatch fileCreationPatterns (js "echo hi > \"f\"") =
      some [js "echo hi > \"f\"", js "hi", js "f"] ∧
     jsMatch writeBareBare (js "echo hi > \"f\"") =
      some [js "echo hi > \"f\"", js "hi", js "\"f\""] ∧
     firstMatch fileCreationPatterns (js "CAT 'a b'>'c d'") =
      some [js "CAT 'a b'>'c d'", js "a b", js "c d"] ∧
     firstMatch fileCreationPatterns (js "cat 'a' > b") =
      some [js "cat 'a' > b", js "a", js "b"]) ∧
    (firstMatch fileCreationPatterns (js "echo \"hi\" > \"f\"") =
      some [js "echo \"hi\" > \"f\"", js "hi", js "f"] ∧
    grp [js "echo \"hi\" > \"f\"", js "hi", js "f"] 1 = js "hi" ∧
    grp [js "echo \"hi\" > \"f\"", js "hi", js "f"] 2 = js "f" ∧
    ∀ s m, firstMatch fileCreationPatterns s = some m ↔
      ∃ pre re post, fileCreationPatterns = pre ++ re :: post ∧
        (∀ x ∈ pre, jsMatch x s = none) ∧ jsMatch re s = some m) :=
  ⟨by decide,
    quoted_write_pattern_wins (js "echo") [space] [space] [space] (js "echo \"hi\" > \"f\"")
      (js "hi") (js "f")
      ⟨Or.inl (by decide), by decide, by decide, by decide, by decide,
        Or.inl ⟨by decide, by decide, by decide, by decide⟩⟩⟩

/-- C9 as stated fails: `echo 'hi' > "f"` matches a quoted pattern (single-quoted content,
bare destination) and the looser patterns for a bare content; the ordered search classifies
it by the former, whose destination is the bare token, so the double quotes stay in the
path and the file written is named `"f"`, quotes included.  In the same way
`echo "hi" > 'f'` keeps the single quotes in its path. -/
theorem mixed_quotes_leave_quotes_in_path :
    jsMatch writeSqBare (js "echo 'hi' > \"f\"") =
      some [js "echo 'hi' > \"f\"", js "hi", js "\"f\""] ∧
    jsMatch writeBareDq (js "echo 'hi' > \"f\"") =
      some [js "echo 'hi' > \"f\"", js "'hi'", js "f"] ∧
    jsMatch writeBareBare (js "echo 'hi' > \"f\"") =
      some [js "echo 'hi' > \"f\"", js "'hi'", js "\"f\""] ∧
    firstMatch fileCreationPatterns (js "echo 'hi' > \"f\"") =
      some [js "echo 'hi' > \"f\"", js "hi", js "\"f\""] ∧
    readFileSync (executeCommand (sampleEnv false) emptyWorld (js "echo 'hi' > \"f\"")).world
      (js "\"f\"") = some (js "hi") ∧
    existsSync (executeCommand (sampleEnv false) emptyWorld (js "echo 'hi' > \"f\"")).world
      (js "f") = false ∧
    firstMatch fileCreationPatterns (js "echo \"hi\" > 'f'") =
      some [js "echo \"hi\" > 'f'", js "hi", js "'f'"] := by
  decide

end MiniCursor
